import Mathlib

/-!
Verification of the atomic-arena crate: a generational slot arena with
decoupled index reservation.

The embedding is a shallow translation of `src/lib.rs` (equivalently the
split files `controller.rs` / `slot.rs` / `error.rs`, which contain the same
definitions).  Rust functions that can panic (out-of-bounds slot indexing,
`unwrap`, and the explicit `panic!` calls in the slot-link setters and in the
iterators) are modelled as `Option`-valued functions where `none` means the
call panics (or, for fuel exhaustion of an iterator walk, fails to produce a
result).  Machine integers (`usize`) are modelled as `Nat`; the generation
counters, which the code increments with wrapping atomic `fetch_add` and a
plain `+= 1`, are wrapped modulo `2 ^ 64`.  The `Controller` type in the code
is an `Arc<ControllerInner>`; in this single-threaded embedding the shared
state is carried inline as a `ControllerInner` field of the `Arena`, and
"calling `try_reserve` on a controller clone" acts on that field.
-/

namespace AtomicArena

/-- `usize::MAX`, used by the code as the sentinel `NO_NEXT_FREE_SLOT`. -/
def NO_NEXT_FREE_SLOT : Nat := 2 ^ 64 - 1

/-- Wrapping `usize` arithmetic: the generation counters are incremented with
`AtomicUsize::fetch_add(1)` (which wraps) and `generation += 1`. -/
def usizeWrap (n : Nat) : Nat := n % 2 ^ 64

/-- `Index`: a slot position together with the generation it was handed out at. -/
structure Index where
  index : Nat
  generation : Nat
deriving DecidableEq

/-- The error returned by `try_reserve` on a full arena. -/
inductive ArenaFull where
  | mk : ArenaFull
deriving DecidableEq

/-- The error returned by `insert_with_index` for a non-reserved index. -/
inductive IndexNotReserved where
  | mk : IndexNotReserved
deriving DecidableEq

/-- One slot of the controller: `free` flag, generation counter and the
free-list successor (with `NO_NEXT_FREE_SLOT` as sentinel). -/
structure ControllerSlot where
  free : Bool
  generation : Nat
  next_free_slot_index : Nat
deriving DecidableEq

/-- The shared state of all controllers of an arena. -/
structure ControllerInner where
  slots : List ControllerSlot
  first_free_slot_index : Nat
deriving DecidableEq

/-- `ControllerInner::new`. -/
def ControllerInner.new (capacity : Nat) : ControllerInner :=
  { slots := (List.range capacity).map fun i =>
      { free := true
        generation := 0
        next_free_slot_index := if i < capacity - 1 then i + 1 else NO_NEXT_FREE_SLOT }
    first_free_slot_index := 0 }

/-- `ControllerInner::try_reserve`.  Returns `none` when the code would panic
(indexing `self.slots[first_free_slot_index]` out of bounds). -/
def ControllerInner.try_reserve (c : ControllerInner) :
    Option (Except ArenaFull Index × ControllerInner) :=
  if c.first_free_slot_index = NO_NEXT_FREE_SLOT then
    some (Except.error ArenaFull.mk, c)
  else
    match c.slots.get? c.first_free_slot_index with
    | none => none
    | some slot =>
      some (Except.ok { index := c.first_free_slot_index, generation := slot.generation },
        { slots := c.slots.set c.first_free_slot_index { slot with free := false }
          first_free_slot_index := slot.next_free_slot_index })

/-- `ControllerInner::free`: mark the slot free, bump its generation and push
it on the free list.  `none` models the out-of-bounds panic. -/
def ControllerInner.free (c : ControllerInner) (index : Nat) : Option ControllerInner :=
  match c.slots.get? index with
  | none => none
  | some slot =>
    some { slots := c.slots.set index
            { free := true
              generation := usizeWrap (slot.generation + 1)
              next_free_slot_index := c.first_free_slot_index }
           first_free_slot_index := index }

/-- `ArenaSlotState`. -/
inductive ArenaSlotState (T : Type) where
  | Free : ArenaSlotState T
  | Occupied (data : T) (previous_occupied_slot_index : Option Nat)
      (next_occupied_slot_index : Option Nat) : ArenaSlotState T
deriving DecidableEq

/-- `ArenaSlot`. -/
structure ArenaSlot (T : Type) where
  state : ArenaSlotState T
  generation : Nat
deriving DecidableEq

variable {T : Type}

/-- `ArenaSlot::new`. -/
def ArenaSlot.new : ArenaSlot T := ⟨ArenaSlotState.Free, 0⟩

/-- `ArenaSlot::set_previous_occupied_slot_index`; `none` is the
`panic!("expected a slot to be occupied")` branch. -/
def ArenaSlot.set_previous_occupied_slot_index (s : ArenaSlot T) (idx : Option Nat) :
    Option (ArenaSlot T) :=
  match s.state with
  | ArenaSlotState.Occupied d _ n => some ⟨ArenaSlotState.Occupied d idx n, s.generation⟩
  | ArenaSlotState.Free => none

/-- `ArenaSlot::set_next_occupied_slot_index`; `none` is the panic branch. -/
def ArenaSlot.set_next_occupied_slot_index (s : ArenaSlot T) (idx : Option Nat) :
    Option (ArenaSlot T) :=
  match s.state with
  | ArenaSlotState.Occupied d p _ => some ⟨ArenaSlotState.Occupied d p idx, s.generation⟩
  | ArenaSlotState.Free => none

/-- The arena.  The `controller` field is the `ControllerInner` shared through
the `Arc` of the owned `Controller`. -/
structure Arena (T : Type) where
  controller : ControllerInner
  slots : List (ArenaSlot T)
  first_occupied_slot_index : Option Nat
deriving DecidableEq

/-- `Arena::new`. -/
def Arena.new (capacity : Nat) : Arena T :=
  { controller := ControllerInner.new capacity
    slots := (List.range capacity).map fun _ => ArenaSlot.new
    first_occupied_slot_index := none }

/-- `Arena::capacity`. -/
def Arena.capacity (a : Arena T) : Nat := a.slots.length

/-- `Arena::len`. -/
def Arena.len (a : Arena T) : Nat :=
  (a.slots.filter fun s =>
    match s.state with
    | ArenaSlotState.Occupied _ _ _ => true
    | ArenaSlotState.Free => false).length

/-- Update the slot at position `i` with `set_next_occupied_slot_index`,
modelling `self.slots[i].set_next_occupied_slot_index(nx)` including both
panic opportunities. -/
def updNextAt (slots : List (ArenaSlot T)) (i : Nat) (nx : Option Nat) :
    Option (List (ArenaSlot T)) :=
  match slots.get? i with
  | none => none
  | some s =>
    match s.set_next_occupied_slot_index nx with
    | none => none
    | some s2 => some (slots.set i s2)

/-- Update the slot at position `i` with `set_previous_occupied_slot_index`. -/
def updPrevAt (slots : List (ArenaSlot T)) (i : Nat) (pr : Option Nat) :
    Option (List (ArenaSlot T)) :=
  match slots.get? i with
  | none => none
  | some s =>
    match s.set_previous_occupied_slot_index pr with
    | none => none
    | some s2 => some (slots.set i s2)

/-- The head-of-occupied-list update at the start of `insert_with_index`:
`if let Some(head_index) = self.first_occupied_slot_index \x7b
self.slots[head_index].set_previous_occupied_slot_index(Some(index.index)) \x7d`. -/
def headUpd (a : Arena T) (p : Nat) : Option (List (ArenaSlot T)) :=
  match a.first_occupied_slot_index with
  | none => some a.slots
  | some head_index => updPrevAt a.slots head_index (some p)

/-- `Arena::insert_with_index`. -/
def Arena.insert_with_index (a : Arena T) (index : Index) (data : T) :
    Option (Except IndexNotReserved Unit × Arena T) :=
  match a.slots.get? index.index with
  | none => none
  | some slot =>
    match slot.state with
    | ArenaSlotState.Occupied _ _ _ => some (Except.error IndexNotReserved.mk, a)
    | ArenaSlotState.Free =>
      if slot.generation ≠ index.generation then
        some (Except.error IndexNotReserved.mk, a)
      else
        match headUpd a index.index with
        | none => none
        | some slots2 =>
          some (Except.ok (),
            { controller := a.controller
              slots := slots2.set index.index
                ⟨ArenaSlotState.Occupied data none a.first_occupied_slot_index, slot.generation⟩
              first_occupied_slot_index := some index.index })

/-- `Arena::insert`: reserve then `insert_with_index(...).unwrap()`. -/
def Arena.insert (a : Arena T) (data : T) : Option (Except ArenaFull Index × Arena T) :=
  match a.controller.try_reserve with
  | none => none
  | some (Except.error e, c2) => some (Except.error e, { a with controller := c2 })
  | some (Except.ok index, c2) =>
    match Arena.insert_with_index { a with controller := c2 } index data with
    | none => none
    | some (Except.error _, _) => none
    | some (Except.ok _, a2) => some (Except.ok index, a2)

/-- The neighbour update of `remove` on the removed slot's predecessor:
`if let Some(previous_index) = previous_occupied_slot_index \x7b
self.slots[previous_index].set_next_occupied_slot_index(next_occupied_slot_index) \x7d`. -/
def prevUpd (slots : List (ArenaSlot T)) (pr nx : Option Nat) :
    Option (List (ArenaSlot T)) :=
  match pr with
  | none => some slots
  | some pi => updNextAt slots pi nx

/-- The neighbour update of `remove` on the removed slot's successor. -/
def nextUpd (slots : List (ArenaSlot T)) (nx pr : Option Nat) :
    Option (List (ArenaSlot T)) :=
  match nx with
  | none => some slots
  | some ni => updPrevAt slots ni pr

/-- `Arena::remove`. -/
def Arena.remove (a : Arena T) (index : Index) : Option (Option T × Arena T) :=
  match a.slots.get? index.index with
  | none => none
  | some slot =>
    if slot.generation ≠ index.generation then
      some (none, a)
    else
      match slot.state with
      | ArenaSlotState.Free =>
        some (none, { a with slots := a.slots.set index.index ⟨ArenaSlotState.Free, slot.generation⟩ })
      | ArenaSlotState.Occupied data previous_index next_index =>
        match a.controller.free index.index with
        | none => none
        | some c2 =>
          match prevUpd (a.slots.set index.index
              ⟨ArenaSlotState.Free, usizeWrap (slot.generation + 1)⟩) previous_index next_index with
          | none => none
          | some slots2 =>
            match nextUpd slots2 next_index previous_index with
            | none => none
            | some slots3 =>
              match a.first_occupied_slot_index with
              | none => none
              | some fi =>
                some (some data,
                  { controller := c2
                    slots := slots3
                    first_occupied_slot_index :=
                      if fi = index.index then next_index else a.first_occupied_slot_index })

/-- `Arena::get`.  The outer `Option` is the panic monad (out-of-bounds
indexing of `self.slots[index.index]`); the inner one is the return value. -/
def Arena.get (a : Arena T) (index : Index) : Option (Option T) :=
  match a.slots.get? index.index with
  | none => none
  | some slot =>
    if slot.generation ≠ index.generation then some none
    else
      match slot.state with
      | ArenaSlotState.Free => some none
      | ArenaSlotState.Occupied data _ _ => some (some data)

/-- `Arena::get_mut`: the same checks as `get`; the returned mutable reference
is modelled by the value it points at. -/
def Arena.get_mut (a : Arena T) (index : Index) : Option (Option T) :=
  match a.slots.get? index.index with
  | none => none
  | some slot =>
    if slot.generation ≠ index.generation then some none
    else
      match slot.state with
      | ArenaSlotState.Free => some none
      | ArenaSlotState.Occupied data _ _ => some (some data)

/-- A caller writing `v` through the mutable reference returned by `get_mut`
(`if let Some(r) = arena.get_mut(index) \x7b *r = v \x7d`).  Used by the trace
semantics to model the mutating read access of `get_mut`/`iter_mut`. -/
def Arena.set_via_get_mut (a : Arena T) (index : Index) (v : T) : Option (Arena T) :=
  match a.slots.get? index.index with
  | none => none
  | some slot =>
    if slot.generation ≠ index.generation then some a
    else
      match slot.state with
      | ArenaSlotState.Free => some a
      | ArenaSlotState.Occupied _ pr nx =>
        let slots2 := a.slots.set index.index ⟨ArenaSlotState.Occupied v pr nx, slot.generation⟩
        some { a with slots := slots2 }

/-- The fully consumed forward iterator (`Iter::next` driven to exhaustion),
walking `next_occupied_slot_index` links from `start`.  `none` models the
`panic!("the iterator should not encounter a free slot")`, an out-of-bounds
position, or a walk that does not terminate within `fuel` steps (the Rust
iterator would loop forever on such a corrupted list). -/
def Arena.iterAux (slots : List (ArenaSlot T)) : Option Nat → Nat → Option (List (Index × T))
  | none, _ => some []
  | some _, 0 => none
  | some i, fuel + 1 =>
    match slots.get? i with
    | none => none
    | some slot =>
      match slot.state with
      | ArenaSlotState.Free => none
      | ArenaSlotState.Occupied data _ nx =>
        match Arena.iterAux slots nx fuel with
        | none => none
        | some rest => some ((⟨i, slot.generation⟩, data) :: rest)

/-- `Arena::iter`, fully consumed. -/
def Arena.iter (a : Arena T) : Option (List (Index × T)) :=
  Arena.iterAux a.slots a.first_occupied_slot_index (a.slots.length + 1)

/-- Modelled from the spec: `retain(predicate)` is not present in the source
files of this snapshot.  Per the spec it "walks the occupied list; for each
entry where `predicate(value)` is false, removes it via the same slot-removal
logic as `remove`, continuing traversal using the pre-removal captured next
pointer".  Encountering a free slot mid-walk is the fatal traversal error of
the spec (`none`). -/
def Arena.retainAux (p : T → Bool) : Arena T → Option Nat → Nat → Option (Arena T)
  | a, none, _ => some a
  | _, some _, 0 => none
  | a, some i, fuel + 1 =>
    match a.slots.get? i with
    | none => none
    | some slot =>
      match slot.state with
      | ArenaSlotState.Free => none
      | ArenaSlotState.Occupied data _ nx =>
        if p data then Arena.retainAux p a nx fuel
        else
          match a.remove ⟨i, slot.generation⟩ with
          | none => none
          | some (_, a2) => Arena.retainAux p a2 nx fuel

/-- Modelled from the spec: `retain(predicate)`. -/
def Arena.retain (p : T → Bool) (a : Arena T) : Option (Arena T) :=
  Arena.retainAux p a a.first_occupied_slot_index (a.slots.length + 1)

/-- Modelled from the spec: `drain_filter(predicate)` is not present in the
source files of this snapshot.  Per the spec it is "like `retain`'s removal
behavior but yields each removed `(Index, value)` pair"; the predicate selects
the entries to remove (so `retain p` removes the same entries as
`drain_filter (fun x => !(p x))`). -/
def Arena.drainFilterAux (p : T → Bool) :
    Arena T → Option Nat → Nat → Option (List (Index × T) × Arena T)
  | a, none, _ => some ([], a)
  | _, some _, 0 => none
  | a, some i, fuel + 1 =>
    match a.slots.get? i with
    | none => none
    | some slot =>
      match slot.state with
      | ArenaSlotState.Free => none
      | ArenaSlotState.Occupied data _ nx =>
        if p data then
          match a.remove ⟨i, slot.generation⟩ with
          | none => none
          | some (_, a2) =>
            match Arena.drainFilterAux p a2 nx fuel with
            | none => none
            | some (removed, a3) => some ((⟨i, slot.generation⟩, data) :: removed, a3)
        else Arena.drainFilterAux p a nx fuel

/-- Modelled from the spec: `drain_filter(predicate)`, fully consumed. -/
def Arena.drain_filter (p : T → Bool) (a : Arena T) :
    Option (List (Index × T) × Arena T) :=
  Arena.drainFilterAux p a a.first_occupied_slot_index (a.slots.length + 1)

/-! ### Basic helper lemmas -/

deriving instance DecidableEq for Except

theorem usizeWrap_lt (n : Nat) : usizeWrap n < 2 ^ 64 :=
  Nat.mod_lt _ (by norm_num)

theorem usizeWrap_succ_ne (g : Nat) : usizeWrap (g + 1) ≠ g := by
  unfold usizeWrap
  rcases Nat.lt_or_ge g (2 ^ 64) with h | h
  · rcases Nat.lt_or_ge (g + 1) (2 ^ 64) with h2 | h2
    · rw [Nat.mod_eq_of_lt h2]; omega
    · have h3 : g + 1 = 2 ^ 64 := by omega
      rw [h3, Nat.mod_self]
      have : (1 : Nat) < 2 ^ 64 := by norm_num
      omega
  · have := Nat.mod_lt (g + 1) (show 0 < 2 ^ 64 by norm_num)
    omega

theorem add_wrap_ne (g j : Nat) (h1 : 0 < j) (h2 : j < 2 ^ 64) : (g + j) % 2 ^ 64 ≠ g := by
  rcases Nat.lt_or_ge g (2 ^ 64) with hg | hg
  · rcases Nat.lt_or_ge (g + j) (2 ^ 64) with hh | hh
    · rw [Nat.mod_eq_of_lt hh]; omega
    · have h3 : (g + j) % 2 ^ 64 = (g + j - 2 ^ 64) % 2 ^ 64 := Nat.mod_eq_sub_mod hh
      rw [h3, Nat.mod_eq_of_lt (by omega)]
      omega
  · have := Nat.mod_lt (g + j) (show 0 < 2 ^ 64 by norm_num)
    omega

theorem get?_some_lt {α : Type} {l : List α} {n : Nat} {x : α}
    (h : l.get? n = some x) : n < l.length := by
  induction l generalizing n with
  | nil => cases h
  | cons a t ih =>
    cases n with
    | zero => simp
    | succ m =>
      simp only [List.get?] at h
      have := ih h
      simp
      omega

theorem get?_lt_some {α : Type} {l : List α} {n : Nat} (h : n < l.length) :
    ∃ x, l.get? n = some x := by
  induction l generalizing n with
  | nil => simp at h
  | cons a t ih =>
    cases n with
    | zero => exact ⟨a, rfl⟩
    | succ m =>
      simp only [List.length_cons] at h
      exact ih (by omega)

theorem set_get?_same {α : Type} {l : List α} {n : Nat} {x : α}
    (h : l.get? n = some x) : l.set n x = l := by
  induction l generalizing n with
  | nil => cases h
  | cons a t ih =>
    cases n with
    | zero =>
      simp only [List.get?] at h
      cases h
      rfl
    | succ m =>
      simp only [List.get?] at h
      simp [List.set, ih h]

theorem get?_set_self {α : Type} {l : List α} {n : Nat} (x : α)
    (h : n < l.length) : (l.set n x).get? n = some x := by
  induction l generalizing n with
  | nil => simp at h
  | cons a t ih =>
    cases n with
    | zero => rfl
    | succ m =>
      simp only [List.length_cons] at h
      exact ih (by omega)

theorem get?_set_ne {α : Type} (l : List α) {m n : Nat} (x : α) (h : m ≠ n) :
    (l.set m x).get? n = l.get? n := by
  induction l generalizing m n with
  | nil => rfl
  | cons a t ih =>
    cases m with
    | zero =>
      cases n with
      | zero => exact absurd rfl h
      | succ k => rfl
    | succ m2 =>
      cases n with
      | zero => rfl
      | succ k => exact ih (by omega)

theorem length_set' {α : Type} (l : List α) (n : Nat) (x : α) :
    (l.set n x).length = l.length := by
  simp

/-- Occupied test on a slot state. -/
def ArenaSlotState.isOccupied : ArenaSlotState T → Bool
  | ArenaSlotState.Occupied _ _ _ => true
  | ArenaSlotState.Free => false

/-- Is the slot at position `j` occupied? -/
def occAt (slots : List (ArenaSlot T)) (j : Nat) : Bool :=
  match slots.get? j with
  | some s => s.state.isOccupied
  | none => false

/-! ### Characterization of `insert_with_index` -/

theorem insert_with_index_err_iff (a : Arena T) (i : Index) (v : T)
    (r : Except IndexNotReserved Unit × Arena T)
    (h : a.insert_with_index i v = some r) :
    (r.1 = Except.error IndexNotReserved.mk ↔
      ∃ s, a.slots.get? i.index = some s ∧
        (s.state.isOccupied = true ∨ s.generation ≠ i.generation)) := by
  unfold Arena.insert_with_index at h
  split at h
  · cases h
  · rename_i s hs
    split at h
    · rename_i d pr nx hst
      cases h
      simp only [true_iff]
      refine ⟨s, hs, Or.inl ?_⟩
      rw [hst]; rfl
    · rename_i hst
      split at h
      · rename_i hg
        cases h
        simp only [true_iff]
        exact ⟨s, hs, Or.inr hg⟩
      · rename_i hg
        split at h
        · cases h
        · rename_i slots2 hupd
          cases h
          constructor
          · intro hcon; cases hcon
          · rintro ⟨s2, hs2, hcase⟩
            rw [hs] at hs2; cases hs2
            rcases hcase with hocc | hgen
            · rw [hst] at hocc; cases hocc
            · exact absurd (by push_neg at hg; exact hg) hgen

theorem insert_with_index_err_noop (a : Arena T) (i : Index) (v : T)
    (a2 : Arena T) (e : IndexNotReserved)
    (h : a.insert_with_index i v = some (Except.error e, a2)) : a2 = a := by
  unfold Arena.insert_with_index at h
  split at h
  · cases h
  · rename_i s hs
    split at h
    · cases h; rfl
    · split at h
      · cases h; rfl
      · split at h
        · cases h
        · cases h

theorem insert_with_index_ok_spec (a : Arena T) (i : Index) (v : T) (a2 : Arena T)
    (h : a.insert_with_index i v = some (Except.ok (), a2)) :
    ∃ s, a.slots.get? i.index = some s ∧ s.state = ArenaSlotState.Free ∧
      s.generation = i.generation ∧
      ∃ slots2,
        ((a.first_occupied_slot_index = none ∧ slots2 = a.slots) ∨
         (∃ h0 d pr nx g, a.first_occupied_slot_index = some h0 ∧
            a.slots.get? h0 = some ⟨ArenaSlotState.Occupied d pr nx, g⟩ ∧
            slots2 = a.slots.set h0 ⟨ArenaSlotState.Occupied d (some i.index) nx, g⟩)) ∧
        a2 = { controller := a.controller
               slots := slots2.set i.index
                 ⟨ArenaSlotState.Occupied v none a.first_occupied_slot_index, s.generation⟩
               first_occupied_slot_index := some i.index } := by
  unfold Arena.insert_with_index at h
  split at h
  · cases h
  · rename_i s hs
    split at h
    · cases h
    · rename_i hst
      split at h
      · cases h
      · rename_i hg
        push_neg at hg
        split at h
        · cases h
        · rename_i slots2 hupd
          cases h
          refine ⟨s, hs, hst, hg, slots2, ?_, rfl⟩
          unfold headUpd at hupd
          split at hupd
          · rename_i hf
            cases hupd
            exact Or.inl ⟨hf, rfl⟩
          · rename_i h0 hf
            unfold updPrevAt at hupd
            split at hupd
            · cases hupd
            · rename_i s0 hh0
              split at hupd
              · cases hupd
              · rename_i s02 hss
                cases hupd
                unfold ArenaSlot.set_previous_occupied_slot_index at hss
                split at hss
                · rename_i d0 pr0 nx0 hs0st
                  cases hss
                  refine Or.inr ⟨h0, d0, pr0, nx0, s0.generation, hf, ?_, rfl⟩
                  rw [hh0]
                  congr 1
                  cases s0
                  simp only at hs0st
                  rw [hs0st]
                · cases hss

/-! ### Characterization of `remove` -/

theorem prevUpd_of_none (slots : List (ArenaSlot T)) (nx : Option Nat) :
    prevUpd slots none nx = some slots := rfl

theorem prevUpd_of_some (slots : List (ArenaSlot T)) (pi : Nat) (nx : Option Nat)
    (dp : T) (pp np : Option Nat) (gp : Nat)
    (hpi : slots.get? pi = some ⟨ArenaSlotState.Occupied dp pp np, gp⟩) :
    prevUpd slots (some pi) nx =
      some (slots.set pi ⟨ArenaSlotState.Occupied dp pp nx, gp⟩) := by
  simp only [prevUpd, updNextAt, hpi, ArenaSlot.set_next_occupied_slot_index]

theorem nextUpd_of_none (slots : List (ArenaSlot T)) (pr : Option Nat) :
    nextUpd slots none pr = some slots := rfl

theorem nextUpd_of_some (slots : List (ArenaSlot T)) (ni : Nat) (pr : Option Nat)
    (dn : T) (pn nn : Option Nat) (gn : Nat)
    (hni : slots.get? ni = some ⟨ArenaSlotState.Occupied dn pn nn, gn⟩) :
    nextUpd slots (some ni) pr =
      some (slots.set ni ⟨ArenaSlotState.Occupied dn pr nn, gn⟩) := by
  simp only [nextUpd, updPrevAt, hni, ArenaSlot.set_previous_occupied_slot_index]

theorem remove_stale (a : Arena T) (i : Index) (s : ArenaSlot T)
    (hs : a.slots.get? i.index = some s) (hg : s.generation ≠ i.generation) :
    a.remove i = some (none, a) := by
  unfold Arena.remove
  rw [hs]
  simp only [ne_eq, hg, not_false_eq_true, if_true, ite_true]

theorem remove_free_noop (a : Arena T) (i : Index) (s : ArenaSlot T)
    (hs : a.slots.get? i.index = some s) (hg : s.generation = i.generation)
    (hfree : s.state = ArenaSlotState.Free) :
    a.remove i = some (none, a) := by
  unfold Arena.remove
  rw [hs]
  simp only [ne_eq, hg, not_true_eq_false, if_neg, ite_false, hfree]
  have hsame : a.slots.set i.index ⟨ArenaSlotState.Free, i.generation⟩ = a.slots := by
    apply set_get?_same
    rw [hs]
    congr 1
    cases s
    simp only at hfree hg
    rw [hfree, hg]
  rw [hsame]

/-- The controller state produced by `ControllerInner::free` at position `p`
whose slot was `cs`. -/
def freedController (c : ControllerInner) (p : Nat) (cs : ControllerSlot) : ControllerInner :=
  { slots := c.slots.set p ⟨true, usizeWrap (cs.generation + 1), c.first_free_slot_index⟩
    first_free_slot_index := p }

theorem controller_free_eq (c : ControllerInner) (p : Nat) (cs : ControllerSlot)
    (hcs : c.slots.get? p = some cs) :
    c.free p = some (freedController c p cs) := by
  unfold ControllerInner.free freedController
  rw [hcs]

theorem remove_ok_of (a : Arena T) (i : Index) (d : T) (pr nx : Option Nat)
    (cs : ControllerSlot) (fi : Nat) (slots2 slots3 : List (ArenaSlot T))
    (hs : a.slots.get? i.index = some ⟨ArenaSlotState.Occupied d pr nx, i.generation⟩)
    (hcs : a.controller.slots.get? i.index = some cs)
    (hfi : a.first_occupied_slot_index = some fi)
    (h2 : prevUpd (a.slots.set i.index
            ⟨ArenaSlotState.Free, usizeWrap (i.generation + 1)⟩) pr nx = some slots2)
    (h3 : nextUpd slots2 nx pr = some slots3) :
    a.remove i = some (some d,
      { controller := freedController a.controller i.index cs
        slots := slots3
        first_occupied_slot_index :=
          if fi = i.index then nx else a.first_occupied_slot_index }) := by
  unfold Arena.remove
  rw [hs]
  simp only [ne_eq, not_true_eq_false, if_neg, ite_false]
  simp only [controller_free_eq a.controller i.index cs hcs, h2, h3, hfi]

theorem remove_none_noop (a : Arena T) (i : Index) (a2 : Arena T)
    (h : a.remove i = some (none, a2)) : a2 = a := by
  unfold Arena.remove at h
  split at h
  · cases h
  · rename_i s hs
    split at h
    · cases h; rfl
    · rename_i hg
      push_neg at hg
      split at h
      · rename_i hst
        cases h
        have hsame : a.slots.set i.index ⟨ArenaSlotState.Free, s.generation⟩ = a.slots := by
          apply set_get?_same
          rw [hs]
          congr 1
          cases s
          simp only at hst
          rw [hst]
        rw [hsame]
      · split at h
        · cases h
        · split at h
          · cases h
          · split at h
            · cases h
            · split at h
              · cases h
              · simp at h

theorem remove_ok_spec (a : Arena T) (i : Index) (d : T) (a2 : Arena T)
    (h : a.remove i = some (some d, a2)) :
    ∃ pr nx cs fi,
      a.slots.get? i.index = some ⟨ArenaSlotState.Occupied d pr nx, i.generation⟩ ∧
      a.controller.slots.get? i.index = some cs ∧
      a.first_occupied_slot_index = some fi ∧
      ∃ slots2 slots3,
        prevUpd (a.slots.set i.index
          ⟨ArenaSlotState.Free, usizeWrap (i.generation + 1)⟩) pr nx = some slots2 ∧
        nextUpd slots2 nx pr = some slots3 ∧
        a2 = { controller := freedController a.controller i.index cs
               slots := slots3
               first_occupied_slot_index :=
                 if fi = i.index then nx else a.first_occupied_slot_index } := by
  unfold Arena.remove at h
  split at h
  · cases h
  · rename_i s hs
    split at h
    · simp at h
    · rename_i hg
      push_neg at hg
      split at h
      · simp at h
      · rename_i d0 pr nx hst
        split at h
        · cases h
        · rename_i c2 hfr
          split at h
          · cases h
          · rename_i slots2 h2
            split at h
            · cases h
            · rename_i slots3 h3
              split at h
              · cases h
              · rename_i fi hfi
                rw [Option.some_inj] at h
                have hd : d0 = d := congrArg (fun x => (Prod.fst x).getD d) h
                have ha2 : a2 = { controller := c2
                                  slots := slots3
                                  first_occupied_slot_index :=
                                    if fi = i.index then nx
                                    else a.first_occupied_slot_index } :=
                  (congrArg Prod.snd h).symm
                unfold ControllerInner.free at hfr
                split at hfr
                · cases hfr
                · rename_i cs hcs
                  have hs2 : a.slots.get? i.index =
                      some ⟨ArenaSlotState.Occupied d pr nx, i.generation⟩ := by
                    rw [hs]
                    congr 1
                    cases s
                    simp only at hst hg
                    rw [hst, hg, hd]
                  refine ⟨pr, nx, cs, fi, hs2, hcs, hfi, slots2, slots3,
                    (by rw [hg] at h2; exact h2), h3, ?_⟩
                  rw [ha2]
                  have hc2 : c2 = freedController a.controller i.index cs := by
                    rw [Option.some_inj] at hfr
                    rw [← hfr]
                    rfl
                  rw [hc2]

/-! ### Constructive lemmas for `insert_with_index`, `get`, `try_reserve`, `insert` -/

theorem insert_with_index_ok_of_none (a : Arena T) (i : Index) (v : T) (s : ArenaSlot T)
    (hs : a.slots.get? i.index = some s) (hst : s.state = ArenaSlotState.Free)
    (hg : s.generation = i.generation) (hf : a.first_occupied_slot_index = none) :
    a.insert_with_index i v = some (Except.ok (),
      { controller := a.controller
        slots := a.slots.set i.index ⟨ArenaSlotState.Occupied v none none, s.generation⟩
        first_occupied_slot_index := some i.index }) := by
  unfold Arena.insert_with_index
  rw [hs]
  simp only [hst, hg, ne_eq, not_true_eq_false, if_neg, ite_false, headUpd, hf]

theorem insert_with_index_ok_of_head (a : Arena T) (i : Index) (v : T) (s : ArenaSlot T)
    (h0 : Nat) (d0 : T) (pr0 nx0 : Option Nat) (g0 : Nat)
    (hs : a.slots.get? i.index = some s) (hst : s.state = ArenaSlotState.Free)
    (hg : s.generation = i.generation) (hf : a.first_occupied_slot_index = some h0)
    (hh0 : a.slots.get? h0 = some ⟨ArenaSlotState.Occupied d0 pr0 nx0, g0⟩) :
    a.insert_with_index i v = some (Except.ok (),
      { controller := a.controller
        slots := (a.slots.set h0 ⟨ArenaSlotState.Occupied d0 (some i.index) nx0, g0⟩).set i.index
          ⟨ArenaSlotState.Occupied v none (some h0), s.generation⟩
        first_occupied_slot_index := some i.index }) := by
  unfold Arena.insert_with_index
  rw [hs]
  simp only [hst, hg, ne_eq, not_true_eq_false, if_neg, ite_false, headUpd, hf,
    updPrevAt, hh0, ArenaSlot.set_previous_occupied_slot_index]

theorem get_of_occupied (a : Arena T) (i : Index) (d : T) (pr nx : Option Nat)
    (hs : a.slots.get? i.index = some ⟨ArenaSlotState.Occupied d pr nx, i.generation⟩) :
    a.get i = some (some d) := by
  unfold Arena.get
  rw [hs]
  simp

theorem get_of_gen_ne (a : Arena T) (i : Index) (s : ArenaSlot T)
    (hs : a.slots.get? i.index = some s) (hg : s.generation ≠ i.generation) :
    a.get i = some none := by
  unfold Arena.get
  rw [hs]
  simp only [ne_eq, hg, not_false_eq_true, if_true, ite_true]

theorem get_mut_of_gen_ne (a : Arena T) (i : Index) (s : ArenaSlot T)
    (hs : a.slots.get? i.index = some s) (hg : s.generation ≠ i.generation) :
    a.get_mut i = some none := by
  unfold Arena.get_mut
  rw [hs]
  simp only [ne_eq, hg, not_false_eq_true, if_true, ite_true]

theorem get_of_free (a : Arena T) (i : Index) (s : ArenaSlot T)
    (hs : a.slots.get? i.index = some s) (hfree : s.state = ArenaSlotState.Free) :
    a.get i = some none := by
  unfold Arena.get
  rw [hs]
  by_cases hg : s.generation = i.generation
  · simp only [hg, ne_eq, not_true_eq_false, if_neg, ite_false, hfree]
  · simp only [ne_eq, hg, not_false_eq_true, if_true, ite_true]

theorem try_reserve_ok_spec (c : ControllerInner) (i : Index) (c2 : ControllerInner)
    (h : c.try_reserve = some (Except.ok i, c2)) :
    c.first_free_slot_index ≠ NO_NEXT_FREE_SLOT ∧
    ∃ cs, c.slots.get? c.first_free_slot_index = some cs ∧
      i = ⟨c.first_free_slot_index, cs.generation⟩ ∧
      c2 = { slots := c.slots.set c.first_free_slot_index
              ⟨false, cs.generation, cs.next_free_slot_index⟩
             first_free_slot_index := cs.next_free_slot_index } := by
  unfold ControllerInner.try_reserve at h
  split at h
  · simp at h
  · rename_i hne
    split at h
    · cases h
    · rename_i cs hcs
      cases h
      exact ⟨hne, cs, hcs, rfl, rfl⟩

theorem try_reserve_err_spec (c : ControllerInner) (e : ArenaFull) (c2 : ControllerInner)
    (h : c.try_reserve = some (Except.error e, c2)) :
    c2 = c ∧ c.first_free_slot_index = NO_NEXT_FREE_SLOT := by
  unfold ControllerInner.try_reserve at h
  split at h
  · rename_i heq
    cases h
    exact ⟨rfl, heq⟩
  · split at h
    · cases h
    · simp at h

theorem insert_ok_spec (a : Arena T) (v : T) (i : Index) (a2 : Arena T)
    (h : a.insert v = some (Except.ok i, a2)) :
    ∃ c2, a.controller.try_reserve = some (Except.ok i, c2) ∧
      Arena.insert_with_index { a with controller := c2 } i v = some (Except.ok (), a2) := by
  unfold Arena.insert at h
  split at h
  · cases h
  · cases h
  · rename_i _x idx c2 hres
    rcases hwi : Arena.insert_with_index
        { controller := c2, slots := a.slots
          first_occupied_slot_index := a.first_occupied_slot_index } idx v with _ | ⟨r, a3⟩
    · rw [hwi] at h; cases h
    · rw [hwi] at h
      cases r with
      | error e0 => simp at h
      | ok u =>
        simp only [Option.some_inj] at h
        have hi : idx = i := congrArg (fun x => match x.1 with
          | Except.ok j => j
          | Except.error _ => i) h
        have ha : a3 = a2 := congrArg Prod.snd h
        cases u
        rw [hi, ha] at hwi
        exact ⟨c2, by rw [← hi]; exact hres, hwi⟩

theorem insert_err_spec (a : Arena T) (v : T) (e : ArenaFull) (a2 : Arena T)
    (h : a.insert v = some (Except.error e, a2)) :
    a2 = a ∧ a.controller.try_reserve = some (Except.error e, a.controller) := by
  unfold Arena.insert at h
  split at h
  · cases h
  · rename_i _x e0 c2 hres
    cases h
    have hspec := try_reserve_err_spec _ _ _ hres
    rw [hspec.1] at hres
    rw [hspec.1]
    exact ⟨rfl, hres⟩
  · rename_i _x idx c2 hres
    rcases hwi : Arena.insert_with_index
        { controller := c2, slots := a.slots
          first_occupied_slot_index := a.first_occupied_slot_index } idx v with _ | ⟨r, a3⟩
    · rw [hwi] at h; cases h
    · rw [hwi] at h
      cases r with
      | error e0 => simp at h
      | ok u => simp at h

/-! ### Claim C2 -/

/-- The conclusion of claim C2: `insert_with_index` fails with
`IndexNotReserved` exactly when the slot is occupied or the generation
mismatches, fails as a complete no-op, and on success produces exactly the
described relinked state. -/
def InsertWithIndexSpec (a : Arena T) (i : Index) (v : T)
    (r : Except IndexNotReserved Unit × Arena T) : Prop :=
  (r.1 = Except.error IndexNotReserved.mk ↔
    ∃ s, a.slots.get? i.index = some s ∧
      (s.state.isOccupied = true ∨ s.generation ≠ i.generation)) ∧
  (∀ e, r.1 = Except.error e → r.2 = a) ∧
  (r.1 = Except.ok () → ∃ s, a.slots.get? i.index = some s ∧
    s.state = ArenaSlotState.Free ∧ s.generation = i.generation ∧
    ∃ slots2,
      ((a.first_occupied_slot_index = none ∧ slots2 = a.slots) ∨
       (∃ h0 d pr nx g, a.first_occupied_slot_index = some h0 ∧
          a.slots.get? h0 = some ⟨ArenaSlotState.Occupied d pr nx, g⟩ ∧
          slots2 = a.slots.set h0 ⟨ArenaSlotState.Occupied d (some i.index) nx, g⟩)) ∧
      r.2 = { controller := a.controller
              slots := slots2.set i.index
                ⟨ArenaSlotState.Occupied v none a.first_occupied_slot_index, s.generation⟩
              first_occupied_slot_index := some i.index })

/-- C2: for every arena state and every index, `insert_with_index(index, value)`
returns `Err(IndexNotReserved)` iff the slot is Occupied or its generation
differs from `index.generation`; on failure the arena is unchanged; on success
the slot becomes the new head of the occupied list, linked as described. -/
theorem claim_C2_insert_with_index (a : Arena T) (i : Index) (v : T)
    (r : Except IndexNotReserved Unit × Arena T)
    (h : a.insert_with_index i v = some r) : InsertWithIndexSpec a i v r := by
  refine ⟨insert_with_index_err_iff a i v r h, ?_, ?_⟩
  · intro e he
    obtain ⟨r1, r2⟩ := r
    simp only at he
    rw [he] at h
    exact insert_with_index_err_noop a i v r2 e h
  · intro hok
    obtain ⟨r1, r2⟩ := r
    simp only at hok
    rw [hok] at h
    exact insert_with_index_ok_spec a i v r2 h

/-- Controller of the concrete C2 witness arena. -/
def c2wC : ControllerInner :=
  { slots := [⟨false, 0, 1⟩, ⟨true, 0, NO_NEXT_FREE_SLOT⟩]
    first_free_slot_index := 1 }

/-- Concrete arena for the C2 witness: capacity 2, value 5 already inserted at
slot 0. -/
def c2wA : Arena Nat :=
  { controller := c2wC
    slots := [⟨ArenaSlotState.Occupied 5 none none, 0⟩, ArenaSlot.new]
    first_occupied_slot_index := some 0 }

/-- Concrete result of the C2 witness call. -/
def c2wR : Except IndexNotReserved Unit × Arena Nat :=
  (Arena.insert_with_index c2wA ⟨1, 0⟩ 7).getD (Except.error IndexNotReserved.mk, Arena.new 0)

theorem claim_C2_insert_with_index_witness :
    Arena.insert_with_index c2wA ⟨1, 0⟩ (7 : Nat) = some c2wR ∧
      InsertWithIndexSpec c2wA ⟨1, 0⟩ 7 c2wR :=
  ⟨by decide, claim_C2_insert_with_index c2wA ⟨1, 0⟩ 7 c2wR (by decide)⟩

/-! ### Claim C5 -/

/-- The conclusion of claim C5: after a successful `insert v` returning `idx`,
`get idx` yields the value, `remove idx` extracts it, and `get idx` afterwards
yields nothing. -/
def RoundTrip (a1 : Arena T) (i : Index) (v : T) : Prop :=
  a1.get i = some (some v) ∧
    ∃ a2, a1.remove i = some (some v, a2) ∧ a2.get i = some none

/-- C5: `insert(v) = Ok(idx)` is followed by `get(idx) = Some(v)`, then
`remove(idx) = Some(v)`, then `get(idx) = None`. -/
theorem claim_C5_round_trip (a : Arena T) (v : T) (i : Index) (a1 : Arena T)
    (h : a.insert v = some (Except.ok i, a1)) : RoundTrip a1 i v := by
  obtain ⟨c2, hres, hwi⟩ := insert_ok_spec a v i a1 h
  obtain ⟨hne, cs0, hcs0, hieq, hc2⟩ := try_reserve_ok_spec _ _ _ hres
  obtain ⟨s, hs, hst, hg, slots2, hdisj, ha1⟩ := insert_with_index_ok_spec _ _ _ _ hwi
  have hii : i.index < a.slots.length := get?_some_lt hs
  have hlen2 : slots2.length = a.slots.length := by
    rcases hdisj with ⟨_, h2⟩ | ⟨h0, d0, pr0, nx0, g0, hf, hh0, h2⟩ <;> simp [h2]
  have hga : a1.slots.get? i.index =
      some ⟨ArenaSlotState.Occupied v none a.first_occupied_slot_index, i.generation⟩ := by
    rw [ha1]
    have := get?_set_self (l := slots2) (n := i.index)
      (⟨ArenaSlotState.Occupied v none a.first_occupied_slot_index, s.generation⟩ : ArenaSlot T)
      (by rw [hlen2]; exact hii)
    rw [this, hg]
  refine ⟨get_of_occupied a1 i v none a.first_occupied_slot_index hga, ?_⟩
  -- controller slot of `a1` at `i.index`
  have hilen : i.index < a.controller.slots.length := by
    have := get?_some_lt hcs0
    have hidx : i.index = a.controller.first_free_slot_index := by rw [hieq]
    rw [hidx]
    exact this
  have hcs1 : a1.controller.slots.get? i.index =
      some ⟨false, cs0.generation, cs0.next_free_slot_index⟩ := by
    rw [ha1]
    simp only
    rw [hc2]
    have hidx : i.index = a.controller.first_free_slot_index := by rw [hieq]
    simp only
    rw [hidx]
    exact get?_set_self _ (get?_some_lt hcs0)
  have hfi : a1.first_occupied_slot_index = some i.index := by rw [ha1]
  -- the freed slot list after removal
  have h2 : prevUpd (a1.slots.set i.index
      ⟨ArenaSlotState.Free, usizeWrap (i.generation + 1)⟩) none a.first_occupied_slot_index =
      some (a1.slots.set i.index ⟨ArenaSlotState.Free, usizeWrap (i.generation + 1)⟩) :=
    prevUpd_of_none _ _
  have hstep : ∃ slots3, nextUpd (a1.slots.set i.index
      ⟨ArenaSlotState.Free, usizeWrap (i.generation + 1)⟩) a.first_occupied_slot_index none =
      some slots3 ∧
      slots3.get? i.index = some ⟨ArenaSlotState.Free, usizeWrap (i.generation + 1)⟩ := by
    have hfreed : (a1.slots.set i.index
        ⟨ArenaSlotState.Free, usizeWrap (i.generation + 1)⟩).get? i.index =
        some ⟨ArenaSlotState.Free, usizeWrap (i.generation + 1)⟩ := by
      apply get?_set_self
      rw [ha1]
      simp only [List.length_set]
      rw [hlen2]
      exact hii
    rcases hdisj with ⟨hfnone, hsl2⟩ | ⟨h0, d0, pr0, nx0, g0, hf, hh0, hsl2⟩
    · rw [hfnone]
      exact ⟨_, nextUpd_of_none _ _, hfreed⟩
    · rw [hf]
      have hne0 : h0 ≠ i.index := by
        intro heq
        rw [heq, hs] at hh0
        have : s.state = ArenaSlotState.Occupied d0 pr0 nx0 := by
          cases Option.some_inj.mp hh0
          rfl
        rw [hst] at this
        cases this
      have hh0at : (a1.slots.set i.index
          ⟨ArenaSlotState.Free, usizeWrap (i.generation + 1)⟩).get? h0 =
          some ⟨ArenaSlotState.Occupied d0 (some i.index) nx0, g0⟩ := by
        rw [get?_set_ne _ _ (fun heq => hne0 heq.symm)]
        rw [ha1]
        simp only
        rw [get?_set_ne _ _ (fun heq => hne0 heq.symm)]
        rw [hsl2]
        exact get?_set_self _ (get?_some_lt hh0)
      refine ⟨_, nextUpd_of_some _ h0 none d0 (some i.index) nx0 g0 hh0at, ?_⟩
      rw [get?_set_ne _ _ hne0]
      exact hfreed
  obtain ⟨slots3, h3, hfreed3⟩ := hstep
  have hrm := remove_ok_of a1 i v none a.first_occupied_slot_index
    ⟨false, cs0.generation, cs0.next_free_slot_index⟩ i.index
    (a1.slots.set i.index ⟨ArenaSlotState.Free, usizeWrap (i.generation + 1)⟩) slots3
    hga hcs1 hfi h2 h3
  refine ⟨_, hrm, ?_⟩
  apply get_of_gen_ne _ _ ⟨ArenaSlotState.Free, usizeWrap (i.generation + 1)⟩ hfreed3
  exact usizeWrap_succ_ne i.generation

/-- Concrete result state of the C5 witness insert. -/
def c5wA : Arena Nat :=
  ((Arena.new 2 : Arena Nat).insert 5).getD (Except.error ArenaFull.mk, Arena.new 0) |>.2

theorem claim_C5_round_trip_witness :
    (Arena.new 2 : Arena Nat).insert 5 = some (Except.ok ⟨0, 0⟩, c5wA) ∧
      RoundTrip c5wA ⟨0, 0⟩ 5 :=
  ⟨by decide, claim_C5_round_trip (Arena.new 2) 5 ⟨0, 0⟩ c5wA (by decide)⟩

/-! ### Dissection of the link-update helpers -/

theorem updNextAt_spec (slots : List (ArenaSlot T)) (pi : Nat) (nx : Option Nat)
    (out : List (ArenaSlot T)) (h : updNextAt slots pi nx = some out) :
    ∃ d pp nn g, slots.get? pi = some ⟨ArenaSlotState.Occupied d pp nn, g⟩ ∧
      out = slots.set pi ⟨ArenaSlotState.Occupied d pp nx, g⟩ := by
  unfold updNextAt at h
  split at h
  · cases h
  · rename_i s hs
    split at h
    · cases h
    · rename_i s2 hs2
      rw [Option.some_inj] at h
      unfold ArenaSlot.set_next_occupied_slot_index at hs2
      split at hs2
      · rename_i d pp nn hst
        rw [Option.some_inj] at hs2
        refine ⟨d, pp, nn, s.generation, ?_, ?_⟩
        · rw [hs]
          congr 1
          cases s
          simp only at hst
          rw [hst]
        · rw [← h, ← hs2]
      · cases hs2

theorem updPrevAt_spec (slots : List (ArenaSlot T)) (ni : Nat) (pr : Option Nat)
    (out : List (ArenaSlot T)) (h : updPrevAt slots ni pr = some out) :
    ∃ d pp nn g, slots.get? ni = some ⟨ArenaSlotState.Occupied d pp nn, g⟩ ∧
      out = slots.set ni ⟨ArenaSlotState.Occupied d pr nn, g⟩ := by
  unfold updPrevAt at h
  split at h
  · cases h
  · rename_i s hs
    split at h
    · cases h
    · rename_i s2 hs2
      rw [Option.some_inj] at h
      unfold ArenaSlot.set_previous_occupied_slot_index at hs2
      split at hs2
      · rename_i d pp nn hst
        rw [Option.some_inj] at hs2
        refine ⟨d, pp, nn, s.generation, ?_, ?_⟩
        · rw [hs]
          congr 1
          cases s
          simp only at hst
          rw [hst]
        · rw [← h, ← hs2]
      · cases hs2

theorem prevUpd_spec (slots : List (ArenaSlot T)) (pr nx : Option Nat)
    (out : List (ArenaSlot T)) (h : prevUpd slots pr nx = some out) :
    (pr = none ∧ out = slots) ∨
    ∃ pi d pp nn g, pr = some pi ∧
      slots.get? pi = some ⟨ArenaSlotState.Occupied d pp nn, g⟩ ∧
      out = slots.set pi ⟨ArenaSlotState.Occupied d pp nx, g⟩ := by
  unfold prevUpd at h
  split at h
  · cases h
    exact Or.inl ⟨rfl, rfl⟩
  · rename_i pi
    obtain ⟨d, pp, nn, g, h1, h2⟩ := updNextAt_spec slots pi nx out h
    exact Or.inr ⟨pi, d, pp, nn, g, rfl, h1, h2⟩

theorem nextUpd_spec (slots : List (ArenaSlot T)) (nx pr : Option Nat)
    (out : List (ArenaSlot T)) (h : nextUpd slots nx pr = some out) :
    (nx = none ∧ out = slots) ∨
    ∃ ni d pp nn g, nx = some ni ∧
      slots.get? ni = some ⟨ArenaSlotState.Occupied d pp nn, g⟩ ∧
      out = slots.set ni ⟨ArenaSlotState.Occupied d pr nn, g⟩ := by
  unfold nextUpd at h
  split at h
  · cases h
    exact Or.inl ⟨rfl, rfl⟩
  · rename_i ni
    obtain ⟨d, pp, nn, g, h1, h2⟩ := updPrevAt_spec slots ni pr out h
    exact Or.inr ⟨ni, d, pp, nn, g, rfl, h1, h2⟩

/-! ### Per-operation preservation facts -/

/-- Generation of the arena slot at `p`. -/
def slotsGenAt (slots : List (ArenaSlot T)) (p : Nat) : Option Nat :=
  (slots.get? p).map ArenaSlot.generation

theorem slotsGenAt_set_same_gen (slots : List (ArenaSlot T)) (q : Nat)
    (s0 : ArenaSlot T) (s1 : ArenaSlot T) (p : Nat)
    (hq : slots.get? q = some s0) (hgen : s1.generation = s0.generation) :
    slotsGenAt (slots.set q s1) p = slotsGenAt slots p := by
  unfold slotsGenAt
  by_cases hpq : q = p
  · subst hpq
    rw [get?_set_self _ (get?_some_lt hq), hq]
    simp [hgen]
  · rw [get?_set_ne _ _ hpq]

theorem insert_with_index_controller (a : Arena T) (i : Index) (v : T)
    (r : Except IndexNotReserved Unit × Arena T)
    (h : a.insert_with_index i v = some r) : r.2.controller = a.controller := by
  obtain ⟨r1, r2⟩ := r
  cases r1 with
  | error e => rw [insert_with_index_err_noop a i v r2 e h]
  | ok u =>
    cases u
    obtain ⟨s, hs, hst, hg, slots2, hdisj, ha2⟩ := insert_with_index_ok_spec a i v r2 h
    rw [ha2]

theorem insert_with_index_gens (a : Arena T) (i : Index) (v : T)
    (r : Except IndexNotReserved Unit × Arena T)
    (h : a.insert_with_index i v = some r) (p : Nat) :
    slotsGenAt r.2.slots p = slotsGenAt a.slots p := by
  obtain ⟨r1, r2⟩ := r
  cases r1 with
  | error e => rw [insert_with_index_err_noop a i v r2 e h]
  | ok u =>
    cases u
    obtain ⟨s, hs, hst, hg, slots2, hdisj, ha2⟩ := insert_with_index_ok_spec a i v r2 h
    rw [ha2]
    simp only
    have hs2 : slots2.get? i.index = some s := by
      rcases hdisj with ⟨hf, h2⟩ | ⟨h0, d0, pr0, nx0, g0, hf, hh0, h2⟩
      · rw [h2]; exact hs
      · have hne : h0 ≠ i.index := by
          intro heq
          rw [heq, hs] at hh0
          rw [Option.some_inj] at hh0
          rw [hh0] at hst
          cases hst
        rw [h2, get?_set_ne _ _ hne]
        exact hs
    have e1 : slotsGenAt (slots2.set i.index
        ⟨ArenaSlotState.Occupied v none a.first_occupied_slot_index, s.generation⟩) p =
        slotsGenAt slots2 p :=
      slotsGenAt_set_same_gen slots2 i.index s _ p hs2 rfl
    rw [e1]
    rcases hdisj with ⟨hf, h2⟩ | ⟨h0, d0, pr0, nx0, g0, hf, hh0, h2⟩
    · rw [h2]
    · rw [h2]
      exact slotsGenAt_set_same_gen a.slots h0 _ _ p hh0 rfl

theorem insert_with_index_length (a : Arena T) (i : Index) (v : T)
    (r : Except IndexNotReserved Unit × Arena T)
    (h : a.insert_with_index i v = some r) : r.2.slots.length = a.slots.length := by
  obtain ⟨r1, r2⟩ := r
  cases r1 with
  | error e => rw [insert_with_index_err_noop a i v r2 e h]
  | ok u =>
    cases u
    obtain ⟨s, hs, hst, hg, slots2, hdisj, ha2⟩ := insert_with_index_ok_spec a i v r2 h
    rw [ha2]
    simp only [List.length_set]
    rcases hdisj with ⟨hf, h2⟩ | ⟨h0, d0, pr0, nx0, g0, hf, hh0, h2⟩ <;> simp [h2]

theorem remove_lengths (a : Arena T) (i : Index) (res : Option T) (a2 : Arena T)
    (h : a.remove i = some (res, a2)) :
    a2.slots.length = a.slots.length ∧
      a2.controller.slots.length = a.controller.slots.length := by
  cases res with
  | none => rw [remove_none_noop a i a2 h]; exact ⟨rfl, rfl⟩
  | some d =>
    obtain ⟨pr, nx, cs, fi, hs, hcs, hfi, slots2, slots3, h2, h3, ha2⟩ :=
      remove_ok_spec a i d a2 h
    have l2 : slots2.length = a.slots.length := by
      rcases prevUpd_spec _ _ _ _ h2 with ⟨_, he⟩ | ⟨pi, d1, pp, nn, g, _, _, he⟩ <;>
        simp [he]
    have l3 : slots3.length = slots2.length := by
      rcases nextUpd_spec _ _ _ _ h3 with ⟨_, he⟩ | ⟨ni, d1, pp, nn, g, _, _, he⟩ <;>
        simp [he]
    rw [ha2]
    unfold freedController
    constructor
    · simp only
      rw [l3, l2]
    · simp

theorem remove_gens (a : Arena T) (i : Index) (res : Option T) (a2 : Arena T)
    (h : a.remove i = some (res, a2)) (p : Nat) :
    slotsGenAt a2.slots p = slotsGenAt a.slots p ∨
    (p = i.index ∧ ∃ g, slotsGenAt a.slots p = some g ∧
      slotsGenAt a2.slots p = some (usizeWrap (g + 1))) := by
  cases res with
  | none => rw [remove_none_noop a i a2 h]; exact Or.inl rfl
  | some d =>
    obtain ⟨pr, nx, cs, fi, hs, hcs, hfi, slots2, slots3, h2, h3, ha2⟩ :=
      remove_ok_spec a i d a2 h
    have hgen2 : ∀ q, slotsGenAt slots2 q =
        slotsGenAt (a.slots.set i.index
          ⟨ArenaSlotState.Free, usizeWrap (i.generation + 1)⟩) q := by
      intro q
      rcases prevUpd_spec _ _ _ _ h2 with ⟨_, he⟩ | ⟨pi, d1, pp, nn, g, _, hpi, he⟩
      · rw [he]
      · rw [he]
        exact slotsGenAt_set_same_gen _ pi _ _ q hpi rfl
    have hgen3 : ∀ q, slotsGenAt slots3 q = slotsGenAt slots2 q := by
      intro q
      rcases nextUpd_spec _ _ _ _ h3 with ⟨_, he⟩ | ⟨ni, d1, pp, nn, g, _, hni, he⟩
      · rw [he]
      · rw [he]
        exact slotsGenAt_set_same_gen _ ni _ _ q hni rfl
    have ha2s : a2.slots = slots3 := by rw [ha2]
    by_cases hp : p = i.index
    · subst hp
      refine Or.inr ⟨rfl, i.generation, ?_, ?_⟩
      · unfold slotsGenAt
        rw [hs]
        rfl
      · rw [ha2s, hgen3, hgen2]
        unfold slotsGenAt
        rw [get?_set_self _ (get?_some_lt hs)]
        rfl
    · left
      rw [ha2s, hgen3, hgen2]
      unfold slotsGenAt
      rw [get?_set_ne _ _ (fun he => hp he.symm)]

/-! ### Trace semantics: the public mutating operations -/

/-- A trace state: the arena (with its shared controller state) together with
the list of reserved indices handed out by `try_reserve` and not yet used for
a reserved-index insertion. -/
abbrev ArenaSt (T : Type) := Arena T × List Index

/-- The public mutating operations, as invoked by a single-threaded caller
(§5 of the spec serialises all arena mutations).  `tryReserve` acts through a
controller clone; `insertReserved n v` calls `insert_with_index` with the
`n`-th still-unused reserved index (a no-op when fewer than `n + 1` are held),
modelling a caller that only uses indices it was actually handed;
`insertWithIndexOp` calls `insert_with_index` with an arbitrary caller-chosen
index; `getMutWrite` writes through the reference returned by
`get_mut` (also modelling the writes of `iter_mut`). -/
inductive Op (T : Type) where
  | tryReserve : Op T
  | insertOp (v : T) : Op T
  | insertWithIndexOp (i : Index) (v : T) : Op T
  | insertReserved (n : Nat) (v : T) : Op T
  | removeOp (i : Index) : Op T
  | getMutWrite (i : Index) (v : T) : Op T
deriving DecidableEq

/-- One operation of a single-threaded caller; `none` when the call panics. -/
def step : Op T → ArenaSt T → Option (ArenaSt T)
  | Op.tryReserve, (a, pool) =>
    match a.controller.try_reserve with
    | none => none
    | some (Except.error _, c2) => some ({ a with controller := c2 }, pool)
    | some (Except.ok i, c2) => some ({ a with controller := c2 }, pool ++ [i])
  | Op.insertOp v, (a, pool) =>
    match a.insert v with
    | none => none
    | some (_, a2) => some (a2, pool)
  | Op.insertWithIndexOp i v, (a, pool) =>
    match a.insert_with_index i v with
    | none => none
    | some (_, a2) => some (a2, pool)
  | Op.insertReserved n v, (a, pool) =>
    match pool.get? n with
    | none => some (a, pool)
    | some i =>
      match a.insert_with_index i v with
      | none => none
      | some (_, a2) => some (a2, pool.eraseIdx n)
  | Op.removeOp i, (a, pool) =>
    match a.remove i with
    | none => none
    | some (_, a2) => some (a2, pool)
  | Op.getMutWrite i v, (a, pool) =>
    match a.set_via_get_mut i v with
    | none => none
    | some a2 => some (a2, pool)

/-- Running a whole sequence of public operations. -/
def applyOps : List (Op T) → ArenaSt T → Option (ArenaSt T)
  | [], s => some s
  | o :: os, s =>
    match step o s with
    | none => none
    | some s2 => applyOps os s2

/-- The initial state: a fresh arena, no reserved indices outstanding. -/
def initSt (capacity : Nat) : ArenaSt T := (Arena.new capacity, [])

theorem set_via_get_mut_spec (a : Arena T) (i : Index) (v : T) (a2 : Arena T)
    (h : a.set_via_get_mut i v = some a2) :
    a2 = a ∨
    ∃ s d pr nx, a.slots.get? i.index = some s ∧
      s.state = ArenaSlotState.Occupied d pr nx ∧ s.generation = i.generation ∧
      a2 = { controller := a.controller
             slots := a.slots.set i.index ⟨ArenaSlotState.Occupied v pr nx, s.generation⟩
             first_occupied_slot_index := a.first_occupied_slot_index } := by
  unfold Arena.set_via_get_mut at h
  split at h
  · cases h
  · rename_i s hs
    split at h
    · cases h
      exact Or.inl rfl
    · rename_i hg
      push_neg at hg
      split at h
      · cases h
        exact Or.inl rfl
      · rename_i d pr nx hst
        cases h
        exact Or.inr ⟨s, d, pr, nx, hs, hst, hg, rfl⟩

theorem insert_dissect (a : Arena T) (v : T)
    (r : Except ArenaFull Index × Arena T) (h : a.insert v = some r) :
    (∃ e, r.1 = Except.error e ∧ r.2 = a) ∨
    (∃ i, r.1 = Except.ok i ∧ ∃ c2, a.controller.try_reserve = some (Except.ok i, c2) ∧
      Arena.insert_with_index { a with controller := c2 } i v =
        some (Except.ok (), r.2)) := by
  obtain ⟨r1, r2⟩ := r
  cases r1 with
  | error e =>
    obtain ⟨h1, h2⟩ := insert_err_spec a v e r2 h
    exact Or.inl ⟨e, rfl, h1⟩
  | ok i =>
    obtain ⟨c2, h1, h2⟩ := insert_ok_spec a v i r2 h
    exact Or.inr ⟨i, rfl, c2, h1, h2⟩

/-- Arena-slot generations after one public operation: untouched, or bumped
by one (wrapping) by a successful removal. -/
theorem step_gens (o : Op T) (s s2 : ArenaSt T) (h : step o s = some s2) (p : Nat) :
    slotsGenAt s2.1.slots p = slotsGenAt s.1.slots p ∨
    ∃ g, slotsGenAt s.1.slots p = some g ∧
      slotsGenAt s2.1.slots p = some (usizeWrap (g + 1)) := by
  obtain ⟨a, pool⟩ := s
  cases o with
  | tryReserve =>
    simp only [step] at h
    split at h
    · cases h
    · cases h
      exact Or.inl rfl
    · cases h
      exact Or.inl rfl
  | insertOp v =>
    simp only [step] at h
    split at h
    · cases h
    · rename_i r a2 hins
      cases h
      rcases insert_dissect a v (r, a2) hins with ⟨e, hr, ha⟩ | ⟨i, hr, c2, hres, hwi⟩
    
      · simp only at ha
        rw [ha]
        exact Or.inl rfl
      · simp only at hwi
        have := insert_with_index_gens _ i v (Except.ok (), a2) hwi p
        simp only at this
        exact Or.inl this
  | insertWithIndexOp i v =>
    simp only [step] at h
    split at h
    · cases h
    · rename_i r a2 hins
      cases h
      exact Or.inl (insert_with_index_gens a i v (r, a2) hins p)
  | insertReserved n v =>
    simp only [step] at h
    split at h
    · cases h
      exact Or.inl rfl
    · rename_i i hi
      split at h
      · cases h
      · rename_i r a2 hins
        cases h
        exact Or.inl (insert_with_index_gens a i v (r, a2) hins p)
  | removeOp i =>
    simp only [step] at h
    split at h
    · cases h
    · rename_i r a2 hrm
      cases h
      rcases remove_gens a i r a2 hrm p with h1 | ⟨hp, g, h1, h2⟩
      · exact Or.inl h1
      · exact Or.inr ⟨g, h1, h2⟩
  | getMutWrite i v =>
    simp only [step] at h
    split at h
    · cases h
    · rename_i a2 hw
      cases h
      rcases set_via_get_mut_spec a i v a2 hw with ha | ⟨s0, d, pr, nx, hs0, hst, hg, ha⟩
      · rw [ha]
        exact Or.inl rfl
      · rw [ha]
        exact Or.inl (slotsGenAt_set_same_gen a.slots i.index s0 _ p hs0 rfl)

/-- One public operation never changes the number of arena slots nor the
number of controller slots. -/
theorem step_lengths (o : Op T) (s s2 : ArenaSt T) (h : step o s = some s2) :
    s2.1.slots.length = s.1.slots.length ∧
      s2.1.controller.slots.length = s.1.controller.slots.length := by
  obtain ⟨a, pool⟩ := s
  cases o with
  | tryReserve =>
    simp only [step] at h
    split at h
    · cases h
    · rename_i e c2 hres
      cases h
      obtain ⟨hc2, _⟩ := try_reserve_err_spec _ _ _ hres
      rw [hc2]
      exact ⟨rfl, rfl⟩
    · rename_i i c2 hres
      cases h
      obtain ⟨_, cs, hcs, hieq, hc2⟩ := try_reserve_ok_spec _ _ _ hres
      rw [hc2]
      simp
  | insertOp v =>
    simp only [step] at h
    split at h
    · cases h
    · rename_i r a2 hins
      cases h
      rcases insert_dissect a v (r, a2) hins with ⟨e, hr, ha⟩ | ⟨i, hr, c2, hres, hwi⟩
      · simp only at ha
        rw [ha]
        exact ⟨rfl, rfl⟩
      · simp only at hwi
        obtain ⟨_, cs, hcs, hieq, hc2⟩ := try_reserve_ok_spec _ _ _ hres
        have h1 := insert_with_index_length _ i v (Except.ok (), a2) hwi
        have h2 := insert_with_index_controller _ i v (Except.ok (), a2) hwi
        simp only at h1 h2
        rw [h1, h2, hc2]
        simp
  | insertWithIndexOp i v =>
    simp only [step] at h
    split at h
    · cases h
    · rename_i r a2 hins
      cases h
      have h1 := insert_with_index_length a i v (r, a2) hins
      have h2 := insert_with_index_controller a i v (r, a2) hins
      rw [h1, h2]
      exact ⟨rfl, rfl⟩
  | insertReserved n v =>
    simp only [step] at h
    split at h
    · cases h
      exact ⟨rfl, rfl⟩
    · rename_i i hi
      split at h
      · cases h
      · rename_i r a2 hins
        cases h
        have h1 := insert_with_index_length a i v (r, a2) hins
        have h2 := insert_with_index_controller a i v (r, a2) hins
        rw [h1, h2]
        exact ⟨rfl, rfl⟩
  | removeOp i =>
    simp only [step] at h
    split at h
    · cases h
    · rename_i r a2 hrm
      cases h
      exact remove_lengths a i r a2 hrm
  | getMutWrite i v =>
    simp only [step] at h
    split at h
    · cases h
    · rename_i a2 hw
      cases h
      rcases set_via_get_mut_spec a i v a2 hw with ha | ⟨s0, d, pr, nx, hs0, hst, hg, ha⟩
      · rw [ha]
        exact ⟨rfl, rfl⟩
      · rw [ha]
        simp

theorem applyOps_lengths (ops : List (Op T)) (s s2 : ArenaSt T)
    (h : applyOps ops s = some s2) :
    s2.1.slots.length = s.1.slots.length ∧
      s2.1.controller.slots.length = s.1.controller.slots.length := by
  induction ops generalizing s with
  | nil =>
    cases h
    exact ⟨rfl, rfl⟩
  | cons o os ih =>
    unfold applyOps at h
    split at h
    · cases h
    · rename_i s1 h1
      obtain ⟨e1, e2⟩ := step_lengths o s s1 h1
      obtain ⟨e3, e4⟩ := ih s1 h
      exact ⟨by rw [e3, e1], by rw [e4, e2]⟩

/-- Along any completed trace, the generation of slot `p` advances from `g` by
the number of successful removals of that slot, modulo `2 ^ 64`. -/
theorem applyOps_gens (ops : List (Op T)) (s s2 : ArenaSt T) (p : Nat) (g : Nat)
    (h : applyOps ops s = some s2) (hg : slotsGenAt s.1.slots p = some g)
    (hlt : g < 2 ^ 64) :
    ∃ k, k ≤ ops.length ∧ slotsGenAt s2.1.slots p = some ((g + k) % 2 ^ 64) := by
  induction ops generalizing s g with
  | nil =>
    cases h
    exact ⟨0, Nat.zero_le _, by rw [Nat.add_zero, Nat.mod_eq_of_lt hlt]; exact hg⟩
  | cons o os ih =>
    unfold applyOps at h
    split at h
    · cases h
    · rename_i s1 h1
      rcases step_gens o s s1 h1 p with he | ⟨g0, hg0, hbump⟩
      · obtain ⟨k, hk, hfin⟩ := ih s1 g h (by rw [he]; exact hg) hlt
        exact ⟨k, Nat.le_succ_of_le hk, hfin⟩
      · rw [hg] at hg0
        rw [Option.some_inj] at hg0
        subst hg0
        obtain ⟨k, hk, hfin⟩ := ih s1 (usizeWrap (g + 1)) h hbump (usizeWrap_lt _)
        refine ⟨k + 1, by simpa using Nat.succ_le_succ hk, ?_⟩
        rw [hfin]
        unfold usizeWrap
        rw [Nat.mod_add_mod]
        congr 2
        omega

/-! ### Claim C1 -/

theorem remove_ok_freed (a : Arena T) (i : Index) (d : T) (a2 : Arena T)
    (h : a.remove i = some (some d, a2)) :
    a2.slots.get? i.index =
      some ⟨ArenaSlotState.Free, usizeWrap (i.generation + 1)⟩ := by
  obtain ⟨pr, nx, cs, fi, hs, hcs, hfi, slots2, slots3, h2, h3, ha2⟩ :=
    remove_ok_spec a i d a2 h
  have hfreed1 : (a.slots.set i.index
      ⟨ArenaSlotState.Free, usizeWrap (i.generation + 1)⟩).get? i.index =
      some ⟨ArenaSlotState.Free, usizeWrap (i.generation + 1)⟩ :=
    get?_set_self _ (get?_some_lt hs)
  have hfreed2 : slots2.get? i.index =
      some ⟨ArenaSlotState.Free, usizeWrap (i.generation + 1)⟩ := by
    rcases prevUpd_spec _ _ _ _ h2 with ⟨hpr, he⟩ | ⟨pi, d1, pp, nn, g, hpr, hpi, he⟩
    · rw [he]; exact hfreed1
    · have hne : pi ≠ i.index := by
        intro heq
        rw [heq, hfreed1] at hpi
        simp at hpi
      rw [he, get?_set_ne _ _ hne]
      exact hfreed1
  have hfreed3 : slots3.get? i.index =
      some ⟨ArenaSlotState.Free, usizeWrap (i.generation + 1)⟩ := by
    rcases nextUpd_spec _ _ _ _ h3 with ⟨hnx, he⟩ | ⟨ni, d1, pp, nn, g, hnx, hni, he⟩
    · rw [he]; exact hfreed2
    · have hne : ni ≠ i.index := by
        intro heq
        rw [heq, hfreed2] at hni
        simp at hni
      rw [he, get?_set_ne _ _ hne]
      exact hfreed2
  rw [ha2]
  exact hfreed3

/-- "Absent" responses for index `i`: `get`, `get_mut` and `remove` all report
no item, and `remove` leaves the arena untouched. -/
def StaleIndexDead (a : Arena T) (i : Index) : Prop :=
  a.get i = some none ∧ a.get_mut i = some none ∧ a.remove i = some (none, a)

/-- The conclusion of C1: immediately after the removal, and after every
further completed trace of public operations (shorter than the `usize`
generation wrap bound), the removed index reads as absent. -/
def C1Conclusion (a1 : Arena T) (i : Index) : Prop :=
  StaleIndexDead a1 i ∧
  ∀ (ops : List (Op T)) (pool : List Index) (s2 : ArenaSt T),
    ops.length + 1 < 2 ^ 64 →
    applyOps ops (a1, pool) = some s2 →
    StaleIndexDead s2.1 i

theorem stale_of_gen_ne (b : Arena T) (i : Index) (s : ArenaSlot T)
    (hs : b.slots.get? i.index = some s) (hg : s.generation ≠ i.generation) :
    StaleIndexDead b i :=
  ⟨get_of_gen_ne b i s hs hg, get_mut_of_gen_ne b i s hs hg, remove_stale b i s hs hg⟩

/-- C1: an index obtained before a successful removal of its slot is dead
afterwards — `get`, `get_mut` and `remove` all return `None` (the latter with
no side effect), and this persists under any further public operations, in
particular under later insertions into the same slot position. -/
theorem claim_C1_generational_safety (a : Arena T) (i : Index) (v : T) (a1 : Arena T)
    (h : a.remove i = some (some v, a1)) : C1Conclusion a1 i := by
  have hfr := remove_ok_freed a i v a1 h
  constructor
  · exact stale_of_gen_ne a1 i _ hfr (usizeWrap_succ_ne i.generation)
  · intro ops pool s2 hlen happ
    have hg1 : slotsGenAt a1.slots i.index = some (usizeWrap (i.generation + 1)) := by
      unfold slotsGenAt
      rw [hfr]
      rfl
    obtain ⟨k, hk, hfin⟩ :=
      applyOps_gens ops (a1, pool) s2 i.index _ happ hg1 (usizeWrap_lt _)
    have hgenne : (usizeWrap (i.generation + 1) + k) % 2 ^ 64 ≠ i.generation := by
      unfold usizeWrap
      rw [Nat.mod_add_mod]
      have he : i.generation + 1 + k = i.generation + (1 + k) := by omega
      rw [he]
      exact add_wrap_ne _ _ (by omega) (by omega)
    unfold slotsGenAt at hfin
    rcases hq : s2.1.slots.get? i.index with _ | s
    · rw [hq] at hfin
      cases hfin
    · rw [hq] at hfin
      rw [Option.map_some'] at hfin
      rw [Option.some_inj] at hfin
      exact stale_of_gen_ne s2.1 i s hq (by rw [hfin]; exact hgenne)

/-- C1 witness: a capacity-2 arena holding value 5 at slot 0. -/
def c1wA : Arena Nat :=
  ((Arena.new 2 : Arena Nat).insert 5).getD (Except.error ArenaFull.mk, Arena.new 0) |>.2

/-- C1 witness: the arena after removing index `(0, 0)` again. -/
def c1wA1 : Arena Nat :=
  (c1wA.remove ⟨0, 0⟩).getD (none, Arena.new 0) |>.2

theorem claim_C1_generational_safety_witness :
    c1wA.remove ⟨0, 0⟩ = some (some 5, c1wA1) ∧ C1Conclusion c1wA1 ⟨0, 0⟩ :=
  ⟨by decide, claim_C1_generational_safety c1wA ⟨0, 0⟩ 5 c1wA1 (by decide)⟩

/-! ### Fresh-state slot lookups -/

theorem get?_map_eq {α β : Type} (f : α → β) (l : List α) (n : Nat) :
    (l.map f).get? n = (l.get? n).map f := by
  induction l generalizing n with
  | nil => rfl
  | cons a t ih =>
    cases n with
    | zero => rfl
    | succ m => exact ih m

theorem get?_none_of_le {α : Type} {l : List α} {n : Nat} (h : l.length ≤ n) :
    l.get? n = none := by
  induction l generalizing n with
  | nil => rfl
  | cons a t ih =>
    cases n with
    | zero => simp at h
    | succ m =>
      simp only [List.length_cons] at h
      exact ih (by omega)

theorem range_get? (c p : Nat) :
    (List.range c).get? p = if p < c then some p else none := by
  by_cases h : p < c
  · rw [if_pos h]
    exact List.get?_range h
  · rw [if_neg h]
    exact get?_none_of_le (by simpa using Nat.le_of_not_lt h)

theorem controller_new_get? (c p : Nat) :
    (ControllerInner.new c).slots.get? p =
      if p < c then
        some ⟨true, 0, if p < c - 1 then p + 1 else NO_NEXT_FREE_SLOT⟩
      else none := by
  unfold ControllerInner.new
  rw [get?_map_eq, range_get?]
  by_cases h : p < c
  · rw [if_pos h, if_pos h]
    rfl
  · rw [if_neg h, if_neg h]
    rfl

theorem arena_new_get? (c p : Nat) :
    ((Arena.new c : Arena T)).slots.get? p =
      if p < c then some ArenaSlot.new else none := by
  unfold Arena.new
  rw [get?_map_eq, range_get?]
  by_cases h : p < c
  · rw [if_pos h, if_pos h]
    rfl
  · rw [if_neg h, if_neg h]
    rfl

theorem controller_new_length (c : Nat) : (ControllerInner.new c).slots.length = c := by
  unfold ControllerInner.new
  simp

theorem arena_new_length (c : Nat) : ((Arena.new c : Arena T)).slots.length = c := by
  unfold Arena.new
  simp

/-! ### Claim C7: generation lockstep -/

/-- Controller-slot generation at `p`. -/
def ctrlGenAt (c : ControllerInner) (p : Nat) : Option Nat :=
  (c.slots.get? p).map ControllerSlot.generation

theorem ctrlGenAt_set_same_gen (c : ControllerInner) (q : Nat)
    (s0 s1 : ControllerSlot) (p : Nat)
    (hq : c.slots.get? q = some s0) (hgen : s1.generation = s0.generation) :
    ctrlGenAt { slots := c.slots.set q s1, first_free_slot_index := c.first_free_slot_index } p
      = ctrlGenAt c p := by
  unfold ctrlGenAt
  by_cases hpq : q = p
  · subst hpq
    simp only
    rw [get?_set_self _ (get?_some_lt hq), hq]
    simp [hgen]
  · simp only
    rw [get?_set_ne _ _ hpq]

/-- The lockstep invariant of the spec: the controller and arena generation
counters agree at every slot position. -/
def GenLockstep (a : Arena T) : Prop :=
  ∀ p, ctrlGenAt a.controller p = slotsGenAt a.slots p

theorem try_reserve_ctrl_gens (c : ControllerInner) (i : Index) (c2 : ControllerInner)
    (h : c.try_reserve = some (Except.ok i, c2)) (p : Nat) :
    ctrlGenAt c2 p = ctrlGenAt c p := by
  obtain ⟨hne, cs, hcs, hieq, hc2⟩ := try_reserve_ok_spec c i c2 h
  rw [hc2]
  exact ctrlGenAt_set_same_gen c _ cs _ p hcs rfl

theorem step_lockstep (o : Op T) (s s2 : ArenaSt T) (h : step o s = some s2)
    (inv : GenLockstep s.1) : GenLockstep s2.1 := by
  obtain ⟨a, pool⟩ := s
  cases o with
  | tryReserve =>
    simp only [step] at h
    split at h
    · cases h
    · rename_i e c2 hres
      cases h
      obtain ⟨hc2, _⟩ := try_reserve_err_spec _ _ _ hres
      intro p
      rw [hc2]
      exact inv p
    · rename_i i c2 hres
      cases h
      intro p
      have := try_reserve_ctrl_gens a.controller i c2 hres p
      simp only
      rw [this]
      exact inv p
  | insertOp v =>
    simp only [step] at h
    split at h
    · cases h
    · rename_i r a2 hins
      cases h
      rcases insert_dissect a v (r, a2) hins with ⟨e, hr, ha⟩ | ⟨i, hr, c2, hres, hwi⟩
      · simp only at ha
        rw [ha]
        exact inv
      · simp only at hwi
        intro p
        have hg := insert_with_index_gens _ i v (Except.ok (), a2) hwi p
        have hcc := insert_with_index_controller _ i v (Except.ok (), a2) hwi
        simp only at hg hcc
        rw [hcc, hg]
        have := try_reserve_ctrl_gens a.controller i c2 hres p
        rw [this]
        exact inv p
  | insertWithIndexOp i v =>
    simp only [step] at h
    split at h
    · cases h
    · rename_i r a2 hins
      cases h
      intro p
      rw [insert_with_index_controller a i v (r, a2) hins,
        insert_with_index_gens a i v (r, a2) hins p]
      exact inv p
  | insertReserved n v =>
    simp only [step] at h
    split at h
    · cases h
      exact inv
    · rename_i i hi
      split at h
      · cases h
      · rename_i r a2 hins
        cases h
        intro p
        rw [insert_with_index_controller a i v (r, a2) hins,
          insert_with_index_gens a i v (r, a2) hins p]
        exact inv p
  | removeOp i =>
    simp only [step] at h
    split at h
    · cases h
    · rename_i r a2 hrm
      cases h
      cases r with
      | none =>
        rw [remove_none_noop a i a2 hrm]
        exact inv
      | some d =>
        obtain ⟨pr, nx, cs, fi, hs, hcs, hfi, slots2, slots3, h2, h3, ha2⟩ :=
          remove_ok_spec a i d a2 hrm
        intro p
        by_cases hp : p = i.index
        · subst hp
          have hctrl : ctrlGenAt a2.controller i.index =
              some (usizeWrap (cs.generation + 1)) := by
            rw [ha2]
            unfold ctrlGenAt freedController
            simp only
            rw [get?_set_self _ (get?_some_lt hcs)]
            rfl
          have hcg : cs.generation = i.generation := by
            have hi := inv i.index
            unfold ctrlGenAt slotsGenAt at hi
            rw [hcs, hs] at hi
            simpa using hi
          have harena : slotsGenAt a2.slots i.index =
              some (usizeWrap (i.generation + 1)) := by
            unfold slotsGenAt
            rw [remove_ok_freed a i d a2 hrm]
            rfl
          rw [hctrl, harena, hcg]
        · have harena : slotsGenAt a2.slots p = slotsGenAt a.slots p := by
            rcases remove_gens a i (some d) a2 hrm p with he | ⟨hpe, _⟩
            · exact he
            · exact absurd hpe hp
          have hctrl : ctrlGenAt a2.controller p = ctrlGenAt a.controller p := by
            rw [ha2]
            unfold ctrlGenAt freedController
            simp only
            rw [get?_set_ne _ _ (fun he => hp he.symm)]
          rw [hctrl, harena]
          exact inv p
  | getMutWrite i v =>
    simp only [step] at h
    split at h
    · cases h
    · rename_i a2 hw
      cases h
      rcases set_via_get_mut_spec a i v a2 hw with ha | ⟨s0, d, pr, nx, hs0, hst, hg, ha⟩
      · rw [ha]
        exact inv
      · intro p
        rw [ha]
        simp only
        have := slotsGenAt_set_same_gen a.slots i.index s0
          ⟨ArenaSlotState.Occupied v pr nx, s0.generation⟩ p hs0 rfl
        unfold slotsGenAt at this
        unfold slotsGenAt
        rw [this]
        exact inv p

theorem new_lockstep (c : Nat) : GenLockstep (Arena.new c : Arena T) := by
  intro p
  unfold ctrlGenAt slotsGenAt
  simp only [Arena.new]
  rw [controller_new_get? c p]
  have := arena_new_get? (T := T) c p
  unfold Arena.new at this
  rw [this]
  by_cases h : p < c
  · rw [if_pos h, if_pos h]
    rfl
  · rw [if_neg h, if_neg h]
    rfl

/-- C7: in every reachable single-threaded state, the controller's generation
counter for each slot equals the arena slot's generation field. -/
theorem claim_C7_generation_lockstep (c : Nat) (ops : List (Op T)) (s2 : ArenaSt T)
    (h : applyOps ops (initSt c) = some s2) : GenLockstep s2.1 := by
  suffices hgen : ∀ (s : ArenaSt T), GenLockstep s.1 → applyOps ops s = some s2 →
      GenLockstep s2.1 from hgen (initSt c) (new_lockstep c) h
  clear h
  induction ops with
  | nil =>
    intro s hs h
    cases h
    exact hs
  | cons o os ih =>
    intro s hs h
    unfold applyOps at h
    split at h
    · cases h
    · rename_i s1 h1
      exact ih s1 (step_lockstep o s s1 h1 hs) h

/-- C7 witness state: capacity 2, insert 5, remove it, reserve once. -/
def c7wS : ArenaSt Nat :=
  (applyOps [Op.insertOp 5, Op.removeOp ⟨0, 0⟩, Op.tryReserve] (initSt 2)).getD
    (Arena.new 0, [])

theorem claim_C7_generation_lockstep_witness :
    applyOps [Op.insertOp 5, Op.removeOp ⟨0, 0⟩, Op.tryReserve] (initSt 2) = some c7wS ∧
      GenLockstep c7wS.1 :=
  ⟨by decide, claim_C7_generation_lockstep 2
    [Op.insertOp 5, Op.removeOp ⟨0, 0⟩, Op.tryReserve] c7wS (by decide)⟩

/-! ### Claim C10: capacity-zero panic and in-bounds accesses -/

/-- Structural bounds on the controller free list: the head pointer and every
slot's successor pointer are either the sentinel or in bounds. -/
def ControllerBounds (c : ControllerInner) : Prop :=
  (c.first_free_slot_index = NO_NEXT_FREE_SLOT ∨
    c.first_free_slot_index < c.slots.length ∨ c.slots.length = 0) ∧
  (∀ p cs, c.slots.get? p = some cs →
    cs.next_free_slot_index = NO_NEXT_FREE_SLOT ∨
      cs.next_free_slot_index < c.slots.length)

theorem new_bounds (c : Nat) : ControllerBounds (ControllerInner.new c) := by
  constructor
  · rcases Nat.eq_zero_or_pos c with h | h
    · right; right
      rw [controller_new_length, h]
    · right; left
      rw [controller_new_length]
      exact h
  · intro p cs hcs
    rw [controller_new_get?] at hcs
    by_cases h : p < c
    · rw [if_pos h] at hcs
      rw [Option.some_inj] at hcs
      rw [controller_new_length, ← hcs]
      by_cases h2 : p < c - 1
      · right
        simp only [if_pos h2]
        omega
      · left
        simp only [if_neg h2]
    · rw [if_neg h] at hcs
      cases hcs

theorem try_reserve_bounds (c : ControllerInner) (i : Index) (c2 : ControllerInner)
    (h : c.try_reserve = some (Except.ok i, c2)) (inv : ControllerBounds c) :
    ControllerBounds c2 := by
  obtain ⟨hne, cs, hcs, hieq, hc2⟩ := try_reserve_ok_spec c i c2 h
  obtain ⟨inv1, inv2⟩ := inv
  rw [hc2]
  constructor
  · simp only [List.length_set]
    rcases inv2 _ _ hcs with h1 | h1
    · exact Or.inl h1
    · exact Or.inr (Or.inl h1)
  · intro p cs2 hcs2
    simp only [List.length_set] at hcs2 ⊢
    by_cases hp : c.first_free_slot_index = p
    · subst hp
      rw [get?_set_self _ (get?_some_lt hcs)] at hcs2
      rw [Option.some_inj] at hcs2
      subst hcs2
      simpa using inv2 _ _ hcs
    · rw [get?_set_ne _ _ hp] at hcs2
      exact inv2 _ _ hcs2

theorem freed_bounds (c : ControllerInner) (p0 : Nat) (cs : ControllerSlot)
    (hcs : c.slots.get? p0 = some cs) (inv : ControllerBounds c) :
    ControllerBounds (freedController c p0 cs) := by
  obtain ⟨inv1, inv2⟩ := inv
  unfold freedController
  constructor
  · right; left
    simp only [List.length_set]
    exact get?_some_lt hcs
  · intro p cs2 hcs2
    simp only [List.length_set] at hcs2 ⊢
    by_cases hp : p0 = p
    · subst hp
      rw [get?_set_self _ (get?_some_lt hcs)] at hcs2
      rw [Option.some_inj] at hcs2
      subst hcs2
      simp only
      rcases inv1 with h1 | h1 | h1
      · exact Or.inl h1
      · exact Or.inr h1
      · exfalso
        have := get?_some_lt hcs
        omega
    · rw [get?_set_ne _ _ hp] at hcs2
      exact inv2 _ _ hcs2

theorem step_bounds (o : Op T) (s s2 : ArenaSt T) (h : step o s = some s2)
    (inv : ControllerBounds s.1.controller) : ControllerBounds s2.1.controller := by
  obtain ⟨a, pool⟩ := s
  cases o with
  | tryReserve =>
    simp only [step] at h
    split at h
    · cases h
    · rename_i e c2 hres
      cases h
      obtain ⟨hc2, _⟩ := try_reserve_err_spec _ _ _ hres
      rw [hc2]
      exact inv
    · rename_i i c2 hres
      cases h
      exact try_reserve_bounds a.controller i c2 hres inv
  | insertOp v =>
    simp only [step] at h
    split at h
    · cases h
    · rename_i r a2 hins
      cases h
      rcases insert_dissect a v (r, a2) hins with ⟨e, hr, ha⟩ | ⟨i, hr, c2, hres, hwi⟩
      · simp only at ha
        rw [ha]
        exact inv
      · simp only at hwi
        have hcc := insert_with_index_controller _ i v (Except.ok (), a2) hwi
        simp only at hcc
        rw [hcc]
        exact try_reserve_bounds a.controller i c2 hres inv
  | insertWithIndexOp i v =>
    simp only [step] at h
    split at h
    · cases h
    · rename_i r a2 hins
      cases h
      rw [insert_with_index_controller a i v (r, a2) hins]
      exact inv
  | insertReserved n v =>
    simp only [step] at h
    split at h
    · cases h
      exact inv
    · rename_i i hi
      split at h
      · cases h
      · rename_i r a2 hins
        cases h
        rw [insert_with_index_controller a i v (r, a2) hins]
        exact inv
  | removeOp i =>
    simp only [step] at h
    split at h
    · cases h
    · rename_i r a2 hrm
      cases h
      cases r with
      | none =>
        rw [remove_none_noop a i a2 hrm]
        exact inv
      | some d =>
        obtain ⟨pr, nx, cs, fi, hs, hcs, hfi, slots2, slots3, h2, h3, ha2⟩ :=
          remove_ok_spec a i d a2 hrm
        rw [ha2]
        exact freed_bounds a.controller i.index cs hcs inv
  | getMutWrite i v =>
    simp only [step] at h
    split at h
    · cases h
    · rename_i a2 hw
      cases h
      rcases set_via_get_mut_spec a i v a2 hw with ha | ⟨s0, d, pr, nx, hs0, hst, hg, ha⟩
      · rw [ha]
        exact inv
      · rw [ha]
        exact inv

theorem applyOps_bounds (ops : List (Op T)) (s s2 : ArenaSt T)
    (h : applyOps ops s = some s2) (inv : ControllerBounds s.1.controller) :
    ControllerBounds s2.1.controller := by
  induction ops generalizing s with
  | nil =>
    cases h
    exact inv
  | cons o os ih =>
    unfold applyOps at h
    split at h
    · cases h
    · rename_i s1 h1
      exact ih s1 h (step_bounds o s s1 h1 inv)

/-- The conclusion of C10: the capacity-0 construction panics in
`try_reserve`/`insert` rather than reporting `ArenaFull`, and in a reachable
capacity-positive state every slot access of `try_reserve` and `free` is in
bounds (no panic). -/
def C10Conclusion (v0 : T) (s2 : ArenaSt T) : Prop :=
  ((ControllerInner.new 0).slots = [] ∧
   (ControllerInner.new 0).first_free_slot_index = 0 ∧
   (ControllerInner.new 0).try_reserve = none ∧
   (Arena.new 0 : Arena T).insert v0 = none) ∧
  s2.1.controller.try_reserve ≠ none ∧
  (∀ p, p < s2.1.controller.slots.length → s2.1.controller.free p ≠ none)

/-- C10: with capacity 0, the free-list head is initialised to 0 over an empty
slot vector and `try_reserve` (hence `insert`) panics on an out-of-bounds slot
access instead of returning `ArenaFull`; with capacity at least 1, every slot
access inside `try_reserve` and `free` stays in bounds in every reachable
state. -/
theorem claim_C10_capacity_zero (v0 : T) (c : Nat) (hc : 1 ≤ c)
    (ops : List (Op T)) (s2 : ArenaSt T) (h : applyOps ops (initSt c) = some s2) :
    C10Conclusion v0 s2 := by
  unfold C10Conclusion
  refine ⟨⟨rfl, rfl, by decide, ?_⟩, ?_, ?_⟩
  · unfold Arena.insert Arena.new
    have h0 : (ControllerInner.new 0).try_reserve = none := by decide
    rw [h0]
  · have hinv := applyOps_bounds ops _ s2 h (new_bounds c)
    have hlen : s2.1.controller.slots.length = c := by
      have := (applyOps_lengths ops _ s2 h).2
      rw [this]
      exact controller_new_length c
    obtain ⟨inv1, inv2⟩ := hinv
    unfold ControllerInner.try_reserve
    by_cases hNO : s2.1.controller.first_free_slot_index = NO_NEXT_FREE_SLOT
    · rw [if_pos hNO]
      simp
    · rw [if_neg hNO]
      rcases inv1 with h1 | h1 | h1
      · exact absurd h1 hNO
      · obtain ⟨cs, hcs⟩ := get?_lt_some h1
        rw [hcs]
        simp
      · rw [hlen] at h1
        omega
  · intro p hp
    obtain ⟨cs, hcs⟩ := get?_lt_some hp
    unfold ControllerInner.free
    rw [hcs]
    simp

/-- C10 witness state: capacity 1 after a single reservation. -/
def c10wS : ArenaSt Nat :=
  (applyOps [Op.tryReserve] (initSt 1)).getD (Arena.new 0, [])

theorem claim_C10_capacity_zero_witness :
    1 ≤ 1 ∧ applyOps [Op.tryReserve] (initSt 1) = some c10wS ∧
      C10Conclusion (7 : Nat) c10wS :=
  ⟨by decide, by decide,
    claim_C10_capacity_zero 7 1 (by decide) [Op.tryReserve] c10wS (by decide)⟩

/-! ### Claim C3: reservation exhaustion -/

/-- Closed form of the controller state after `k` reservations from a fresh
controller of capacity `c`: the first `k` slots are marked non-free, the
next-pointers are untouched, and the head is `k` (or the sentinel once all
slots are spent). -/
def controllerAfter (c k : Nat) : ControllerInner :=
  { slots := (List.range c).map fun i =>
      { free := decide (k ≤ i)
        generation := 0
        next_free_slot_index := if i < c - 1 then i + 1 else NO_NEXT_FREE_SLOT }
    first_free_slot_index := if k < c then k else NO_NEXT_FREE_SLOT }

theorem controllerAfter_get? (c k p : Nat) :
    (controllerAfter c k).slots.get? p =
      if p < c then
        some ⟨decide (k ≤ p), 0, if p < c - 1 then p + 1 else NO_NEXT_FREE_SLOT⟩
      else none := by
  unfold controllerAfter
  rw [get?_map_eq, range_get?]
  by_cases h : p < c
  · rw [if_pos h, if_pos h]
    rfl
  · rw [if_neg h, if_neg h]
    rfl

theorem controllerAfter_zero (c : Nat) (hc : 1 ≤ c) :
    controllerAfter c 0 = ControllerInner.new c := by
  unfold controllerAfter ControllerInner.new
  congr 1
  · exact List.map_congr_left (fun i _ => by simp)
  · rw [if_pos (show 0 < c by omega)]

theorem controllerAfter_step (c k : Nat) (hk : k < c) (hcap : c < 2 ^ 64) :
    (controllerAfter c k).try_reserve =
      some (Except.ok ⟨k, 0⟩, controllerAfter c (k + 1)) := by
  have hfirst : (controllerAfter c k).first_free_slot_index = k := by
    unfold controllerAfter
    simp only
    rw [if_pos hk]
  have hkNO : k ≠ NO_NEXT_FREE_SLOT := by
    unfold NO_NEXT_FREE_SLOT
    omega
  have hget : (controllerAfter c k).slots.get? k =
      some ⟨true, 0, if k < c - 1 then k + 1 else NO_NEXT_FREE_SLOT⟩ := by
    rw [controllerAfter_get?, if_pos hk]
    simp
  unfold ControllerInner.try_reserve
  rw [hfirst, if_neg hkNO, hget]
  simp only
  rw [Option.some_inj, Prod.mk.injEq]
  refine ⟨rfl, ?_⟩
  · unfold controllerAfter
    simp only
    congr 1
    · apply List.ext_get?
      intro n
      by_cases hn : n = k
      · subst hn
        rw [get?_set_self]
        · rw [get?_map_eq, range_get?, if_pos hk]
          simp
        · simp only [List.length_map, List.length_range]
          exact hk
      · rw [get?_set_ne _ _ (fun he => hn he.symm)]
        rw [get?_map_eq, get?_map_eq, range_get?]
        by_cases h2 : n < c
        · rw [if_pos h2]
          simp only [Option.map_some']
          congr 2
          have he : (k ≤ n) ↔ (k + 1 ≤ n) := by omega
          simp only [decide_eq_decide]
          exact he
        · rw [if_neg h2]
          rfl
    · by_cases h2 : k < c - 1
      · rw [if_pos h2, if_pos (by omega)]
      · rw [if_neg h2, if_neg (by omega)]

theorem controllerAfter_full (c : Nat) :
    (controllerAfter c c).try_reserve =
      some (Except.error ArenaFull.mk, controllerAfter c c) := by
  have hfirst : (controllerAfter c c).first_free_slot_index = NO_NEXT_FREE_SLOT := by
    unfold controllerAfter
    simp only
    rw [if_neg (by omega)]
  unfold ControllerInner.try_reserve
  rw [hfirst, if_pos rfl]

/-- `n` consecutive `try_reserve` calls, all of which must succeed. -/
def tryReserveN (c : ControllerInner) : Nat → Option (List Index × ControllerInner)
  | 0 => some ([], c)
  | n + 1 =>
    match c.try_reserve with
    | some (Except.ok i, c2) =>
      match tryReserveN c2 n with
      | some (is, c3) => some (i :: is, c3)
      | none => none
    | _ => none

theorem tryReserveN_controllerAfter (c : Nat) (hcap : c < 2 ^ 64) :
    ∀ (j k : Nat), k + j ≤ c →
      tryReserveN (controllerAfter c k) j =
        some ((List.range' k j).map fun m => ⟨m, 0⟩, controllerAfter c (k + j)) := by
  intro j
  induction j with
  | zero =>
    intro k hk
    rfl
  | succ n ih =>
    intro k hk
    have hstep := controllerAfter_step c k (by omega) hcap
    have hih := ih (k + 1) (by omega)
    simp only [tryReserveN, hstep, hih]
    rw [List.range'_succ]
    simp only [List.map_cons]
    rw [Option.some_inj, Prod.mk.injEq]
    refine ⟨rfl, ?_⟩
    congr 1
    omega

/-- The conclusion of C3: from a fresh controller of capacity `c`, `c`
successive `try_reserve` calls all succeed (handing out `c` distinct slots),
and the `(c+1)`-th call fails with `ArenaFull`, leaving the controller state
unchanged. -/
def C3Conclusion (c : Nat) : Prop :=
  ∃ idxs ctrl2, tryReserveN (ControllerInner.new c) c = some (idxs, ctrl2) ∧
    idxs = (List.range c).map (fun m => ⟨m, 0⟩) ∧
    ctrl2.try_reserve = some (Except.error ArenaFull.mk, ctrl2)

/-- C3: reserving more than `capacity` indices with no intervening removal
fails with `ArenaFull` on the `(capacity+1)`-th attempt, with no side
effect. -/
theorem claim_C3_reservation_exhaustion (c : Nat) (hc : 1 ≤ c)
    (hcap : c < 2 ^ 64) : C3Conclusion c := by
  refine ⟨(List.range c).map (fun m => ⟨m, 0⟩), controllerAfter c c, ?_, rfl, ?_⟩
  · have := tryReserveN_controllerAfter c hcap c 0 (by omega)
    rw [controllerAfter_zero c hc] at this
    rw [this]
    rw [Nat.zero_add]
    rw [List.range_eq_range']
  · exact controllerAfter_full c

theorem claim_C3_reservation_exhaustion_witness :
    1 ≤ 3 ∧ 3 < 2 ^ 64 ∧ C3Conclusion 3 :=
  ⟨by decide, by norm_num, claim_C3_reservation_exhaustion 3 (by decide) (by norm_num)⟩

/-! ### The occupied doubly linked list as a chain of entries -/

/-- One occupied entry: slot position, generation and stored value. -/
structure Entry (T : Type) where
  pos : Nat
  gen : Nat
  data : T
deriving DecidableEq

/-- The slot positions of a list of entries. -/
def entriesPos (l : List (Entry T)) : List Nat := l.map Entry.pos

/-- `ChainSeg slots pr cur l pr2 cur2` says: starting the walk at `cur` with
predecessor `pr`, the next `l.length` occupied slots are exactly the entries
of `l` (matching data, generation, and doubly-linked `previous`/`next`
fields), after which the walk state is `(pr2, cur2)`. -/
def ChainSeg (slots : List (ArenaSlot T)) :
    Option Nat → Option Nat → List (Entry T) → Option Nat → Option Nat → Prop
  | pr, cur, [], pr2, cur2 => pr2 = pr ∧ cur2 = cur
  | pr, cur, e :: rest, pr2, cur2 =>
    cur = some e.pos ∧
    ∃ n, slots.get? e.pos =
        some ⟨ArenaSlotState.Occupied e.data pr n, e.gen⟩ ∧
      ChainSeg slots (some e.pos) n rest pr2 cur2

theorem chainseg_nil (slots : List (ArenaSlot T)) (pr cur pr2 cur2 : Option Nat) :
    ChainSeg slots pr cur [] pr2 cur2 ↔ pr2 = pr ∧ cur2 = cur := Iff.rfl

theorem chainseg_cons (slots : List (ArenaSlot T)) (pr cur pr2 cur2 : Option Nat)
    (e : Entry T) (rest : List (Entry T)) :
    ChainSeg slots pr cur (e :: rest) pr2 cur2 ↔
      cur = some e.pos ∧
      ∃ n, slots.get? e.pos =
          some ⟨ArenaSlotState.Occupied e.data pr n, e.gen⟩ ∧
        ChainSeg slots (some e.pos) n rest pr2 cur2 := Iff.rfl

/-- Chain segments only read the slots at their entries' positions. -/
theorem chainseg_congr (slots slots2 : List (ArenaSlot T)) :
    ∀ (l : List (Entry T)) (pr cur pr2 cur2 : Option Nat),
      (∀ e ∈ l, slots2.get? e.pos = slots.get? e.pos) →
      ChainSeg slots pr cur l pr2 cur2 → ChainSeg slots2 pr cur l pr2 cur2 := by
  intro l
  induction l with
  | nil =>
    intro pr cur pr2 cur2 hag h
    exact h
  | cons e rest ih =>
    intro pr cur pr2 cur2 hag h
    rw [chainseg_cons] at h ⊢
    obtain ⟨hcur, n, hread, hrest⟩ := h
    refine ⟨hcur, n, ?_, ?_⟩
    · rw [hag e (List.mem_cons_self e rest)]
      exact hread
    · exact ih _ _ _ _ (fun x hx => hag x (List.mem_cons_of_mem e hx)) hrest

theorem chainseg_append (slots : List (ArenaSlot T)) (K R : List (Entry T)) :
    ∀ (pr cur pr2 cur2 : Option Nat),
      ChainSeg slots pr cur (K ++ R) pr2 cur2 ↔
        ∃ prm curm, ChainSeg slots pr cur K prm curm ∧
          ChainSeg slots prm curm R pr2 cur2 := by
  induction K with
  | nil =>
    intro pr cur pr2 cur2
    simp only [List.nil_append]
    constructor
    · intro h
      exact ⟨pr, cur, ⟨rfl, rfl⟩, h⟩
    · rintro ⟨prm, curm, ⟨h1, h2⟩, h⟩
      rw [h1, h2] at h
      exact h
  | cons e K0 ih =>
    intro pr cur pr2 cur2
    simp only [List.cons_append]
    constructor
    · intro h
      rw [chainseg_cons] at h
      obtain ⟨hcur, n, hread, hrest⟩ := h
      obtain ⟨prm, curm, hK, hR⟩ := (ih _ _ _ _).mp hrest
      exact ⟨prm, curm, (chainseg_cons _ _ _ _ _ _ _).mpr ⟨hcur, n, hread, hK⟩, hR⟩
    · rintro ⟨prm, curm, hK, hR⟩
      rw [chainseg_cons] at hK
      obtain ⟨hcur, n, hread, hK0⟩ := hK
      rw [chainseg_cons]
      exact ⟨hcur, n, hread, (ih _ _ _ _).mpr ⟨prm, curm, hK0, hR⟩⟩

/-- Every entry of a chain reads back as an occupied slot with its data and
generation. -/
theorem chainseg_mem_read (slots : List (ArenaSlot T)) :
    ∀ (l : List (Entry T)) (pr cur pr2 cur2 : Option Nat),
      ChainSeg slots pr cur l pr2 cur2 → ∀ e ∈ l,
      ∃ p n, slots.get? e.pos =
        some ⟨ArenaSlotState.Occupied e.data p n, e.gen⟩ := by
  intro l
  induction l with
  | nil =>
    intro pr cur pr2 cur2 h e he
    cases he
  | cons e0 rest ih =>
    intro pr cur pr2 cur2 h e he
    rw [chainseg_cons] at h
    obtain ⟨hcur, n, hread, hrest⟩ := h
    rcases List.mem_cons.mp he with he0 | hmem
    · subst he0
      exact ⟨pr, n, hread⟩
    · exact ih _ _ _ _ hrest e hmem

/-- The walk state after a nonempty chain: the exit predecessor is the last
entry's position and its stored next pointer is the exit cursor. -/
theorem chainseg_concat_exit (slots : List (ArenaSlot T)) (K0 : List (Entry T))
    (k : Entry T) (pr cur pr2 cur2 : Option Nat)
    (h : ChainSeg slots pr cur (K0 ++ [k]) pr2 cur2) :
    pr2 = some k.pos ∧
    ∃ prm, slots.get? k.pos =
        some ⟨ArenaSlotState.Occupied k.data prm cur2, k.gen⟩ := by
  obtain ⟨prm, curm, hK, hk⟩ := (chainseg_append slots K0 [k] pr cur pr2 cur2).mp h
  rw [chainseg_cons] at hk
  obtain ⟨hcur, n, hread, hnil⟩ := hk
  rw [chainseg_nil] at hnil
  obtain ⟨h1, h2⟩ := hnil
  subst h1
  subst h2
  exact ⟨rfl, prm, hread⟩

/-- Mutating the data of an occupied slot rewrites a chain pointwise. -/
theorem chainseg_mutate (slots : List (ArenaSlot T)) (q : Nat) (v : T) (d : T)
    (prq nxq : Option Nat) (gq : Nat)
    (hq : slots.get? q = some ⟨ArenaSlotState.Occupied d prq nxq, gq⟩) :
    ∀ (l : List (Entry T)) (pr cur pr2 cur2 : Option Nat),
      ChainSeg slots pr cur l pr2 cur2 →
      ChainSeg (slots.set q ⟨ArenaSlotState.Occupied v prq nxq, gq⟩) pr cur
        (l.map fun e => if e.pos = q then ⟨e.pos, e.gen, v⟩ else e) pr2 cur2 := by
  intro l
  induction l with
  | nil =>
    intro pr cur pr2 cur2 h
    exact h
  | cons e rest ih =>
    intro pr cur pr2 cur2 h
    rw [chainseg_cons] at h
    obtain ⟨hcur, n, hread, hrest⟩ := h
    simp only [List.map_cons]
    by_cases hp : e.pos = q
    · rw [if_pos hp]
      rw [chainseg_cons]
      simp only
      refine ⟨hcur, n, ?_, ih _ _ _ _ hrest⟩
      rw [hp] at hread
      rw [hread] at hq
      rw [Option.some_inj] at hq
      simp only [ArenaSlot.mk.injEq, ArenaSlotState.Occupied.injEq] at hq
      obtain ⟨⟨hd1, hd2, hd3⟩, hd4⟩ := hq
      rw [hp, get?_set_self _ (get?_some_lt hread)]
      rw [← hd2, ← hd3, ← hd4]
    · rw [if_neg hp]
      rw [chainseg_cons]
      refine ⟨hcur, n, ?_, ih _ _ _ _ hrest⟩
      rw [get?_set_ne _ _ (fun he => hp he.symm)]
      exact hread

/-- The exit predecessor of a chain: the last entry's position, or the
incoming predecessor for the empty chain. -/
def exitPr (pr : Option Nat) : List (Entry T) → Option Nat
  | [] => pr
  | e :: rest => exitPr (some e.pos) rest

theorem exitPr_nil (pr : Option Nat) : exitPr pr ([] : List (Entry T)) = pr := rfl

theorem exitPr_cons (pr : Option Nat) (e : Entry T) (l : List (Entry T)) :
    exitPr pr (e :: l) = exitPr (some e.pos) l := rfl

theorem exitPr_cons_of_ne_nil (pr pr' : Option Nat) (e : Entry T)
    (l : List (Entry T)) (h : l ≠ []) : exitPr pr (e :: l) = exitPr pr' l := by
  cases l with
  | nil => exact absurd rfl h
  | cons f r => rfl

theorem exitPr_concat (pr : Option Nat) (K0 : List (Entry T)) (k : Entry T) :
    exitPr pr (K0 ++ [k]) = some k.pos := by
  induction K0 generalizing pr with
  | nil => rfl
  | cons f r ih =>
    rw [List.cons_append, exitPr_cons]
    exact ih _

/-- The full occupied list of the arena, as a chain from
`first_occupied_slot_index` ending in `none`. -/
def FullChain (a : Arena T) (l : List (Entry T)) : Prop :=
  ChainSeg a.slots none a.first_occupied_slot_index l (exitPr none l) none

/-- The arena's occupied-list invariant: the occupied slots are exactly the
entries of one well-formed, duplicate-free chain. -/
structure ChainInv (a : Arena T) (l : List (Entry T)) : Prop where
  chain : FullChain a l
  nodup : (entriesPos l).Nodup
  occ : ∀ j, occAt a.slots j = true ↔ j ∈ entriesPos l

theorem fullchain_nil_first (a : Arena T) (h : FullChain a ([] : List (Entry T))) :
    a.first_occupied_slot_index = none := by
  unfold FullChain at h
  rw [chainseg_nil] at h
  exact h.2.symm

theorem fullchain_cons_first (a : Arena T) (e : Entry T) (rest : List (Entry T))
    (h : FullChain a (e :: rest)) :
    a.first_occupied_slot_index = some e.pos := by
  unfold FullChain at h
  rw [chainseg_cons] at h
  exact h.1

theorem isOccupied_free : (ArenaSlotState.Free : ArenaSlotState T).isOccupied = false := rfl

theorem isOccupied_occupied (d : T) (pr nx : Option Nat) :
    (ArenaSlotState.Occupied d pr nx).isOccupied = true := rfl

theorem occAt_eq_of_get? (slots : List (ArenaSlot T)) (j : Nat) (s : ArenaSlot T)
    (h : slots.get? j = some s) : occAt slots j = s.state.isOccupied := by
  unfold occAt
  rw [h]

theorem occAt_set_self (slots : List (ArenaSlot T)) (q : Nat) (x : ArenaSlot T)
    (h : q < slots.length) : occAt (slots.set q x) q = x.state.isOccupied := by
  unfold occAt
  rw [get?_set_self _ h]

theorem occAt_set_ne (slots : List (ArenaSlot T)) (q j : Nat) (x : ArenaSlot T)
    (h : q ≠ j) : occAt (slots.set q x) j = occAt slots j := by
  unfold occAt
  rw [get?_set_ne _ _ h]

theorem occAt_of_get?_occupied (slots : List (ArenaSlot T)) (j : Nat) (d : T)
    (pr nx : Option Nat) (g : Nat)
    (h : slots.get? j = some ⟨ArenaSlotState.Occupied d pr nx, g⟩) :
    occAt slots j = true := by
  unfold occAt
  rw [h]
  rfl

theorem chainseg_exitPr (slots : List (ArenaSlot T)) :
    ∀ (K : List (Entry T)) (pr cur prm curm : Option Nat),
      ChainSeg slots pr cur K prm curm → prm = exitPr pr K := by
  intro K
  induction K with
  | nil =>
    intro pr cur prm curm h
    exact h.1
  | cons e rest ih =>
    intro pr cur prm curm h
    rw [chainseg_cons] at h
    obtain ⟨hcur, n, hread, hrest⟩ := h
    rw [exitPr_cons]
    exact ih _ _ _ _ hrest

/-- Inserting a value at a reserved (free, generation-matching) slot prepends
an entry to the occupied chain. -/
theorem insert_chain (a : Arena T) (l : List (Entry T)) (hinv : ChainInv a l)
    (i : Index) (v : T) (s : ArenaSlot T)
    (hs : a.slots.get? i.index = some s) (hfree : s.state = ArenaSlotState.Free)
    (hgen : s.generation = i.generation) :
    ∃ a2, a.insert_with_index i v = some (Except.ok (), a2) ∧
      ChainInv a2 (⟨i.index, i.generation, v⟩ :: l) ∧
      a2.controller = a.controller ∧ a2.slots.length = a.slots.length := by
  have hilen : i.index < a.slots.length := get?_some_lt hs
  have hnotin : i.index ∉ entriesPos l := by
    intro hmem
    have hocc := (hinv.occ i.index).mpr hmem
    rw [occAt_eq_of_get? _ _ _ hs, hfree, isOccupied_free] at hocc
    cases hocc
  cases l with
  | nil =>
    have hf := fullchain_nil_first a hinv.chain
    refine ⟨_, insert_with_index_ok_of_none a i v s hs hfree hgen hf, ?_, rfl, by simp⟩
    constructor
    · unfold FullChain
      simp only
      rw [exitPr_cons, exitPr_nil]
      rw [chainseg_cons]
      refine ⟨rfl, none, ?_, ⟨rfl, rfl⟩⟩
      simp only
      rw [get?_set_self _ hilen, hgen]
    · simp [entriesPos]
    · intro j
      simp only
      by_cases hj : i.index = j
      · subst hj
        rw [occAt_set_self _ _ _ hilen]
        simp [entriesPos, isOccupied_occupied]
      · rw [occAt_set_ne _ _ _ _ hj]
        have hocc := hinv.occ j
        simp only [entriesPos, List.map_nil, List.not_mem_nil, iff_false] at hocc
        simp only [entriesPos, List.map_cons, List.map_nil]
        constructor
        · intro hcon
          exact absurd hcon hocc
        · intro hcon
          rcases List.mem_singleton.mp hcon with he
          exact absurd he.symm hj
  | cons e0 rest =>
    have hf := fullchain_cons_first a e0 rest hinv.chain
    have hchain := hinv.chain
    unfold FullChain at hchain
    rw [chainseg_cons] at hchain
    obtain ⟨hcur, n0, hread0, hrest⟩ := hchain
    have he0len : e0.pos < a.slots.length := get?_some_lt hread0
    have hne0 : e0.pos ≠ i.index := by
      intro heq
      exact hnotin (by rw [← heq]; exact List.mem_cons_self _ _)
    refine ⟨_, insert_with_index_ok_of_head a i v s e0.pos e0.data none n0 e0.gen
      hs hfree hgen hf hread0, ?_, rfl, by simp⟩
    have hread_e0 : ((a.slots.set e0.pos
        ⟨ArenaSlotState.Occupied e0.data (some i.index) n0, e0.gen⟩).set i.index
        ⟨ArenaSlotState.Occupied v none (some e0.pos), s.generation⟩).get? e0.pos =
        some ⟨ArenaSlotState.Occupied e0.data (some i.index) n0, e0.gen⟩ := by
      rw [get?_set_ne _ _ (fun he => hne0 he.symm), get?_set_self _ (by simpa using he0len)]
    have hread_i : ((a.slots.set e0.pos
        ⟨ArenaSlotState.Occupied e0.data (some i.index) n0, e0.gen⟩).set i.index
        ⟨ArenaSlotState.Occupied v none (some e0.pos), s.generation⟩).get? i.index =
        some ⟨ArenaSlotState.Occupied v none (some e0.pos), s.generation⟩ := by
      rw [get?_set_self _ (by simpa using hilen)]
    constructor
    · unfold FullChain
      simp only
      rw [chainseg_cons]
      refine ⟨rfl, some e0.pos, by rw [hread_i, hgen], ?_⟩
      rw [chainseg_cons]
      refine ⟨rfl, n0, hread_e0, ?_⟩
      have hagree : ∀ x ∈ rest, ((a.slots.set e0.pos
          ⟨ArenaSlotState.Occupied e0.data (some i.index) n0, e0.gen⟩).set i.index
          ⟨ArenaSlotState.Occupied v none (some e0.pos), s.generation⟩).get? x.pos =
          a.slots.get? x.pos := by
        intro x hx
        have hx1 : x.pos ≠ i.index := by
          intro heq
          apply hnotin
          rw [← heq]
          simp only [entriesPos, List.map_cons, List.mem_cons]
          exact Or.inr (List.mem_map_of_mem Entry.pos hx)
        have hx2 : x.pos ≠ e0.pos := by
          intro heq
          have hnd := hinv.nodup
          simp only [entriesPos, List.map_cons, List.nodup_cons] at hnd
          apply hnd.1
          rw [← heq]
          exact List.mem_map_of_mem Entry.pos hx
        rw [get?_set_ne _ _ (fun he => hx1 he.symm), get?_set_ne _ _ (fun he => hx2 he.symm)]
      exact chainseg_congr _ _ rest _ _ _ _ hagree hrest
    · have hnd := hinv.nodup
      simp only [entriesPos, List.map_cons, List.nodup_cons] at hnd ⊢
      refine ⟨?_, hnd⟩
      intro hcon
      exact hnotin (by simpa [entriesPos] using hcon)
    · intro j
      simp only
      by_cases hj : i.index = j
      · subst hj
        unfold occAt
        rw [hread_i]
        simp [entriesPos, isOccupied_occupied]
      · by_cases hj2 : e0.pos = j
        · subst hj2
          unfold occAt
          rw [hread_e0]
          simp [entriesPos, isOccupied_occupied]
        · have : occAt ((a.slots.set e0.pos
              ⟨ArenaSlotState.Occupied e0.data (some i.index) n0, e0.gen⟩).set i.index
              ⟨ArenaSlotState.Occupied v none (some e0.pos), s.generation⟩) j
              = occAt a.slots j := by
            rw [occAt_set_ne _ _ _ _ hj]
            rw [occAt_set_ne _ _ _ _ hj2]
          rw [this]
          have hocc := hinv.occ j
          simp only [entriesPos, List.map_cons, List.mem_cons] at hocc ⊢
          constructor
          · intro hx
            exact Or.inr (hocc.mp hx)
          · intro hx
            rcases hx with hx | hx
            · exact absurd hx.symm hj
            · exact hocc.mpr hx

theorem exitPr_append (pr : Option Nat) (X Y : List (Entry T)) :
    exitPr pr (X ++ Y) = exitPr (exitPr pr X) Y := by
  induction X generalizing pr with
  | nil => rfl
  | cons x xs ih =>
    rw [List.cons_append, exitPr_cons, exitPr_cons]
    exact ih _

theorem occ_after_free (slotsOld slotsNew : List (ArenaSlot T)) (epos : Nat)
    (P : List Nat)
    (hfree : occAt slotsNew epos = false)
    (hother : ∀ j, j ≠ epos → occAt slotsNew j = occAt slotsOld j)
    (hold : ∀ j, occAt slotsOld j = true ↔ (j = epos ∨ j ∈ P))
    (henot : epos ∉ P) :
    ∀ j, occAt slotsNew j = true ↔ j ∈ P := by
  intro j
  by_cases hj : j = epos
  · subst hj
    rw [hfree]
    simp only [Bool.false_eq_true, false_iff]
    exact henot
  · rw [hother j hj, hold j]
    constructor
    · intro hc
      rcases hc with hc | hc
      · exact absurd hc hj
      · exact hc
    · intro hc
      exact Or.inr hc

/-- Removing a chain entry (by its position and current generation) succeeds,
returns its data, and excises it from the chain, relinking its neighbours. -/
theorem remove_chain (a : Arena T) (K R : List (Entry T)) (e : Entry T)
    (hinv : ChainInv a (K ++ e :: R))
    (hctrl : e.pos < a.controller.slots.length) :
    ∃ a2, a.remove ⟨e.pos, e.gen⟩ = some (some e.data, a2) ∧
      ChainInv a2 (K ++ R) ∧
      a2.slots.length = a.slots.length ∧
      a2.controller.slots.length = a.controller.slots.length := by
  obtain ⟨cs, hcs⟩ := get?_lt_some hctrl
  have hchain := hinv.chain
  unfold FullChain at hchain
  obtain ⟨prm, curm, hK, hER⟩ :=
    (chainseg_append _ K (e :: R) _ _ _ _).mp hchain
  rw [chainseg_cons] at hER
  obtain ⟨hcurm, nE, hre, hR⟩ := hER
  have helen : e.pos < a.slots.length := get?_some_lt hre
  have hnd := hinv.nodup
  simp only [entriesPos, List.map_append, List.map_cons] at hnd
  have hnd2 : (e.pos :: (List.map Entry.pos K ++ List.map Entry.pos R)).Nodup :=
    List.nodup_middle.mp hnd
  rw [List.nodup_cons] at hnd2
  obtain ⟨hE, hKR⟩ := hnd2
  have hEK : e.pos ∉ List.map Entry.pos K := fun hc => hE (List.mem_append_left _ hc)
  have hER2 : e.pos ∉ List.map Entry.pos R := fun hc => hE (List.mem_append_right _ hc)
  have hPeq : entriesPos (K ++ R) = List.map Entry.pos K ++ List.map Entry.pos R := by
    simp [entriesPos]
  have hold2 : ∀ j, occAt a.slots j = true ↔
      (j = e.pos ∨ j ∈ entriesPos (K ++ R)) := by
    intro j
    rw [hinv.occ j, hPeq]
    simp only [entriesPos, List.map_append, List.map_cons, List.mem_append,
      List.mem_cons]
    tauto
  have hEnot : e.pos ∉ entriesPos (K ++ R) := by
    rw [hPeq]
    exact hE
  have hgoal_nodup : (entriesPos (K ++ R)).Nodup := by
    rw [hPeq]
    exact hKR
  rcases List.eq_nil_or_concat K with hKnil | ⟨K0, k, hKc⟩
  · -- K = []: e is the head of the occupied list
    subst hKnil
    rw [chainseg_nil] at hK
    obtain ⟨hprm, hcurm2⟩ := hK
    subst hprm
    have hfirst : a.first_occupied_slot_index = some e.pos := by
      rw [← hcurm2]
      exact hcurm
    have h2 : prevUpd (a.slots.set e.pos
        ⟨ArenaSlotState.Free, usizeWrap (e.gen + 1)⟩) none nE =
        some (a.slots.set e.pos ⟨ArenaSlotState.Free, usizeWrap (e.gen + 1)⟩) :=
      prevUpd_of_none _ _
    cases R with
    | nil =>
      rw [chainseg_nil] at hR
      obtain ⟨hEe, hnE⟩ := hR
      have hnE2 : nE = none := hnE.symm
      subst hnE2
      have hrm := remove_ok_of a ⟨e.pos, e.gen⟩ e.data none none cs e.pos
        (a.slots.set e.pos ⟨ArenaSlotState.Free, usizeWrap (e.gen + 1)⟩)
        (a.slots.set e.pos ⟨ArenaSlotState.Free, usizeWrap (e.gen + 1)⟩)
        hre hcs hfirst h2 (nextUpd_of_none _ _)
      refine ⟨_, hrm, ?_, by simp, by unfold freedController; simp⟩
      constructor
      · unfold FullChain
        simp only [List.nil_append, if_pos rfl]
        exact ⟨rfl, rfl⟩
      · exact hgoal_nodup
      · intro j
        simp only
        apply occ_after_free a.slots _ e.pos (entriesPos (([] : List (Entry T)) ++ []))
          ?_ ?_ hold2 hEnot
        · rw [occAt_set_self _ _ _ helen]
          rfl
        · intro j2 hj2
          rw [occAt_set_ne _ _ _ _ (fun hh => hj2 hh.symm)]
    | cons r R2 =>
      rw [chainseg_cons] at hR
      obtain ⟨hnEr, nr, hrr, hR2⟩ := hR
      subst hnEr
      have hrne : r.pos ≠ e.pos := by
        intro hc
        apply hER2
        rw [← hc]
        exact List.mem_cons_self _ _
      have hrlen : r.pos < a.slots.length := get?_some_lt hrr
      have hrr1 : (a.slots.set e.pos
          ⟨ArenaSlotState.Free, usizeWrap (e.gen + 1)⟩).get? r.pos =
          some ⟨ArenaSlotState.Occupied r.data (some e.pos) nr, r.gen⟩ := by
        rw [get?_set_ne _ _ (fun hh => hrne hh.symm)]
        exact hrr
      have h3 := nextUpd_of_some (a.slots.set e.pos
        ⟨ArenaSlotState.Free, usizeWrap (e.gen + 1)⟩) r.pos none r.data
        (some e.pos) nr r.gen hrr1
      have hrm := remove_ok_of a ⟨e.pos, e.gen⟩ e.data none (some r.pos) cs e.pos
        (a.slots.set e.pos ⟨ArenaSlotState.Free, usizeWrap (e.gen + 1)⟩) _
        hre hcs hfirst h2 h3
      refine ⟨_, hrm, ?_, by simp, by unfold freedController; simp⟩
      constructor
      · unfold FullChain
        simp only [List.nil_append, if_pos rfl]
        rw [chainseg_cons]
        refine ⟨rfl, nr, ?_, ?_⟩
        · rw [get?_set_self _ (by simpa using hrlen)]
        · have hagree : ∀ x ∈ R2, ((a.slots.set e.pos
              ⟨ArenaSlotState.Free, usizeWrap (e.gen + 1)⟩).set r.pos
              ⟨ArenaSlotState.Occupied r.data none nr, r.gen⟩).get? x.pos =
              a.slots.get? x.pos := by
            intro x hx
            have hx1 : x.pos ≠ e.pos := by
              intro hc
              apply hER2
              rw [← hc]
              exact List.mem_cons_of_mem _ (List.mem_map_of_mem Entry.pos hx)
            have hx2 : x.pos ≠ r.pos := by
              intro hc
              have hndR : (List.map Entry.pos (r :: R2)).Nodup := by
                have := hKR
                simpa using this
              rw [List.map_cons, List.nodup_cons] at hndR
              apply hndR.1
              rw [← hc]
              exact List.mem_map_of_mem Entry.pos hx
            rw [get?_set_ne _ _ (fun hh => hx2 hh.symm),
              get?_set_ne _ _ (fun hh => hx1 hh.symm)]
          exact chainseg_congr _ _ R2 _ _ _ _ hagree hR2
      · exact hgoal_nodup
      · intro j
        simp only
        apply occ_after_free a.slots _ e.pos (entriesPos (([] : List (Entry T)) ++ r :: R2))
          ?_ ?_ hold2 hEnot
        · by_cases hc : r.pos = e.pos
          · exact absurd hc hrne
          · rw [occAt_set_ne _ _ _ _ hc, occAt_set_self _ _ _ helen]
            rfl
        · intro j2 hj2
          by_cases hc : r.pos = j2
          · subst hc
            rw [occAt_set_self _ _ _ (by simpa using hrlen)]
            rw [isOccupied_occupied]
            exact (occAt_of_get?_occupied _ _ _ _ _ _ hrr).symm
          · rw [occAt_set_ne _ _ _ _ hc,
              occAt_set_ne _ _ _ _ (fun hh => hj2 hh.symm)]
  · -- K = K0 ++ [k]: e has the predecessor k
    rw [List.concat_eq_append] at hKc
    subst hKc
    obtain ⟨s0p, s0c, hK0, hk1⟩ :=
      (chainseg_append _ K0 [k] _ _ _ _).mp hK
    rw [chainseg_cons] at hk1
    obtain ⟨hs0c, nk, hkread, hknil⟩ := hk1
    subst hs0c
    rw [chainseg_nil] at hknil
    obtain ⟨hprm, hnk⟩ := hknil
    subst hprm
    rw [hcurm] at hnk
    subst hnk
    have hkne : k.pos ≠ e.pos := by
      intro hc
      apply hEK
      rw [← hc]
      simp
    have hklen : k.pos < a.slots.length := get?_some_lt hkread
    have hkread1 : (a.slots.set e.pos
        ⟨ArenaSlotState.Free, usizeWrap (e.gen + 1)⟩).get? k.pos =
        some ⟨ArenaSlotState.Occupied k.data s0p (some e.pos), k.gen⟩ := by
      rw [get?_set_ne _ _ (fun hh => hkne hh.symm)]
      exact hkread
    have h2 := prevUpd_of_some (a.slots.set e.pos
      ⟨ArenaSlotState.Free, usizeWrap (e.gen + 1)⟩) k.pos nE k.data s0p
      (some e.pos) k.gen hkread1
    have hfirst : ∃ fi, a.first_occupied_slot_index = some fi ∧
        fi ∈ List.map Entry.pos (K0 ++ [k]) := by
      cases K0 with
      | nil =>
        rw [chainseg_nil] at hK0
        obtain ⟨hp0, hc0⟩ := hK0
        exact ⟨k.pos, hc0.symm, by simp⟩
      | cons x xs =>
        rw [chainseg_cons] at hK0
        obtain ⟨hcx, nx2, hxread, hxrest⟩ := hK0
        exact ⟨x.pos, hcx, by simp⟩
    obtain ⟨fi, hfi, hfiK⟩ := hfirst
    have hfine : fi ≠ e.pos := by
      intro hc
      apply hEK
      rw [← hc]
      exact hfiK
    have hndK : (List.map Entry.pos (K0 ++ [k])).Nodup :=
      List.Nodup.of_append_left hKR
    have hKdisj : ∀ b ∈ List.map Entry.pos (K0 ++ [k]), b ∉ List.map Entry.pos R :=
      fun b hb => (List.nodup_append.mp hKR).2.2 hb
    have hkK0 : k.pos ∉ List.map Entry.pos K0 := by
      rw [List.map_append, List.nodup_append] at hndK
      intro hc
      exact hndK.2.2 hc (show k.pos ∈ List.map Entry.pos [k] by simp)
    have hK0xne : ∀ x ∈ K0, x.pos ≠ e.pos ∧ x.pos ≠ k.pos := by
      intro x hx
      constructor
      · intro hc
        apply hEK
        rw [← hc]
        exact List.mem_map_of_mem Entry.pos (List.mem_append_left _ hx)
      · intro hc
        apply hkK0
        rw [← hc]
        exact List.mem_map_of_mem Entry.pos hx
    cases R with
    | nil =>
      rw [chainseg_nil] at hR
      obtain ⟨hEe, hnE⟩ := hR
      have hnE2 : nE = none := hnE.symm
      subst hnE2
      have hrm := remove_ok_of a ⟨e.pos, e.gen⟩ e.data (some k.pos) none cs fi
        _ _ hre hcs hfi h2 (nextUpd_of_none _ _)
      rw [if_neg hfine] at hrm
      refine ⟨_, hrm, ?_, by simp, by unfold freedController; simp⟩
      have hnewk : ((a.slots.set e.pos
          ⟨ArenaSlotState.Free, usizeWrap (e.gen + 1)⟩).set k.pos
          ⟨ArenaSlotState.Occupied k.data s0p none, k.gen⟩).get? k.pos =
          some ⟨ArenaSlotState.Occupied k.data s0p none, k.gen⟩ := by
        rw [get?_set_self _ (by simpa using hklen)]
      have hagreeK0 : ∀ x ∈ K0, ((a.slots.set e.pos
          ⟨ArenaSlotState.Free, usizeWrap (e.gen + 1)⟩).set k.pos
          ⟨ArenaSlotState.Occupied k.data s0p none, k.gen⟩).get? x.pos =
          a.slots.get? x.pos := by
        intro x hx
        obtain ⟨hx1, hx2⟩ := hK0xne x hx
        rw [get?_set_ne _ _ (fun hh => hx2 hh.symm),
          get?_set_ne _ _ (fun hh => hx1 hh.symm)]
      constructor
      · unfold FullChain
        rw [List.append_nil]
        rw [exitPr_concat]
        apply (chainseg_append _ K0 [k] _ _ _ _).mpr
        refine ⟨s0p, some k.pos, ?_, ?_⟩
        · exact chainseg_congr _ _ K0 _ _ _ _ hagreeK0 hK0
        · rw [chainseg_cons]
          exact ⟨rfl, none, hnewk, ⟨rfl, rfl⟩⟩
      · exact hgoal_nodup
      · intro j
        simp only
        apply occ_after_free a.slots _ e.pos (entriesPos ((K0 ++ [k]) ++ []))
          ?_ ?_ hold2 hEnot
        · rw [occAt_set_ne _ _ _ _ hkne, occAt_set_self _ _ _ helen]
          rfl
        · intro j2 hj2
          by_cases hc : k.pos = j2
          · subst hc
            rw [occAt_set_self _ _ _ (by simpa using hklen)]
            rw [isOccupied_occupied]
            exact (occAt_of_get?_occupied _ _ _ _ _ _ hkread).symm
          · rw [occAt_set_ne _ _ _ _ hc,
              occAt_set_ne _ _ _ _ (fun hh => hj2 hh.symm)]
    | cons r R2 =>
      rw [chainseg_cons] at hR
      obtain ⟨hnEr, nr, hrr, hR2⟩ := hR
      subst hnEr
      have hrne : r.pos ≠ e.pos := by
        intro hc
        apply hER2
        rw [← hc]
        exact List.mem_cons_self _ _
      have hrkne : r.pos ≠ k.pos := by
        intro hc
        apply hKdisj k.pos (by simp)
        rw [← hc]
        exact List.mem_cons_self _ _
      have hrlen : r.pos < a.slots.length := get?_some_lt hrr
      have hrr2 : ((a.slots.set e.pos
          ⟨ArenaSlotState.Free, usizeWrap (e.gen + 1)⟩).set k.pos
          ⟨ArenaSlotState.Occupied k.data s0p (some r.pos), k.gen⟩).get? r.pos =
          some ⟨ArenaSlotState.Occupied r.data (some e.pos) nr, r.gen⟩ := by
        rw [get?_set_ne _ _ (fun hh => hrkne hh.symm),
          get?_set_ne _ _ (fun hh => hrne hh.symm)]
        exact hrr
      have h3 := nextUpd_of_some ((a.slots.set e.pos
        ⟨ArenaSlotState.Free, usizeWrap (e.gen + 1)⟩).set k.pos
        ⟨ArenaSlotState.Occupied k.data s0p (some r.pos), k.gen⟩) r.pos
        (some k.pos) r.data (some e.pos) nr r.gen hrr2
      have hrm := remove_ok_of a ⟨e.pos, e.gen⟩ e.data (some k.pos) (some r.pos)
        cs fi _ _ hre hcs hfi h2 h3
      rw [if_neg hfine] at hrm
      refine ⟨_, hrm, ?_, by simp, by unfold freedController; simp⟩
      have hagreeK0 : ∀ x ∈ K0, (((a.slots.set e.pos
          ⟨ArenaSlotState.Free, usizeWrap (e.gen + 1)⟩).set k.pos
          ⟨ArenaSlotState.Occupied k.data s0p (some r.pos), k.gen⟩).set r.pos
          ⟨ArenaSlotState.Occupied r.data (some k.pos) nr, r.gen⟩).get? x.pos =
          a.slots.get? x.pos := by
        intro x hx
        obtain ⟨hx1, hx2⟩ := hK0xne x hx
        have hx3 : x.pos ≠ r.pos := by
          intro hc
          apply hKdisj x.pos
            (List.mem_map_of_mem Entry.pos (List.mem_append_left _ hx))
          rw [hc]
          exact List.mem_cons_self _ _
        rw [get?_set_ne _ _ (fun hh => hx3 hh.symm),
          get?_set_ne _ _ (fun hh => hx2 hh.symm),
          get?_set_ne _ _ (fun hh => hx1 hh.symm)]
      have hnewk : (((a.slots.set e.pos
          ⟨ArenaSlotState.Free, usizeWrap (e.gen + 1)⟩).set k.pos
          ⟨ArenaSlotState.Occupied k.data s0p (some r.pos), k.gen⟩).set r.pos
          ⟨ArenaSlotState.Occupied r.data (some k.pos) nr, r.gen⟩).get? k.pos =
          some ⟨ArenaSlotState.Occupied k.data s0p (some r.pos), k.gen⟩ := by
        rw [get?_set_ne _ _ hrkne, get?_set_self _ (by simpa using hklen)]
      have hnewr : (((a.slots.set e.pos
          ⟨ArenaSlotState.Free, usizeWrap (e.gen + 1)⟩).set k.pos
          ⟨ArenaSlotState.Occupied k.data s0p (some r.pos), k.gen⟩).set r.pos
          ⟨ArenaSlotState.Occupied r.data (some k.pos) nr, r.gen⟩).get? r.pos =
          some ⟨ArenaSlotState.Occupied r.data (some k.pos) nr, r.gen⟩ := by
        rw [get?_set_self _ (by simpa using hrlen)]
      have hagreeR2 : ∀ x ∈ R2, (((a.slots.set e.pos
          ⟨ArenaSlotState.Free, usizeWrap (e.gen + 1)⟩).set k.pos
          ⟨ArenaSlotState.Occupied k.data s0p (some r.pos), k.gen⟩).set r.pos
          ⟨ArenaSlotState.Occupied r.data (some k.pos) nr, r.gen⟩).get? x.pos =
          a.slots.get? x.pos := by
        intro x hx
        have hx1 : x.pos ≠ e.pos := by
          intro hc
          apply hER2
          rw [← hc]
          exact List.mem_cons_of_mem _ (List.mem_map_of_mem Entry.pos hx)
        have hx2 : x.pos ≠ k.pos := by
          intro hc
          apply hKdisj k.pos (by simp)
          rw [← hc]
          exact List.mem_cons_of_mem _ (List.mem_map_of_mem Entry.pos hx)
        have hx3 : x.pos ≠ r.pos := by
          intro hc
          have hndR : (List.map Entry.pos (r :: R2)).Nodup :=
            List.Nodup.of_append_right hKR
          rw [List.map_cons, List.nodup_cons] at hndR
          apply hndR.1
          rw [← hc]
          exact List.mem_map_of_mem Entry.pos hx
        rw [get?_set_ne _ _ (fun hh => hx3 hh.symm),
          get?_set_ne _ _ (fun hh => hx2 hh.symm),
          get?_set_ne _ _ (fun hh => hx1 hh.symm)]
      constructor
      · unfold FullChain
        have hEeq : exitPr (none : Option Nat) ((K0 ++ [k]) ++ e :: r :: R2) =
            exitPr none ((K0 ++ [k]) ++ r :: R2) := by
          simp only [exitPr_append, exitPr_cons]
        rw [← hEeq]
        apply (chainseg_append _ (K0 ++ [k]) (r :: R2) _ _ _ _).mpr
        refine ⟨some k.pos, some r.pos, ?_, ?_⟩
        · apply (chainseg_append _ K0 [k] _ _ _ _).mpr
          refine ⟨s0p, some k.pos, ?_, ?_⟩
          · exact chainseg_congr _ _ K0 _ _ _ _ hagreeK0 hK0
          · rw [chainseg_cons]
            exact ⟨rfl, some r.pos, hnewk, ⟨rfl, rfl⟩⟩
        · rw [chainseg_cons]
          refine ⟨rfl, nr, hnewr, ?_⟩
          exact chainseg_congr _ _ R2 _ _ _ _ hagreeR2 hR2
      · exact hgoal_nodup
      · intro j
        simp only
        apply occ_after_free a.slots _ e.pos
          (entriesPos ((K0 ++ [k]) ++ r :: R2)) ?_ ?_ hold2 hEnot
        · rw [occAt_set_ne _ _ _ _ (fun hh => hrne hh),
            occAt_set_ne _ _ _ _ hkne, occAt_set_self _ _ _ helen]
          rfl
        · intro j2 hj2
          by_cases hc : r.pos = j2
          · subst hc
            rw [occAt_set_self _ _ _ (by simpa using hrlen)]
            rw [isOccupied_occupied]
            exact (occAt_of_get?_occupied _ _ _ _ _ _ hrr).symm
          · rw [occAt_set_ne _ _ _ _ hc]
            by_cases hc2 : k.pos = j2
            · subst hc2
              rw [occAt_set_self _ _ _ (by simpa using hklen)]
              rw [isOccupied_occupied]
              exact (occAt_of_get?_occupied _ _ _ _ _ _ hkread).symm
            · rw [occAt_set_ne _ _ _ _ hc2,
                occAt_set_ne _ _ _ _ (fun hh => hj2 hh.symm)]


/-! ### Claim C4: iteration order after a fresh insert sequence -/

/-- The `(Index, value)` pair produced by the iterator for a chain entry. -/
def iterPair (e : Entry T) : Index × T := (⟨e.pos, e.gen⟩, e.data)

/-- The chain entries created by inserting `vs` in order into consecutive
fresh slots starting at position `k` (all at generation `0`), newest first. -/
def entriesOf (k : Nat) : List T → List (Entry T)
  | [] => []
  | v :: rest => entriesOf (k + 1) rest ++ [⟨k, 0, v⟩]

/-- A sequence of `Arena::insert` calls, all of which must succeed. -/
def insertList (a : Arena T) : List T → Option (List Index × Arena T)
  | [] => some ([], a)
  | v :: vs =>
    match a.insert v with
    | some (Except.ok i, a2) =>
      match insertList a2 vs with
      | some (is, a3) => some (i :: is, a3)
      | _ => none
    | _ => none

theorem entriesOf_data (vs : List T) :
    ∀ k, (entriesOf k vs).map Entry.data = vs.reverse := by
  induction vs with
  | nil =>
    intro k
    rfl
  | cons v rest ih =>
    intro k
    simp [entriesOf, ih (k + 1)]

theorem entriesOf_length (vs : List T) :
    ∀ k, (entriesOf k vs).length = vs.length := by
  induction vs with
  | nil =>
    intro k
    rfl
  | cons v rest ih =>
    intro k
    simp [entriesOf, ih (k + 1)]

/-- Walking a chain segment that ends at `none` with enough fuel yields
exactly the segment's `(Index, value)` pairs. -/
theorem iterAux_of_chainseg (slots : List (ArenaSlot T)) :
    ∀ (l : List (Entry T)) (pr cur pr2 : Option Nat) (fuel : Nat),
      ChainSeg slots pr cur l pr2 none → l.length ≤ fuel →
      Arena.iterAux slots cur fuel = some (l.map iterPair) := by
  intro l
  induction l with
  | nil =>
    intro pr cur pr2 fuel h _
    rw [chainseg_nil] at h
    rw [← h.2]
    cases fuel with
    | zero => rfl
    | succ f => rfl
  | cons e rest ih =>
    intro pr cur pr2 fuel h hf
    rw [chainseg_cons] at h
    obtain ⟨hcur, n, hread, hrest⟩ := h
    cases fuel with
    | zero => simp at hf
    | succ f =>
      rw [hcur]
      have hr := ih (some e.pos) n pr2 f hrest (by simpa using hf)
      have hread2 : slots[e.pos]? =
          some ⟨ArenaSlotState.Occupied e.data pr n, e.gen⟩ := by
        rw [← List.get?_eq_getElem?]
        exact hread
      simp [Arena.iterAux, hread2, hr, iterPair]

/-- A duplicate-free list of naturals all below `n` has at most `n` elements. -/
theorem nodup_lt_length_le (l : List Nat) (n : Nat) (hnd : l.Nodup)
    (hlt : ∀ x ∈ l, x < n) : l.length ≤ n := by
  have h1 : l.toFinset ⊆ Finset.range n := by
    intro x hx
    rw [Finset.mem_range]
    exact hlt x (List.mem_toFinset.mp hx)
  have h2 := Finset.card_le_card h1
  rw [Finset.card_range, List.toFinset_card_of_nodup hnd] at h2
  exact h2

/-- Under the chain invariant, fully consuming the iterator yields exactly the
chain's `(Index, value)` pairs, newest first. -/
theorem chaininv_iter (a : Arena T) (l : List (Entry T)) (hinv : ChainInv a l) :
    a.iter = some (l.map iterPair) := by
  have hlen : ∀ e ∈ l, e.pos < a.slots.length := by
    intro e he
    obtain ⟨p, n, hr⟩ := chainseg_mem_read a.slots l _ _ _ _ hinv.chain e he
    exact get?_some_lt hr
  have hle : l.length ≤ a.slots.length := by
    have h1 : (entriesPos l).length ≤ a.slots.length := by
      apply nodup_lt_length_le _ _ hinv.nodup
      intro x hx
      obtain ⟨e, he, hpe⟩ := List.mem_map.mp hx
      rw [← hpe]
      exact hlen e he
    simpa [entriesPos] using h1
  unfold Arena.iter
  exact iterAux_of_chainseg a.slots l none a.first_occupied_slot_index
    (exitPr none l) (a.slots.length + 1) hinv.chain (by omega)

/-- Forward construction of a successful `insert` from its two stages. -/
theorem insert_ok_of (a : Arena T) (v : T) (i : Index) (c2 : ControllerInner)
    (a3 : Arena T)
    (hres : a.controller.try_reserve = some (Except.ok i, c2))
    (hwi : Arena.insert_with_index { a with controller := c2 } i v =
      some (Except.ok (), a3)) :
    a.insert v = some (Except.ok i, a3) := by
  unfold Arena.insert
  rw [hres]
  simp only [hwi]

/-- A successful `insert_with_index` touches no slot other than the inserted
position and the old list head. -/
theorem insert_with_index_untouched (a : Arena T) (i : Index) (v : T)
    (a2 : Arena T) (h : a.insert_with_index i v = some (Except.ok (), a2))
    (j : Nat) (hj1 : j ≠ i.index) (hj2 : a.first_occupied_slot_index ≠ some j) :
    a2.slots.get? j = a.slots.get? j := by
  obtain ⟨s, hs, hfree, hgen, slots2, hcase, ha2⟩ :=
    insert_with_index_ok_spec a i v a2 h
  rw [ha2]
  simp only
  rw [get?_set_ne _ _ (fun hh => hj1 hh.symm)]
  rcases hcase with ⟨h0, hsl⟩ | ⟨h0, d, pr, nx, g, hfi, hr0, hsl⟩
  · rw [hsl]
  · rw [hsl]
    rw [get?_set_ne _ _ ?_]
    intro hh
    apply hj2
    rw [hfi, hh]

/-- If all chain positions are below `k`, `first_occupied_slot_index` points
below `k`. -/
theorem chaininv_first_lt (a : Arena T) (l : List (Entry T)) (hinv : ChainInv a l)
    (k : Nat) (hk : ∀ e ∈ l, e.pos < k) (j : Nat) (hj : k ≤ j) :
    a.first_occupied_slot_index ≠ some j := by
  cases l with
  | nil =>
    rw [fullchain_nil_first a hinv.chain]
    simp
  | cons e rest =>
    rw [fullchain_cons_first a e rest hinv.chain]
    intro hc
    have := hk e (List.mem_cons_self _ _)
    rw [Option.some_inj] at hc
    omega

/-- The chain invariant is insensitive to the controller component. -/
theorem chaininv_controller (a : Arena T) (c2 : ControllerInner)
    (l : List (Entry T)) (hinv : ChainInv a l) :
    ChainInv { a with controller := c2 } l :=
  ⟨hinv.chain, hinv.nodup, hinv.occ⟩

/-- Main induction for claim C4: inserting `vs` into an arena whose controller
is `k` reservations into a fresh capacity-`c` controller, whose slots at and
above `k` are fresh, and whose chain lies below `k`, succeeds and prepends the
entries `entriesOf k vs` to the chain. -/
theorem insertList_fresh (c : Nat) (hcap : c < 2 ^ 64) :
    ∀ (vs : List T) (k : Nat) (a : Arena T) (l : List (Entry T)),
      k + vs.length ≤ c →
      a.controller = controllerAfter c k →
      a.slots.length = c →
      (∀ j, k ≤ j → j < c → a.slots.get? j = some ⟨ArenaSlotState.Free, 0⟩) →
      ChainInv a l →
      (∀ e ∈ l, e.pos < k) →
      ∃ a2, insertList a vs =
          some ((List.range' k vs.length).map (fun m => (⟨m, 0⟩ : Index)), a2) ∧
        ChainInv a2 (entriesOf k vs ++ l) ∧
        a2.controller = controllerAfter c (k + vs.length) ∧
        a2.slots.length = c := by
  intro vs
  induction vs with
  | nil =>
    intro k a l hkc hactrl halen hfree hinv hlk
    exact ⟨a, rfl, hinv, by rw [hactrl]; simp, halen⟩
  | cons v rest ih =>
    intro k a l hkc hactrl halen hfree hinv hlk
    have hkltc : k < c := by
      simp only [List.length_cons] at hkc
      omega
    have hres : a.controller.try_reserve =
        some (Except.ok ⟨k, 0⟩, controllerAfter c (k + 1)) := by
      rw [hactrl]
      exact controllerAfter_step c k hkltc hcap
    have hsk : ({ a with controller := controllerAfter c (k + 1) } : Arena T).slots.get? k =
        some ⟨ArenaSlotState.Free, 0⟩ := hfree k (le_refl k) hkltc
    have hinv1 : ChainInv ({ a with controller := controllerAfter c (k + 1) } : Arena T) l :=
      chaininv_controller a _ l hinv
    obtain ⟨a2, hwi, hinv2, hctrl2, hlen2⟩ :=
      insert_chain _ l hinv1 ⟨k, 0⟩ v ⟨ArenaSlotState.Free, 0⟩ hsk rfl rfl
    have hins : a.insert v = some (Except.ok ⟨k, 0⟩, a2) :=
      insert_ok_of a v ⟨k, 0⟩ (controllerAfter c (k + 1)) a2 hres hwi
    have hctrl2a : a2.controller = controllerAfter c (k + 1) := hctrl2
    have hlen2a : a2.slots.length = c := by
      rw [hlen2]
      exact halen
    have hfree2 : ∀ j, k + 1 ≤ j → j < c →
        a2.slots.get? j = some ⟨ArenaSlotState.Free, 0⟩ := by
      intro j hj1 hj2
      rw [insert_with_index_untouched _ ⟨k, 0⟩ v a2 hwi j (by show j ≠ k; omega)
        (chaininv_first_lt _ l hinv1 k hlk j (by omega))]
      exact hfree j (by omega) hj2
    have hlk2 : ∀ e ∈ (⟨k, 0, v⟩ : Entry T) :: l, e.pos < k + 1 := by
      intro e he
      rcases List.mem_cons.mp he with he | he
      · rw [he]
        exact Nat.lt_succ_self k
      · exact Nat.lt_succ_of_lt (hlk e he)
    obtain ⟨a3, hlist, hinv3, hctrl3, hlen3⟩ :=
      ih (k + 1) a2 (⟨k, 0, v⟩ :: l) (by simp only [List.length_cons] at hkc; omega)
        hctrl2a hlen2a hfree2 hinv2 hlk2
    refine ⟨a3, ?_, ?_, ?_, hlen3⟩
    · simp only [insertList, hins, hlist]
      rw [List.length_cons, List.range'_succ, List.map_cons]
    · have heq : entriesOf k (v :: rest) ++ l =
          entriesOf (k + 1) rest ++ (⟨k, 0, v⟩ : Entry T) :: l := by
        simp [entriesOf]
      rw [heq]
      exact hinv3
    · rw [hctrl3]
      congr 1
      simp only [List.length_cons]
      omega

/-- Claim C4: for every `N ≤ capacity` and every sequence of `N` inserts into
a fresh arena with no removals, all the inserts succeed and a full `iter()`
walk yields exactly `N` `(Index, value)` pairs whose values are the inserted
values in reverse insertion order (most recently inserted first). -/
theorem claim_C4_newest_first (c : Nat) (hcap : c < 2 ^ 64) (vs : List T)
    (hN : vs.length ≤ c) :
    ∃ is a2, insertList (Arena.new c) vs = some (is, a2) ∧
      ∃ ps, a2.iter = some ps ∧ ps.length = vs.length ∧
        ps.map Prod.snd = vs.reverse := by
  cases vs with
  | nil =>
    refine ⟨[], Arena.new c, rfl, [], ?_, rfl, rfl⟩
    unfold Arena.iter Arena.new
    rfl
  | cons v rest =>
    have hc1 : 1 ≤ c := by
      simp only [List.length_cons] at hN
      omega
    have hinv0 : ChainInv (Arena.new c : Arena T) [] := by
      refine ⟨⟨rfl, rfl⟩, List.nodup_nil, ?_⟩
      intro j
      simp only [entriesPos, List.map_nil, List.not_mem_nil, iff_false]
      unfold occAt
      rw [arena_new_get?]
      by_cases hj : j < c
      · rw [if_pos hj]
        simp [ArenaSlot.new, ArenaSlotState.isOccupied]
      · rw [if_neg hj]
        simp
    obtain ⟨a2, hlist, hinv2, _, _⟩ :=
      insertList_fresh c hcap (v :: rest) 0 (Arena.new c) []
        (by omega) (by rw [controllerAfter_zero c hc1]; rfl) (arena_new_length c)
        (fun j _ hj => by rw [arena_new_get?, if_pos hj]; rfl) hinv0 (by simp)
    rw [List.append_nil] at hinv2
    refine ⟨_, a2, hlist, (entriesOf 0 (v :: rest)).map iterPair,
      chaininv_iter a2 _ hinv2, ?_, ?_⟩
    · rw [List.length_map, entriesOf_length]
    · rw [List.map_map]
      have : (Prod.snd ∘ iterPair) = (Entry.data : Entry T → T) := rfl
      rw [this, entriesOf_data]


theorem claim_C4_newest_first_witness :
    (2 : Nat) < 2 ^ 64 ∧ ([10, 20] : List Nat).length ≤ 2 ∧
      ∃ is a2, insertList (Arena.new 2) [10, 20] = some (is, a2) ∧
        ∃ ps, a2.iter = some ps ∧ ps.length = ([10, 20] : List Nat).length ∧
          ps.map Prod.snd = ([10, 20] : List Nat).reverse :=
  ⟨by norm_num, by decide, claim_C4_newest_first 2 (by norm_num) [10, 20] (by decide)⟩

/-! ### Claim C6: consistency of the occupied doubly linked list -/

/-- A fresh arena carries the empty chain. -/
theorem chaininv_new (c : Nat) : ChainInv (Arena.new c : Arena T) [] := by
  refine ⟨⟨rfl, rfl⟩, List.nodup_nil, ?_⟩
  intro j
  simp only [entriesPos, List.map_nil, List.not_mem_nil, iff_false]
  unfold occAt
  rw [arena_new_get?]
  by_cases hj : j < c
  · rw [if_pos hj]
    simp [ArenaSlot.new, ArenaSlotState.isOccupied]
  · rw [if_neg hj]
    simp

/-- Any successful `insert_with_index` prepends its entry to the chain. -/
theorem chaininv_insert_with_index_ok (a : Arena T) (l : List (Entry T))
    (hinv : ChainInv a l) (i : Index) (v : T) (a2 : Arena T)
    (h : a.insert_with_index i v = some (Except.ok (), a2)) :
    ChainInv a2 (⟨i.index, i.generation, v⟩ :: l) := by
  obtain ⟨s, hs, hfree, hgen, _⟩ := insert_with_index_ok_spec a i v a2 h
  obtain ⟨a3, hok, hinv3, _, _⟩ := insert_chain a l hinv i v s hs hfree hgen
  rw [h, Option.some_inj] at hok
  have ha : a2 = a3 := congrArg Prod.snd hok
  rw [ha]
  exact hinv3

/-- Any completed `insert_with_index` preserves existence of a chain. -/
theorem chaininv_insert_with_index (a : Arena T) (l : List (Entry T))
    (hinv : ChainInv a l) (i : Index) (v : T) (r : Except IndexNotReserved Unit)
    (a2 : Arena T) (h : a.insert_with_index i v = some (r, a2)) :
    ∃ l2, ChainInv a2 l2 := by
  cases r with
  | error e =>
    rw [insert_with_index_err_noop a i v a2 e h]
    exact ⟨l, hinv⟩
  | ok u =>
    cases u
    exact ⟨_, chaininv_insert_with_index_ok a l hinv i v a2 h⟩

/-- Any completed `remove` preserves existence of a chain. -/
theorem chaininv_remove (a : Arena T) (l : List (Entry T)) (hinv : ChainInv a l)
    (i : Index) (res : Option T) (a2 : Arena T)
    (h : a.remove i = some (res, a2)) : ∃ l2, ChainInv a2 l2 := by
  cases res with
  | none =>
    rw [remove_none_noop a i a2 h]
    exact ⟨l, hinv⟩
  | some d =>
    obtain ⟨pr, nx, cs, fi, hs, hcs, hfi, _⟩ := remove_ok_spec a i d a2 h
    have hocc : occAt a.slots i.index = true :=
      occAt_of_get?_occupied _ _ _ _ _ _ hs
    have hmem := (hinv.occ i.index).mp hocc
    obtain ⟨e, hel, hep⟩ := List.mem_map.mp (by simpa [entriesPos] using hmem)
    obtain ⟨K, R, hKR⟩ := List.append_of_mem hel
    obtain ⟨p2, n2, hre⟩ := chainseg_mem_read a.slots l _ _ _ _ hinv.chain e hel
    rw [hep, hs] at hre
    simp only [Option.some_inj, ArenaSlot.mk.injEq,
      ArenaSlotState.Occupied.injEq] at hre
    have hgen : e.gen = i.generation := hre.2.symm
    have hdat : e.data = d := hre.1.1.symm
    rw [hKR] at hinv
    have hctrl : e.pos < a.controller.slots.length := by
      rw [hep]
      exact get?_some_lt hcs
    obtain ⟨a3, hrm, hinv3, _, _⟩ := remove_chain a K R e hinv hctrl
    have hie : (⟨e.pos, e.gen⟩ : Index) = i := by
      cases i with
      | mk ii ig =>
        simp only [Index.mk.injEq]
        exact ⟨hep, hgen⟩
    rw [hie, h, Option.some_inj] at hrm
    have ha : a2 = a3 := congrArg Prod.snd hrm
    rw [ha]
    exact ⟨K ++ R, hinv3⟩

/-- Replacing a value keeps all chain positions. -/
theorem entriesPos_map_keep (l : List (Entry T)) (q : Nat) (v : T) :
    entriesPos (l.map fun e => if e.pos = q then ⟨e.pos, e.gen, v⟩ else e) =
      entriesPos l := by
  unfold entriesPos
  rw [List.map_map]
  apply List.map_congr_left
  intro e he
  by_cases hc : e.pos = q
  · simp [hc]
  · simp [hc]

theorem exitPr_map_keep (q : Nat) (v : T) :
    ∀ (l : List (Entry T)) (pr : Option Nat),
      exitPr pr (l.map fun e => if e.pos = q then ⟨e.pos, e.gen, v⟩ else e) =
        exitPr pr l := by
  intro l
  induction l with
  | nil =>
    intro pr
    rfl
  | cons e rest ih =>
    intro pr
    rw [List.map_cons, exitPr_cons, exitPr_cons, ih]
    congr 2
    by_cases hc : e.pos = q
    · simp [hc]
    · simp [hc]

/-- A completed `get_mut`-based write preserves existence of a chain. -/
theorem chaininv_set_via (a : Arena T) (l : List (Entry T)) (hinv : ChainInv a l)
    (i : Index) (v : T) (a2 : Arena T) (h : a.set_via_get_mut i v = some a2) :
    ∃ l2, ChainInv a2 l2 := by
  rcases set_via_get_mut_spec a i v a2 h with ha | ⟨s, d, pr, nx, hs, hst, hgen, ha2⟩
  · rw [ha]
    exact ⟨l, hinv⟩
  · refine ⟨l.map fun e => if e.pos = i.index then ⟨e.pos, e.gen, v⟩ else e, ?_, ?_, ?_⟩
    · unfold FullChain
      rw [ha2]
      simp only
      rw [exitPr_map_keep]
      have hq : a.slots.get? i.index =
          some ⟨ArenaSlotState.Occupied d pr nx, s.generation⟩ := by
        rw [hs]
        cases s with
        | mk st g =>
          simp only at hst
          rw [hst]
      exact chainseg_mutate a.slots i.index v d pr nx s.generation hq l none
        a.first_occupied_slot_index (exitPr none l) none hinv.chain
    · rw [entriesPos_map_keep]
      exact hinv.nodup
    · intro j
      rw [ha2]
      simp only
      rw [entriesPos_map_keep]
      by_cases hj : i.index = j
      · rw [← hj]
        have hlt : i.index < a.slots.length := get?_some_lt hs
        rw [occAt_set_self _ _ _ hlt, isOccupied_occupied]
        rw [← (hinv.occ i.index)]
        have hq : a.slots.get? i.index =
            some ⟨ArenaSlotState.Occupied d pr nx, s.generation⟩ := by
          rw [hs]
          cases s with
          | mk st g =>
            simp only at hst
            rw [hst]
        rw [occAt_of_get?_occupied _ _ _ _ _ _ hq]
      · rw [occAt_set_ne _ _ _ _ hj]
        exact hinv.occ j

/-- One public operation preserves existence of a chain. -/
theorem step_chaininv (o : Op T) (s s2 : ArenaSt T) (h : step o s = some s2)
    (hinv : ∃ l, ChainInv s.1 l) : ∃ l2, ChainInv s2.1 l2 := by
  obtain ⟨a, pool⟩ := s
  obtain ⟨l, hl⟩ := hinv
  cases o with
  | tryReserve =>
    simp only [step] at h
    split at h
    · cases h
    · cases h
      exact ⟨l, chaininv_controller a _ l hl⟩
    · cases h
      exact ⟨l, chaininv_controller a _ l hl⟩
  | insertOp v =>
    simp only [step] at h
    split at h
    · cases h
    · rename_i r a2 hins
      cases h
      rcases insert_dissect a v (r, a2) hins with ⟨e, hr, ha⟩ | ⟨i, hr, c2, hres, hwi⟩
      · simp only at ha
        rw [ha]
        exact ⟨l, hl⟩
      · simp only at hwi
        exact ⟨_, chaininv_insert_with_index_ok _ l
          (chaininv_controller a c2 l hl) i v a2 hwi⟩
  | insertWithIndexOp i v =>
    simp only [step] at h
    split at h
    · cases h
    · rename_i r a2 hwi
      cases h
      exact chaininv_insert_with_index a l hl i v r a2 hwi
  | insertReserved n v =>
    simp only [step] at h
    split at h
    · cases h
      exact ⟨l, hl⟩
    · rename_i i hpool
      split at h
      · cases h
      · rename_i r a2 hwi
        cases h
        exact chaininv_insert_with_index a l hl i v r a2 hwi
  | removeOp i =>
    simp only [step] at h
    split at h
    · cases h
    · rename_i res a2 hrm
      cases h
      exact chaininv_remove a l hl i res a2 hrm
  | getMutWrite i v =>
    simp only [step] at h
    split at h
    · cases h
    · rename_i a2 hsv
      cases h
      exact chaininv_set_via a l hl i v a2 hsv

/-- A whole trace preserves existence of a chain. -/
theorem applyOps_chaininv :
    ∀ (ops : List (Op T)) (s s2 : ArenaSt T), applyOps ops s = some s2 →
      (∃ l, ChainInv s.1 l) → ∃ l2, ChainInv s2.1 l2 := by
  intro ops
  induction ops with
  | nil =>
    intro s s2 h hinv
    cases h
    exact hinv
  | cons o os ih =>
    intro s s2 h hinv
    simp only [applyOps] at h
    split at h
    · cases h
    · rename_i s1 hstep
      exact ih s1 s2 h (step_chaininv o s s1 hstep hinv)

/-- The local doubly-linked-list consistency conditions of claim C6. -/
def LinkInv (a : Arena T) : Prop :=
  (∀ i, a.first_occupied_slot_index = some i →
    ∃ d nx g, a.slots.get? i =
      some ⟨ArenaSlotState.Occupied d none nx, g⟩) ∧
  (∀ i d pr j g, a.slots.get? i =
      some ⟨ArenaSlotState.Occupied d pr (some j), g⟩ →
    ∃ d2 nx2 g2, a.slots.get? j =
      some ⟨ArenaSlotState.Occupied d2 (some i) nx2, g2⟩) ∧
  (∀ j d i nx g, a.slots.get? j =
      some ⟨ArenaSlotState.Occupied d (some i) nx, g⟩ →
    ∃ d2 pr2 g2, a.slots.get? i =
      some ⟨ArenaSlotState.Occupied d2 pr2 (some j), g2⟩) ∧
  ((∃ p, occAt a.slots p = true) → ∃ i, a.first_occupied_slot_index = some i)

/-- The global chain invariant implies the local link conditions. -/
theorem chaininv_linkinv (a : Arena T) (l : List (Entry T))
    (hinv : ChainInv a l) : LinkInv a := by
  refine ⟨?_, ?_, ?_, ?_⟩
  · intro i hfi
    cases l with
    | nil =>
      rw [fullchain_nil_first a hinv.chain] at hfi
      cases hfi
    | cons e rest =>
      have hfe := fullchain_cons_first a e rest hinv.chain
      rw [hfe, Option.some_inj] at hfi
      have hchain := hinv.chain
      unfold FullChain at hchain
      rw [chainseg_cons] at hchain
      obtain ⟨_, n, hread, _⟩ := hchain
      rw [← hfi]
      exact ⟨e.data, n, e.gen, hread⟩
  · intro i d pr j g hread
    have hocc := occAt_of_get?_occupied _ _ _ _ _ _ hread
    obtain ⟨e, hel, hep⟩ :=
      List.mem_map.mp (by simpa [entriesPos] using (hinv.occ i).mp hocc)
    obtain ⟨K, R, hKR⟩ := List.append_of_mem hel
    have hchain := hinv.chain
    unfold FullChain at hchain
    rw [hKR] at hchain
    obtain ⟨prm, curm, hK, hER⟩ :=
      (chainseg_append _ K (e :: R) _ _ _ _).mp hchain
    rw [chainseg_cons] at hER
    obtain ⟨hcurm, n, hre, hrest⟩ := hER
    rw [hep, hread] at hre
    simp only [Option.some_inj, ArenaSlot.mk.injEq,
      ArenaSlotState.Occupied.injEq] at hre
    have hn : n = some j := hre.1.2.2.symm
    cases R with
    | nil =>
      rw [chainseg_nil] at hrest
      rw [← hrest.2] at hn
      cases hn
    | cons r R2 =>
      rw [chainseg_cons] at hrest
      obtain ⟨hnr, nr, hrr, _⟩ := hrest
      rw [hn, Option.some_inj] at hnr
      rw [hnr, ← hep]
      exact ⟨r.data, nr, r.gen, hrr⟩
  · intro j d i nx g hread
    have hocc := occAt_of_get?_occupied _ _ _ _ _ _ hread
    obtain ⟨e, hel, hep⟩ :=
      List.mem_map.mp (by simpa [entriesPos] using (hinv.occ j).mp hocc)
    obtain ⟨K, R, hKR⟩ := List.append_of_mem hel
    have hchain := hinv.chain
    unfold FullChain at hchain
    rw [hKR] at hchain
    obtain ⟨prm, curm, hK, hER⟩ :=
      (chainseg_append _ K (e :: R) _ _ _ _).mp hchain
    rw [chainseg_cons] at hER
    obtain ⟨hcurm, n, hre, hrest⟩ := hER
    rw [hep, hread] at hre
    simp only [Option.some_inj, ArenaSlot.mk.injEq,
      ArenaSlotState.Occupied.injEq] at hre
    have hprm : prm = some i := hre.1.2.1.symm
    rcases List.eq_nil_or_concat K with hKnil | ⟨K0, k, hKc⟩
    · subst hKnil
      rw [chainseg_nil] at hK
      rw [hK.1] at hprm
      cases hprm
    · rw [List.concat_eq_append] at hKc
      subst hKc
      obtain ⟨p0, c0, hK0, hk1⟩ := (chainseg_append _ K0 [k] _ _ _ _).mp hK
      rw [chainseg_cons] at hk1
      obtain ⟨hc0, nk, hkread, hknil⟩ := hk1
      rw [chainseg_nil] at hknil
      obtain ⟨hprm2, hnk⟩ := hknil
      rw [hprm2, Option.some_inj] at hprm
      rw [hcurm] at hnk
      rw [← hprm, ← hep]
      rw [← hnk] at hkread
      exact ⟨k.data, p0, k.gen, hkread⟩
  · intro hocc
    obtain ⟨p, hp⟩ := hocc
    have hmem := (hinv.occ p).mp hp
    cases l with
    | nil => simp [entriesPos] at hmem
    | cons e rest =>
      exact ⟨e.pos, fullchain_cons_first a e rest hinv.chain⟩

/-- Claim C6: in every arena state reachable from `new(capacity)` by any
completed sequence of the public operations, the occupied doubly linked list
is consistent: the head (if any) is an Occupied slot with `previous = none`;
`next` links point to Occupied slots whose `previous` points back, and
symmetrically for `previous` links; and if any slot is Occupied the head
pointer is set. -/
theorem claim_C6_linked_list_consistency (c : Nat) (ops : List (Op T))
    (s : ArenaSt T) (h : applyOps ops (initSt c) = some s) : LinkInv s.1 := by
  obtain ⟨l2, hl2⟩ :=
    applyOps_chaininv ops (initSt c) s h ⟨[], chaininv_new c⟩
  exact chaininv_linkinv s.1 l2 hl2

def c6wS : ArenaSt Nat :=
  (applyOps [Op.insertOp 5, Op.insertOp 6, Op.removeOp ⟨0, 0⟩,
    Op.getMutWrite ⟨1, 0⟩ 9] (initSt 3)).getD (Arena.new 0, [])

theorem claim_C6_linked_list_consistency_witness :
    applyOps [Op.insertOp 5, Op.insertOp 6, Op.removeOp ⟨0, 0⟩,
        Op.getMutWrite ⟨1, 0⟩ 9] (initSt 3) = some c6wS ∧
      LinkInv c6wS.1 :=
  ⟨by decide, claim_C6_linked_list_consistency 3
    [Op.insertOp 5, Op.insertOp 6, Op.removeOp ⟨0, 0⟩,
      Op.getMutWrite ⟨1, 0⟩ 9] c6wS (by decide)⟩


/-! ### Claim C8: retain / drain_filter equivalence -/

/-- The walk pointer at the start of a remaining chain suffix. -/
def chainCur : List (Entry T) → Option Nat
  | [] => none
  | r :: _ => some r.pos

/-- `retain p` performs exactly the removals of `drain_filter (fun x => !(p x))`
and returns the same final arena, step for step. -/
theorem retainAux_drainFilterAux (p : T → Bool) :
    ∀ (fuel : Nat) (a : Arena T) (cur : Option Nat),
      Arena.retainAux p a cur fuel =
        (Arena.drainFilterAux (fun x => !(p x)) a cur fuel).map Prod.snd := by
  intro fuel
  induction fuel with
  | zero =>
    intro a cur
    cases cur with
    | none => rfl
    | some i => rfl
  | succ f ih =>
    intro a cur
    cases cur with
    | none => rfl
    | some i =>
      simp only [Arena.retainAux, Arena.drainFilterAux]
      cases hslot : a.slots.get? i with
      | none => rfl
      | some slot =>
        obtain ⟨st, g⟩ := slot
        cases st with
        | Free => rfl
        | Occupied data prE nE =>
          by_cases hp : p data = true
          · simp only [hp, Bool.not_true, Bool.false_eq_true, if_true, if_false,
              ite_false, ite_true]
            exact ih a nE
          · rw [Bool.not_eq_true] at hp
            simp only [hp, Bool.not_false, Bool.false_eq_true, if_true, if_false,
              ite_false, ite_true]
            cases hrm : a.remove ⟨i, g⟩ with
            | none => rfl
            | some pa =>
              obtain ⟨r, a2⟩ := pa
              simp only [ih a2 nE]
              cases hdf : Arena.drainFilterAux (fun x => !(p x)) a2 nE f with
              | none => rfl
              | some ra =>
                obtain ⟨removed, a3⟩ := ra
                rfl

/-- The drain walk over the remaining chain suffix `R` (with already-kept
prefix `K`): it succeeds, yields exactly the `(Index, value)` pairs of the
entries selected by the predicate in chain order, and leaves the chain of the
kept entries. -/
theorem drainFilterAux_chain (q : T → Bool) :
    ∀ (R K : List (Entry T)) (a : Arena T) (fuel : Nat),
      ChainInv a (K ++ R) →
      a.controller.slots.length = a.slots.length →
      R.length ≤ fuel →
      ∃ a2, Arena.drainFilterAux q a (chainCur R) fuel =
          some ((R.filter fun e => q e.data).map iterPair, a2) ∧
        ChainInv a2 (K ++ (R.filter fun e => !(q e.data))) ∧
        a2.slots.length = a.slots.length ∧
        a2.controller.slots.length = a.controller.slots.length := by
  intro R
  induction R with
  | nil =>
    intro K a fuel hinv hcl hfuel
    refine ⟨a, ?_, ?_, rfl, rfl⟩
    · cases fuel with
      | zero => rfl
      | succ f => rfl
    · simpa using hinv
  | cons e R2 ih =>
    intro K a fuel hinv hcl hfuel
    cases fuel with
    | zero => simp at hfuel
    | succ f =>
      have hchain := hinv.chain
      unfold FullChain at hchain
      obtain ⟨prm, curm, hK, hER⟩ :=
        (chainseg_append _ K (e :: R2) _ _ _ _).mp hchain
      rw [chainseg_cons] at hER
      obtain ⟨hcurm, nE, hre, hrest⟩ := hER
      have hnE : nE = chainCur R2 := by
        cases R2 with
        | nil =>
          rw [chainseg_nil] at hrest
          exact hrest.2.symm
        | cons r R3 =>
          rw [chainseg_cons] at hrest
          exact hrest.1
      have hlen : e.pos < a.slots.length := get?_some_lt hre
      simp only [chainCur, Arena.drainFilterAux, hre]
      by_cases hq : q e.data = true
      · have hctrl : e.pos < a.controller.slots.length := by
          rw [hcl]
          exact hlen
        obtain ⟨a2, hrm, hinv2, hsl2, hcl2⟩ := remove_chain a K R2 e hinv hctrl
        obtain ⟨a3, hdf, hinv3, hsl3, hcl3⟩ := ih K a2 f hinv2
          (by rw [hcl2, hsl2, hcl]) (by simpa using hfuel)
        rw [← hnE] at hdf
        refine ⟨a3, ?_, ?_, by rw [hsl3, hsl2], by rw [hcl3, hcl2]⟩
        · simp only [hq, if_pos, hrm, hdf, List.filter_cons_of_pos, List.map_cons]
          rfl
        · rw [List.filter_cons_of_neg (by simp [hq])]
          exact hinv3
      · obtain ⟨a3, hdf, hinv3, hsl3, hcl3⟩ := ih (K ++ [e]) a f
          (by rw [List.append_assoc, List.singleton_append]; exact hinv)
          hcl (by simpa using hfuel)
        rw [← hnE] at hdf
        refine ⟨a3, ?_, ?_, hsl3, hcl3⟩
        · rw [if_neg hq, hdf, List.filter_cons_of_neg (by simp [hq])]
        · rw [List.filter_cons_of_pos (by simp [hq])]
          rw [List.append_assoc, List.singleton_append] at hinv3
          exact hinv3

/-- Claim C8: for the same predicate and starting contents, `retain p` ends in
exactly the arena that remains after `drain_filter (fun x => !(p x))` is fully
consumed; the drain yields exactly the removed `(Index, value)` pairs (the
entries failing `p`, in iteration order), and the surviving entries are the
entries satisfying `p`, iterated in their original order. -/
theorem claim_C8_retain_drain (p : T → Bool) (a : Arena T) (l : List (Entry T))
    (hinv : ChainInv a l) (hcl : a.controller.slots.length = a.slots.length) :
    ∃ a2, a.retain p = some a2 ∧
      a.drain_filter (fun x => !(p x)) =
        some ((l.filter fun e => !(p e.data)).map iterPair, a2) ∧
      a2.iter = some ((l.filter fun e => p e.data).map iterPair) := by
  have hfirst : a.first_occupied_slot_index = chainCur l := by
    cases l with
    | nil => exact fullchain_nil_first a hinv.chain
    | cons e rest => exact fullchain_cons_first a e rest hinv.chain
  have hlle : l.length ≤ a.slots.length := by
    have h1 : (entriesPos l).length ≤ a.slots.length := by
      apply nodup_lt_length_le _ _ hinv.nodup
      intro x hx
      obtain ⟨e, he, hpe⟩ := List.mem_map.mp (by simpa [entriesPos] using hx)
      obtain ⟨p2, n2, hr⟩ := chainseg_mem_read a.slots l _ _ _ _ hinv.chain e he
      rw [← hpe]
      exact get?_some_lt hr
    simpa [entriesPos] using h1
  obtain ⟨a2, hdf, hinv2, hsl2, hcl2⟩ :=
    drainFilterAux_chain (fun x => !(p x)) l [] a (a.slots.length + 1)
      (by simpa using hinv) hcl (by omega)
  rw [List.nil_append] at hinv2
  have hsurv : (l.filter fun e => !(!(p e.data))) = l.filter fun e => p e.data := by
    apply List.filter_congr
    intro e he
    simp
  rw [hsurv] at hinv2
  have hdrain : a.drain_filter (fun x => !(p x)) =
      some ((l.filter fun e => !(p e.data)).map iterPair, a2) := by
    unfold Arena.drain_filter
    rw [hfirst]
    exact hdf
  refine ⟨a2, ?_, hdrain, chaininv_iter a2 _ hinv2⟩
  unfold Arena.retain
  rw [retainAux_drainFilterAux, hfirst]
  rw [show Arena.drainFilterAux (fun x => !(p x)) a (chainCur l)
      (a.slots.length + 1) = some ((l.filter fun e => !(p e.data)).map iterPair, a2)
    from hdf]
  rfl

theorem claim_C8_retain_drain_witness :
    ∃ a2, (Arena.new 2 : Arena Nat).retain (fun v => v % 2 = 0) = some a2 ∧
      (Arena.new 2 : Arena Nat).drain_filter (fun x => !(decide (x % 2 = 0))) =
        some ((([] : List (Entry Nat)).filter
          fun e => !(decide (e.data % 2 = 0))).map iterPair, a2) ∧
      a2.iter = some ((([] : List (Entry Nat)).filter
        fun e => decide (e.data % 2 = 0)).map iterPair) :=
  claim_C8_retain_drain (fun v => decide (v % 2 = 0)) (Arena.new 2) []
    (chaininv_new 2) (by decide)


/-! ### Claim C9: safety of the unwrap inside insert -/

/-- The public operation that supplies an arbitrary, possibly never-reserved
index directly to `insert_with_index`. -/
def isRawInsert : Op T → Bool
  | Op.insertWithIndexOp _ _ => true
  | _ => false

/-- `FreeSeg c cur fl` says: starting from the controller cursor `cur`, the
free-list links visit exactly the positions `fl` and end at the
`NO_NEXT_FREE_SLOT` sentinel. -/
def FreeSeg (c : ControllerInner) : Nat → List Nat → Prop
  | cur, [] => cur = NO_NEXT_FREE_SLOT
  | cur, q :: rest => cur = q ∧
      ∃ cs, c.slots.get? q = some cs ∧ FreeSeg c cs.next_free_slot_index rest

theorem freeseg_nil (c : ControllerInner) (cur : Nat) :
    FreeSeg c cur [] ↔ cur = NO_NEXT_FREE_SLOT := Iff.rfl

theorem freeseg_cons (c : ControllerInner) (cur q : Nat) (rest : List Nat) :
    FreeSeg c cur (q :: rest) ↔ cur = q ∧
      ∃ cs, c.slots.get? q = some cs ∧
        FreeSeg c cs.next_free_slot_index rest := Iff.rfl

/-- The reservation invariant coupling controller, arena and the multiset of
reserved-but-unused indices: some chain `l` covers the occupied slots; some
duplicate-free list `fl` is the controller free list, and each of its
positions is a Free arena slot whose generation matches the controller slot;
each outstanding reserved index denotes a Free arena slot of its generation,
outside the free list; and reserved indices denote pairwise distinct slots. -/
def ResInv (s : ArenaSt T) : Prop :=
  ∃ l fl, ChainInv s.1 l ∧
    FreeSeg s.1.controller s.1.controller.first_free_slot_index fl ∧
    fl.Nodup ∧
    (∀ q ∈ fl, ∃ cs, s.1.controller.slots.get? q = some cs ∧
      s.1.slots.get? q = some ⟨ArenaSlotState.Free, cs.generation⟩) ∧
    (∀ i ∈ s.2, s.1.slots.get? i.index =
        some ⟨ArenaSlotState.Free, i.generation⟩ ∧ i.index ∉ fl) ∧
    (s.2.map Index.index).Nodup

/-- Free-list walks only read the controller slots at the walked positions. -/
theorem freeseg_congr (c c2 : ControllerInner) :
    ∀ (fl : List Nat) (cur : Nat),
      (∀ q ∈ fl, c2.slots.get? q = c.slots.get? q) →
      FreeSeg c cur fl → FreeSeg c2 cur fl := by
  intro fl
  induction fl with
  | nil =>
    intro cur _ h
    exact h
  | cons q rest ih =>
    intro cur hagree h
    rw [freeseg_cons] at h
    obtain ⟨hq, cs, hcs, hrest⟩ := h
    rw [freeseg_cons]
    refine ⟨hq, cs, ?_, ih _ (fun x hx => hagree x (List.mem_cons_of_mem _ hx)) hrest⟩
    rw [hagree q (List.mem_cons_self _ _)]
    exact hcs

/-- `insert_with_index` on a chain-invariant arena cannot fail (or panic) when
the target slot is Free at the matching generation. -/
theorem insert_with_index_total (a : Arena T) (l : List (Entry T))
    (hinv : ChainInv a l) (i : Index) (v : T)
    (hs : a.slots.get? i.index = some ⟨ArenaSlotState.Free, i.generation⟩) :
    ∃ a2, a.insert_with_index i v = some (Except.ok (), a2) := by
  obtain ⟨a2, hok, _, _, _⟩ := insert_chain a l hinv i v _ hs rfl rfl
  exact ⟨a2, hok⟩

/-- A successful `insert_with_index` leaves every other Free slot unchanged. -/
theorem insert_with_index_preserves_free (a : Arena T) (i : Index) (v : T)
    (a2 : Arena T) (h : a.insert_with_index i v = some (Except.ok (), a2))
    (j g : Nat) (hj : a.slots.get? j = some ⟨ArenaSlotState.Free, g⟩)
    (hne : j ≠ i.index) :
    a2.slots.get? j = some ⟨ArenaSlotState.Free, g⟩ := by
  rw [insert_with_index_untouched a i v a2 h j hne ?_]
  · exact hj
  · obtain ⟨s, hs, hfree, hgen, slots2, hcase, ha2⟩ :=
      insert_with_index_ok_spec a i v a2 h
    rcases hcase with ⟨h0, _⟩ | ⟨h0, d, pr, nx, g0, hfi, hr0, _⟩
    · rw [h0]
      simp
    · rw [hfi]
      intro hc
      rw [Option.some_inj] at hc
      rw [hc, hj] at hr0
      simp at hr0

/-- A successful removal leaves every Free slot unchanged. -/
theorem remove_preserves_free (a : Arena T) (i : Index) (d : T) (a2 : Arena T)
    (h : a.remove i = some (some d, a2)) (j g : Nat)
    (hj : a.slots.get? j = some ⟨ArenaSlotState.Free, g⟩) (hne : j ≠ i.index) :
    a2.slots.get? j = some ⟨ArenaSlotState.Free, g⟩ := by
  obtain ⟨pr, nx, cs, fi, hs, hcs, hfi, slots2, slots3, h2, h3, ha2⟩ :=
    remove_ok_spec a i d a2 h
  have hfreedj : (a.slots.set i.index
      ⟨ArenaSlotState.Free, usizeWrap (i.generation + 1)⟩).get? j =
      some ⟨ArenaSlotState.Free, g⟩ := by
    rw [get?_set_ne _ _ (fun hh => hne hh.symm)]
    exact hj
  have hs2j : slots2.get? j = some ⟨ArenaSlotState.Free, g⟩ := by
    rcases prevUpd_spec _ _ _ _ h2 with ⟨_, hout⟩ | ⟨pi, d2, pp2, nn2, g2, hpr, hr2, hout⟩
    · rw [hout]
      exact hfreedj
    · rw [hout]
      have hpij : pi ≠ j := by
        intro hc
        rw [hc, hfreedj] at hr2
        simp at hr2
      rw [get?_set_ne _ _ hpij]
      exact hfreedj
  have hs3j : slots3.get? j = some ⟨ArenaSlotState.Free, g⟩ := by
    rcases nextUpd_spec _ _ _ _ h3 with ⟨_, hout⟩ | ⟨ni, d1, pp, nn, g1, hnx, hr1, hout⟩
    · rw [hout]
      exact hs2j
    · rw [hout]
      have hnij : ni ≠ j := by
        intro hc
        rw [hc, hs2j] at hr1
        simp at hr1
      rw [get?_set_ne _ _ hnij]
      exact hs2j
  rw [ha2]
  exact hs3j

/-- The element removed by `eraseIdx` is distinct (under `f`) from all
remaining elements, when `f` is duplicate-free over the list. -/
theorem eraseIdx_map_ne {α β : Type} (f : α → β) :
    ∀ (l : List α) (n : Nat) (x : α), l.get? n = some x →
      (l.map f).Nodup → ∀ y ∈ l.eraseIdx n, f y ≠ f x := by
  intro l
  induction l with
  | nil =>
    intro n x hx
    cases hx
  | cons a t ih =>
    intro n x hx hnd y hy
    rw [List.map_cons, List.nodup_cons] at hnd
    cases n with
    | zero =>
      rw [List.get?] at hx
      rw [Option.some_inj] at hx
      subst hx
      simp only [List.eraseIdx] at hy
      intro hc
      exact hnd.1 (hc ▸ List.mem_map_of_mem f hy)
    | succ m =>
      rw [List.get?] at hx
      simp only [List.eraseIdx] at hy
      rcases List.mem_cons.mp hy with hy | hy
      · subst hy
        intro hc
        exact hnd.1 (hc ▸ List.mem_map_of_mem f (List.get?_mem hx))
      · exact ih m x hx hnd.2 y hy

/-- The controller free list of a fresh controller is `0, 1, ..., c-1`. -/
theorem freeseg_new (c : Nat) :
    ∀ (j k : Nat), k + j = c →
      FreeSeg (ControllerInner.new c) (if k < c then k else NO_NEXT_FREE_SLOT)
        (List.range' k j) := by
  intro j
  induction j with
  | zero =>
    intro k hk
    rw [show List.range' k 0 = [] from rfl, freeseg_nil, if_neg (by omega)]
  | succ m ih =>
    intro k hk
    rw [List.range'_succ, freeseg_cons, if_pos (by omega)]
    refine ⟨rfl, ⟨true, 0, if k < c - 1 then k + 1 else NO_NEXT_FREE_SLOT⟩, ?_, ?_⟩
    · rw [controller_new_get?, if_pos (by omega)]
    · simp only
      have hih := ih (k + 1) (by omega)
      by_cases hkc : k + 1 < c
      · rw [if_pos (by omega : k < c - 1)]
        rw [if_pos hkc] at hih
        exact hih
      · rw [if_neg (by omega : ¬ k < c - 1)]
        rw [if_neg hkc] at hih
        have hm : m = 0 := by omega
        subst hm
        exact hih

/-- The reservation invariant holds initially (capacity at least one). -/
theorem resinv_init (c : Nat) (hc : 1 ≤ c) : ResInv (initSt c : ArenaSt T) := by
  refine ⟨[], List.range c, chaininv_new c, ?_, List.nodup_range c, ?_, ?_, ?_⟩
  · have h := freeseg_new c c 0 (by omega)
    rw [if_pos (by omega)] at h
    rw [show (initSt c : ArenaSt T).1.controller.first_free_slot_index = 0 from rfl]
    rw [← List.range_eq_range'] at h
    exact h
  · intro q hq
    rw [List.mem_range] at hq
    refine ⟨⟨true, 0, if q < c - 1 then q + 1 else NO_NEXT_FREE_SLOT⟩, ?_, ?_⟩
    · rw [show (initSt c : ArenaSt T).1.controller = ControllerInner.new c from rfl]
      rw [controller_new_get?, if_pos hq]
    · rw [show (initSt c : ArenaSt T).1.slots = (Arena.new c : Arena T).slots from rfl]
      rw [arena_new_get?, if_pos hq]
      rfl
  · intro i hi
    cases hi
  · exact List.nodup_nil

/-- A successful `try_reserve` pops the head of the free list. -/
theorem try_reserve_pop (c : ControllerInner) (i : Index) (c2 : ControllerInner)
    (fl : List Nat) (h : c.try_reserve = some (Except.ok i, c2))
    (hfs : FreeSeg c c.first_free_slot_index fl) (hnd : fl.Nodup) :
    ∃ cs rest, fl = i.index :: rest ∧
      c.slots.get? i.index = some cs ∧ i.generation = cs.generation ∧
      c2 = { slots := c.slots.set i.index
              ⟨false, cs.generation, cs.next_free_slot_index⟩
             first_free_slot_index := cs.next_free_slot_index } ∧
      FreeSeg c2 c2.first_free_slot_index rest := by
  obtain ⟨hne, cs, hcs, hieq, hc2⟩ := try_reserve_ok_spec c i c2 h
  cases fl with
  | nil =>
    rw [freeseg_nil] at hfs
    exact absurd hfs hne
  | cons q rest =>
    rw [freeseg_cons] at hfs
    obtain ⟨hq, cs3, hcs3, hrest⟩ := hfs
    have hqi : q = i.index := by
      rw [hieq]
      exact hq.symm
    subst hqi
    rw [hq] at hcs hc2
    rw [hcs, Option.some_inj] at hcs3
    subst hcs3
    have higen : i.generation = cs.generation := by
      rw [hieq]
    rw [List.nodup_cons] at hnd
    refine ⟨cs, rest, rfl, hcs, higen, hc2, ?_⟩
    have hfirst2 : c2.first_free_slot_index = cs.next_free_slot_index := by
      rw [hc2]
    rw [hfirst2]
    apply freeseg_congr c c2 rest cs.next_free_slot_index ?_ hrest
    intro x hx
    rw [hc2]
    simp only
    have hxne : i.index ≠ x := by
      intro hh
      apply hnd.1
      rw [hh]
      exact hx
    rw [get?_set_ne _ _ hxne]


/-- One public operation other than the raw `insert_with_index` preserves the
reservation invariant. -/
theorem step_resinv (o : Op T) (s s2 : ArenaSt T) (h : step o s = some s2)
    (hraw : isRawInsert o = false) (hres : ResInv s) (hlock : GenLockstep s.1) :
    ResInv s2 := by
  obtain ⟨a, pool⟩ := s
  obtain ⟨l, fl, hchain, hfs, hnd, hflq, hpool, hpnd⟩ := hres
  cases o with
  | tryReserve =>
    simp only [step] at h
    split at h
    · cases h
    · rename_i e c2 htr
      cases h
      obtain ⟨hc2, _⟩ := try_reserve_err_spec _ _ _ htr
      subst hc2
      exact ⟨l, fl, chaininv_controller a _ l hchain, hfs, hnd, hflq, hpool, hpnd⟩
    · rename_i i c2 htr
      cases h
      obtain ⟨cs, rest, hflc, hcsi, higen, hc2, hfs2⟩ :=
        try_reserve_pop _ i c2 fl htr hfs hnd
      subst hflc
      rw [List.nodup_cons] at hnd
      refine ⟨l, rest, chaininv_controller a c2 l hchain, hfs2, hnd.2, ?_, ?_, ?_⟩
      · intro q hq
        obtain ⟨cs2, hcs2, hsq⟩ := hflq q (List.mem_cons_of_mem _ hq)
        refine ⟨cs2, ?_, hsq⟩
        rw [hc2]
        simp only
        have hne2 : i.index ≠ q := by
          intro hh
          apply hnd.1
          rw [hh]
          exact hq
        rw [get?_set_ne _ _ hne2]
        exact hcs2
      · intro i2 hi2
        rcases List.mem_append.mp hi2 with hi2 | hi2
        · obtain ⟨hfree2, hnot⟩ := hpool i2 hi2
          exact ⟨hfree2, fun hc => hnot (List.mem_cons_of_mem _ hc)⟩
        · rw [List.mem_singleton] at hi2
          rw [hi2]
          obtain ⟨cs2, hcs2, hsq⟩ := hflq i.index (List.mem_cons_self _ _)
          rw [hcsi, Option.some_inj] at hcs2
          subst hcs2
          constructor
          · rw [higen]
            exact hsq
          · exact hnd.1
      · rw [List.map_append, List.map_singleton, List.nodup_append]
        refine ⟨hpnd, List.nodup_singleton _, ?_⟩
        intro x hx hx2
        rw [List.mem_singleton] at hx2
        obtain ⟨i2, hi2, hxi⟩ := List.mem_map.mp hx
        apply (hpool i2 hi2).2
        rw [hxi, hx2]
        exact List.mem_cons_self _ _
  | insertOp v =>
    simp only [step] at h
    split at h
    · cases h
    · rename_i r a2 hins
      cases h
      rcases insert_dissect a v (r, a2) hins with ⟨e, hr, ha⟩ | ⟨i, hr, c2, htr, hwi⟩
      · simp only at ha
        rw [ha]
        exact ⟨l, fl, hchain, hfs, hnd, hflq, hpool, hpnd⟩
      · simp only at hwi
        obtain ⟨cs, rest, hflc, hcsi, higen, hc2, hfs2⟩ :=
          try_reserve_pop _ i c2 fl htr hfs hnd
        subst hflc
        rw [List.nodup_cons] at hnd
        obtain ⟨cs2, hcs2, hsq⟩ := hflq i.index (List.mem_cons_self _ _)
        rw [hcsi, Option.some_inj] at hcs2
        subst hcs2
        have ha2ctrl : a2.controller = c2 :=
          insert_with_index_controller _ i v (Except.ok (), a2) hwi
        have hchain2 := chaininv_insert_with_index_ok _ l
          (chaininv_controller a c2 l hchain) i v a2 hwi
        refine ⟨_, rest, hchain2, ?_, hnd.2, ?_, ?_, hpnd⟩
        · rw [ha2ctrl]
          exact hfs2
        · intro q hq
          obtain ⟨cs3, hcs3, hsq3⟩ := hflq q (List.mem_cons_of_mem _ hq)
          have hne2 : q ≠ i.index := by
            intro hh
            apply hnd.1
            rw [← hh]
            exact hq
          refine ⟨cs3, ?_, ?_⟩
          · rw [ha2ctrl, hc2]
            simp only
            rw [get?_set_ne _ _ (fun hh => hne2 hh.symm)]
            exact hcs3
          · exact insert_with_index_preserves_free _ i v a2 hwi q
              cs3.generation hsq3 hne2
        · intro i2 hi2
          obtain ⟨hfree2, hnot⟩ := hpool i2 hi2
          have hne2 : i2.index ≠ i.index := by
            intro hh
            apply hnot
            rw [hh]
            exact List.mem_cons_self _ _
          exact ⟨insert_with_index_preserves_free _ i v a2 hwi i2.index
              i2.generation hfree2 hne2,
            fun hc => hnot (List.mem_cons_of_mem _ hc)⟩
  | insertWithIndexOp i v =>
    simp [isRawInsert] at hraw
  | insertReserved n v =>
    simp only [step] at h
    split at h
    · cases h
      exact ⟨l, fl, hchain, hfs, hnd, hflq, hpool, hpnd⟩
    · rename_i i hpn
      split at h
      · cases h
      · rename_i r a2 hwi
        cases h
        have hifacts := hpool i (List.get?_mem hpn)
        obtain ⟨a3, hok⟩ := insert_with_index_total a l hchain i v hifacts.1
        rw [hok, Option.some_inj] at hwi
        have ha23 : a3 = a2 := congrArg Prod.snd hwi
        rw [← ha23]
        have hchain2 := chaininv_insert_with_index_ok a l hchain i v a3 hok
        have hc3 : a3.controller = a.controller :=
          insert_with_index_controller _ i v (Except.ok (), a3) hok
        refine ⟨_, fl, hchain2, ?_, hnd, ?_, ?_, ?_⟩
        · rw [hc3]
          exact hfs
        · intro q hq
          obtain ⟨cs3, hcs3, hsq3⟩ := hflq q hq
          have hne2 : q ≠ i.index := by
            intro hh
            apply hifacts.2
            rw [← hh]
            exact hq
          exact ⟨cs3, by rw [hc3]; exact hcs3,
            insert_with_index_preserves_free a i v a3 hok q
              cs3.generation hsq3 hne2⟩
        · intro i2 hi2
          have hi2mem : i2 ∈ pool := (List.eraseIdx_sublist pool n).subset hi2
          obtain ⟨hfree2, hnot⟩ := hpool i2 hi2mem
          have hne2 : i2.index ≠ i.index :=
            eraseIdx_map_ne Index.index pool n i hpn hpnd i2 hi2
          exact ⟨insert_with_index_preserves_free a i v a3 hok i2.index
              i2.generation hfree2 hne2, hnot⟩
        · exact List.Nodup.sublist
            ((List.eraseIdx_sublist pool n).map Index.index) hpnd
  | removeOp i =>
    simp only [step] at h
    split at h
    · cases h
    · rename_i res a2 hrm
      cases h
      cases res with
      | none =>
        rw [remove_none_noop a i a2 hrm]
        exact ⟨l, fl, hchain, hfs, hnd, hflq, hpool, hpnd⟩
      | some d =>
        obtain ⟨pr, nx, cs, fi, hs, hcs, hfi, slots2, slots3, h2, h3, ha2⟩ :=
          remove_ok_spec a i d a2 hrm
        have hgen : cs.generation = i.generation := by
          have hlk := hlock i.index
          unfold ctrlGenAt slotsGenAt at hlk
          rw [hcs, hs] at hlk
          simp only [Option.map_some', Option.some_inj] at hlk
          exact hlk
        obtain ⟨l2, hchain2⟩ := chaininv_remove a l hchain i (some d) a2 hrm
        have hmemfl : i.index ∉ fl := by
          intro hc
          obtain ⟨cs4, _, hsq4⟩ := hflq i.index hc
          rw [hs] at hsq4
          simp at hsq4
        have hpne : ∀ i2 ∈ pool, i2.index ≠ i.index := by
          intro i2 hi2 hc
          have hf2 := (hpool i2 hi2).1
          rw [hc, hs] at hf2
          simp at hf2
        refine ⟨l2, i.index :: fl, hchain2, ?_, ?_, ?_, ?_, hpnd⟩
        · rw [ha2]
          simp only
          rw [freeseg_cons]
          refine ⟨?_, ⟨true, usizeWrap (cs.generation + 1),
            a.controller.first_free_slot_index⟩, ?_, ?_⟩
          · unfold freedController
            rfl
          · unfold freedController
            simp only
            rw [get?_set_self _ (get?_some_lt hcs)]
          · simp only
            apply freeseg_congr a.controller _ fl _ ?_ hfs
            intro x hx
            unfold freedController
            simp only
            have hxne : i.index ≠ x := by
              intro hh
              apply hmemfl
              rw [hh]
              exact hx
            rw [get?_set_ne _ _ hxne]
        · rw [List.nodup_cons]
          exact ⟨hmemfl, hnd⟩
        · intro q hq
          rcases List.mem_cons.mp hq with hq | hq
          · subst hq
            refine ⟨⟨true, usizeWrap (cs.generation + 1),
              a.controller.first_free_slot_index⟩, ?_, ?_⟩
            · rw [ha2]
              unfold freedController
              simp only
              rw [get?_set_self _ (get?_some_lt hcs)]
            · rw [ha2]
              simp only
              have hfreedi : (a.slots.set i.index
                  ⟨ArenaSlotState.Free, usizeWrap (i.generation + 1)⟩).get? i.index =
                  some ⟨ArenaSlotState.Free, usizeWrap (i.generation + 1)⟩ :=
                get?_set_self _ (get?_some_lt hs)
              have hs2i : slots2.get? i.index =
                  some ⟨ArenaSlotState.Free, usizeWrap (i.generation + 1)⟩ := by
                rcases prevUpd_spec _ _ _ _ h2 with ⟨_, hout⟩ |
                  ⟨pi, d2, pp2, nn2, g2, hpr, hr2, hout⟩
                · rw [hout]
                  exact hfreedi
                · rw [hout]
                  have hne3 : pi ≠ i.index := by
                    intro hc
                    rw [hc, hfreedi] at hr2
                    simp at hr2
                  rw [get?_set_ne _ _ hne3]
                  exact hfreedi
              have hs3i : slots3.get? i.index =
                  some ⟨ArenaSlotState.Free, usizeWrap (i.generation + 1)⟩ := by
                rcases nextUpd_spec _ _ _ _ h3 with ⟨_, hout⟩ |
                  ⟨ni, d1, pp, nn, g1, hnx, hr1, hout⟩
                · rw [hout]
                  exact hs2i
                · rw [hout]
                  have hne3 : ni ≠ i.index := by
                    intro hc
                    rw [hc, hs2i] at hr1
                    simp at hr1
                  rw [get?_set_ne _ _ hne3]
                  exact hs2i
              rw [hgen]
              exact hs3i
          · obtain ⟨cs4, hcs4, hsq4⟩ := hflq q hq
            have hqne : q ≠ i.index := by
              intro hc
              rw [hc, hs] at hsq4
              simp at hsq4
            refine ⟨cs4, ?_, ?_⟩
            · rw [ha2]
              unfold freedController
              simp only
              rw [get?_set_ne _ _ (fun hh => hqne hh.symm)]
              exact hcs4
            · exact remove_preserves_free a i d a2 hrm q cs4.generation hsq4 hqne
        · intro i2 hi2
          obtain ⟨hfree2, hnot⟩ := hpool i2 hi2
          refine ⟨remove_preserves_free a i d a2 hrm i2.index i2.generation
            hfree2 (hpne i2 hi2), ?_⟩
          intro hc
          rcases List.mem_cons.mp hc with hc | hc
          · exact hpne i2 hi2 hc
          · exact hnot hc
  | getMutWrite i v =>
    simp only [step] at h
    split at h
    · cases h
    · rename_i a2 hsv
      cases h
      obtain ⟨l2, hchain2⟩ := chaininv_set_via a l hchain i v a2 hsv
      rcases set_via_get_mut_spec a i v a2 hsv with ha |
        ⟨s0, d, pr, nx, hs0, hst0, hgen0, ha2⟩
      · rw [ha]
        exact ⟨l, fl, hchain, hfs, hnd, hflq, hpool, hpnd⟩
      · refine ⟨l2, fl, hchain2, ?_, hnd, ?_, ?_, hpnd⟩
        · rw [ha2]
          simp only
          exact hfs
        · intro q hq
          obtain ⟨cs4, hcs4, hsq4⟩ := hflq q hq
          have hqne : i.index ≠ q := by
            intro hc
            rw [hc, hsq4, Option.some_inj] at hs0
            rw [← hs0] at hst0
            simp at hst0
          refine ⟨cs4, ?_, ?_⟩
          · rw [ha2]
            simp only
            exact hcs4
          · rw [ha2]
            simp only
            rw [get?_set_ne _ _ hqne]
            exact hsq4
        · intro i2 hi2
          obtain ⟨hfree2, hnot⟩ := hpool i2 hi2
          have hine : i.index ≠ i2.index := by
            intro hc
            rw [hc, hfree2, Option.some_inj] at hs0
            rw [← hs0] at hst0
            simp at hst0
          refine ⟨?_, hnot⟩
          rw [ha2]
          simp only
          rw [get?_set_ne _ _ hine]
          exact hfree2

/-- A whole raw-`insert_with_index`-free trace preserves the reservation
invariant. -/
theorem applyOps_resinv :
    ∀ (ops : List (Op T)) (s s2 : ArenaSt T),
      applyOps ops s = some s2 →
      (ops.all fun o => !(isRawInsert o)) = true →
      ResInv s → GenLockstep s.1 → ResInv s2 := by
  intro ops
  induction ops with
  | nil =>
    intro s s2 h _ hres _
    cases h
    exact hres
  | cons o os ih =>
    intro s s2 h hall hres hlock
    rw [List.all_cons, Bool.and_eq_true] at hall
    simp only [applyOps] at h
    split at h
    · cases h
    · rename_i s1 hstep
      have hraw : isRawInsert o = false := by
        have hh := hall.1
        rwa [Bool.not_eq_true'] at hh
      exact ih s1 s2 h hall.2 (step_resinv o s s1 hstep hraw hres hlock)
        (step_lockstep o s s1 hstep hlock)

/-- Claim C9, corrected: it fails as stated because the public
`insert_with_index` accepts arbitrary indices and can occupy a slot behind the
controller's back (see the counterexample theorem); restricted to traces of
the public operations that never call `insert_with_index` with an arbitrary,
non-reserved index — reservation-based insertion (`insert_reserved`) remains
allowed — whenever `insert`'s internal `try_reserve` succeeds, the subsequent
`insert_with_index` with the freshly reserved index succeeds, so the `unwrap`
inside `insert` never panics. -/
theorem claim_C9_reserved_index_insert (c : Nat) (hc : 1 ≤ c)
    (ops : List (Op T)) (hops : (ops.all fun o => !(isRawInsert o)) = true)
    (s : ArenaSt T) (h : applyOps ops (initSt c) = some s) (v : T) (i : Index)
    (c2 : ControllerInner)
    (htr : s.1.controller.try_reserve = some (Except.ok i, c2)) :
    ∃ a2, s.1.insert v = some (Except.ok i, a2) := by
  obtain ⟨l, fl, hchain, hfs, hnd, hflq, hpool, hpnd⟩ :=
    applyOps_resinv ops (initSt c) s h hops (resinv_init c hc) (new_lockstep c)
  obtain ⟨cs, rest, hflc, hcsi, higen, hc2, hfs2⟩ :=
    try_reserve_pop _ i c2 fl htr hfs hnd
  obtain ⟨cs2, hcs2, hsq⟩ := hflq i.index (by rw [hflc]; exact List.mem_cons_self _ _)
  rw [hcsi, Option.some_inj] at hcs2
  subst hcs2
  have hsq2 : s.1.slots.get? i.index =
      some ⟨ArenaSlotState.Free, i.generation⟩ := by
    rw [higen]
    exact hsq
  obtain ⟨a2, hok⟩ := insert_with_index_total { s.1 with controller := c2 } l
    (chaininv_controller s.1 c2 l hchain) i v hsq2
  exact ⟨a2, insert_ok_of s.1 v i c2 a2 htr hok⟩

def c9cS : ArenaSt Nat :=
  (step (Op.insertWithIndexOp ⟨0, 0⟩ 7) (initSt 1)).getD (Arena.new 0, [])

/-- Claim C9 as literally stated is refuted by this trace: on a fresh
capacity-1 arena, the public `insert_with_index` with the never-reserved index
`(0, 0)` succeeds; the next `insert`'s internal `try_reserve` then succeeds
with that same slot, but its `insert_with_index` fails with
`IndexNotReserved`, so the `unwrap` panics (`insert` returns `none`). -/
theorem claim_C9_reserved_index_insert_counterexample :
    step (Op.insertWithIndexOp ⟨0, 0⟩ 7) (initSt 1 : ArenaSt Nat) = some c9cS ∧
    c9cS.1.controller.try_reserve =
      some (Except.ok ⟨0, 0⟩,
        { slots := [⟨false, 0, NO_NEXT_FREE_SLOT⟩]
          first_free_slot_index := NO_NEXT_FREE_SLOT }) ∧
    c9cS.1.insert 8 = none ∧
    step (Op.insertOp 8) c9cS = none := by
  refine ⟨by decide, by decide, by decide, by decide⟩

def c9wS : ArenaSt Nat :=
  (applyOps [Op.insertOp 5] (initSt 2)).getD (Arena.new 0, [])

def c9wC : ControllerInner :=
  ((c9wS.1.controller.try_reserve).map (fun x => x.2)).getD (ControllerInner.new 0)

theorem claim_C9_reserved_index_insert_witness :
    1 ≤ 2 ∧ (([Op.insertOp 5] : List (Op Nat)).all fun o => !(isRawInsert o)) = true ∧
      applyOps [Op.insertOp (5 : Nat)] (initSt 2) = some c9wS ∧
      c9wS.1.controller.try_reserve = some (Except.ok ⟨1, 0⟩, c9wC) ∧
      ∃ a2, c9wS.1.insert 7 = some (Except.ok ⟨1, 0⟩, a2) :=
  ⟨by decide, by decide, by decide, by decide,
    claim_C9_reserved_index_insert 2 (by decide) [Op.insertOp 5] (by decide)
      c9wS (by decide) 7 ⟨1, 0⟩ c9wC (by decide)⟩


end AtomicArena
